import Mathlib

/-!
# Key state engine of the keyboard firmware (`src/keystate.c`)

A shallow embedding of the key state table, the matrix scan with its debounce
registers, the keypad-layer toggle, the queries, the keyboard report renderer
and the mouse report renderer with its acceleration curve, followed by the
properties proved about them.

Conventions of the embedding.

* `uint8_t` values are natural numbers; where the C code can wrap, the wrap is
  written out (`% 256`).  A decrement of a `uint8_t` is `(x + 255) % 256`.
* The array `key_states[KEYSTATE_COUNT]` is a function from slot index to entry;
  only the indices below `KEYSTATE_COUNT` are ever read or written.
* A `for` loop without `break` is a left fold over `List.range`; a loop that can
  leave early is a recursion on the number of iterations still to run, with the
  loop index as a second argument.
* The hardware reading `matrix_read_column(col)` after `matrix_select_row(row)`
  is a function `reading row col` handed to the scan.
* The function-local statics of `keystate_Fill_MouseReport` are a record passed
  in and returned; a `uint16_t` increment is `(x + 1) % 65536`.
-/

namespace Keystate

set_option maxRecDepth 10000

/-- Number of slots of the key state table (`#define KEYSTATE_COUNT 14`). -/
abbrev KEYSTATE_COUNT : Nat := 14

/-- Constants and tables that `keystate.c` takes from its headers
(`keystate.h`, `hardware.h`, `config.h`, `Keyboard.h`); they are parameters of
the embedding.  `config_get_definition` is the lookup of the output code
assigned to a logical key. -/
structure Env where
  NO_KEY : Nat
  DEBOUNCE_MASK : Nat
  MATRIX_ROWS : Nat
  MATRIX_COLS : Nat
  matrix_to_logical_map : Nat → Nat → Nat
  KEYPAD_LAYER_START : Nat
  KEYPAD_LAYER_SIZE : Nat
  LOGICAL_KEY_PROGRAM : Nat
  config_get_definition : Nat → Nat
  SPECIAL_HID_KEYS_START : Nat
  HID_KEYBOARD_SC_LEFT_CONTROL : Nat
  HID_KEYBOARD_SC_ERROR_ROLLOVER : Nat

/-- Modelled from the spec: the declaration of `key_state` (in `keystate.h`) is
missing; the spec gives an entry as a logical code, a debounce shift register
and a settled flag.  The flag `state` is only ever assigned 0 or 1 and read as
a truth value, `false` is 0 and `true` is 1. -/
structure key_state where
  l_key : Nat
  state : Bool
  debounce : Nat
deriving DecidableEq

/-- The globals of `keystate.c`: the table, `key_press_count` and
`keypad_mode`. -/
structure State where
  key_states : Nat → key_state
  key_press_count : Nat
  keypad_mode : Nat

/-- The keyboard report filled by `keystate_Fill_KeyboardReport`: the modifier
byte and the six key-code slots (`KeyCode[0..5]`). -/
structure KeyboardReport_Data_t where
  Modifier : Nat
  KeyCode : Nat → Nat

/-- Function `keystate_init` (lines 67-73): every slot is set free.  The
counter `key_press_count` is not written. -/
def keystate_init (E : Env) (s : State) : State :=
  (List.range KEYSTATE_COUNT).foldl
    (fun s i => { s with key_states := Function.update s.key_states i ⟨E.NO_KEY, false, 0⟩ }) s

/-- Lines 102-121 of `keystate_update`: slot `j` holds the key being read; its
debounce register takes the reading, and the entry is removed, settled or left
as it is. -/
def found_key (E : Env) (reading : Nat) (s : State) (j : Nat) : State :=
  let key := s.key_states j
  let debounce := E.DEBOUNCE_MASK &&& ((key.debounce <<< 1) ||| reading)
  if debounce = 0 then
    { s with
      key_press_count := if key.state then (s.key_press_count + 255) % 256 else s.key_press_count
      key_states := Function.update s.key_states j ⟨E.NO_KEY, false, debounce⟩ }
  else if key.state = false ∧ debounce = E.DEBOUNCE_MASK then
    { s with
      key_press_count := (s.key_press_count + 1) % 256
      key_states := Function.update s.key_states j ⟨key.l_key, true, debounce⟩ }
  else
    { s with key_states := Function.update s.key_states j ⟨key.l_key, key.state, debounce⟩ }

/-- Lines 96-131 of `keystate_update`: the loop over the slots for one matrix
cell, from slot `j` with `n` iterations to go, and the code after the loop.
`free_slot` starts as `NO_KEY` and becomes the first free slot seen. -/
def scan_slots (E : Env) (l_key reading : Nat) (s : State) : Nat → Nat → Nat → State
  | 0, _, free_slot =>
    if reading ≠ 0 ∧ free_slot ≠ E.NO_KEY then
      { s with key_states := Function.update s.key_states free_slot ⟨l_key, false, 1⟩ }
    else s
  | n + 1, j, free_slot =>
    if free_slot = E.NO_KEY ∧ (s.key_states j).l_key = E.NO_KEY then
      scan_slots E l_key reading s n (j + 1) j
    else if (s.key_states j).l_key = l_key then
      found_key E reading s j
    else
      scan_slots E l_key reading s n (j + 1) free_slot

/-- Lines 86-88: the logical code under which a matrix code is tracked in the
given keypad mode (`l_key += KEYPAD_LAYER_SIZE` on a `uint8_t`). -/
def effective_key (E : Env) (keypad_mode l_key : Nat) : Nat :=
  if keypad_mode ≠ 0 ∧ l_key ≥ E.KEYPAD_LAYER_START then
    (l_key + E.KEYPAD_LAYER_SIZE) % 256
  else l_key

/-- Lines 82-132: the body of the column loop of `keystate_update` for the cell
`(matrix_row, matrix_col)`. -/
def update_cell (E : Env) (reading : Nat → Nat → Nat) (matrix_row : Nat) (s : State)
    (matrix_col : Nat) : State :=
  let l_key := E.matrix_to_logical_map matrix_row matrix_col
  if l_key = E.NO_KEY then s
  else
    scan_slots E (effective_key E s.keypad_mode l_key) (reading matrix_row matrix_col) s
      KEYSTATE_COUNT 0 E.NO_KEY

/-- Function `keystate_update` (lines 75-135): one scan of the whole matrix,
rows outside, columns inside. -/
def keystate_update (E : Env) (reading : Nat → Nat → Nat) (s : State) : State :=
  (List.range E.MATRIX_ROWS).foldl
    (fun s matrix_row => (List.range E.MATRIX_COLS).foldl (update_cell E reading matrix_row) s) s

/-- Lines 143-159: the body of the loop of `keystate_toggle_keypad` for slot
`i`, with `keypad_mode` already flipped. -/
def toggle_slot (E : Env) (s : State) (i : Nat) : State :=
  let l_key := (s.key_states i).l_key
  if l_key < E.KEYPAD_LAYER_START then s
  else if s.keypad_mode ≠ 0 ∧ l_key ≥ E.KEYPAD_LAYER_START + E.KEYPAD_LAYER_SIZE then s
  else if s.keypad_mode = 0 ∧ l_key < E.KEYPAD_LAYER_START + E.KEYPAD_LAYER_SIZE then s
  else
    { s with
      key_states := Function.update s.key_states i
        ⟨E.NO_KEY, false, (s.key_states i).debounce⟩
      key_press_count :=
        if (s.key_states i).state then (s.key_press_count + 255) % 256 else s.key_press_count }

/-- Function `keystate_toggle_keypad` (lines 139-161). -/
def keystate_toggle_keypad (E : Env) (s : State) : State :=
  (List.range KEYSTATE_COUNT).foldl (toggle_slot E)
    { s with keypad_mode := if s.keypad_mode = 0 then 1 else 0 }

/-- The loop of `keystate_check_key` (lines 166-171) from slot `i` with `n`
iterations to go. -/
def check_key_from (s : State) (l_key : Nat) : Nat → Nat → Bool
  | 0, _ => false
  | n + 1, i =>
    if (s.key_states i).l_key = l_key then (s.key_states i).state
    else check_key_from s l_key n (i + 1)

/-- Function `keystate_check_key` (lines 165-172). -/
def keystate_check_key (s : State) (l_key : Nat) : Bool :=
  check_key_from s l_key KEYSTATE_COUNT 0

/-- The `while(count--)` loop of `keystate_check_keys` (lines 181-189) over the
variadic arguments still unread.  Each argument is read as an `int` and stored
in a `logical_keycode` (`uint8_t`).  Reading past the last argument is
undefined in C and gives `none`. -/
def check_keys_loop (s : State) : Nat → List Nat → Option Bool
  | 0, _ => some true
  | _ + 1, [] => none
  | count + 1, arg :: argp =>
    if keystate_check_key s (arg % 256) then check_keys_loop s count argp
    else some false

/-- Function `keystate_check_keys` (lines 175-193), the variadic arguments
given as a list. -/
def keystate_check_keys (s : State) (count : Nat) (args : List Nat) : Option Bool :=
  if count > s.key_press_count then some false
  else check_keys_loop s count args

/-- Lines 212-236 of `keystate_Fill_KeyboardReport`: the loop over the slots
from slot `i` with `n` iterations to go; the result is the final `rollover`
flag, `UsedKeyCodes` and the report. -/
def fill_slots (E : Env) (s : State) :
    Nat → Nat → Nat → Bool → KeyboardReport_Data_t → Bool × Nat × KeyboardReport_Data_t
  | 0, _, UsedKeyCodes, rollover, report => (rollover, UsedKeyCodes, report)
  | n + 1, i, UsedKeyCodes, rollover, report =>
    if (s.key_states i).state then
      if UsedKeyCodes = 6 then (true, UsedKeyCodes, report)
      else
        let l_key := (s.key_states i).l_key
        let rollover := if l_key = E.LOGICAL_KEY_PROGRAM then true else rollover
        let h_key := E.config_get_definition l_key
        if h_key ≥ E.SPECIAL_HID_KEYS_START then
          fill_slots E s n (i + 1) UsedKeyCodes rollover report
        else if h_key ≥ E.HID_KEYBOARD_SC_LEFT_CONTROL then
          let shift := h_key - E.HID_KEYBOARD_SC_LEFT_CONTROL
          fill_slots E s n (i + 1) UsedKeyCodes rollover
            { report with Modifier := (report.Modifier ||| (1 <<< shift)) % 256 }
        else
          fill_slots E s n (i + 1) (UsedKeyCodes + 1) rollover
            { report with KeyCode := Function.update report.KeyCode UsedKeyCodes h_key }
    else fill_slots E s n (i + 1) UsedKeyCodes rollover report

/-- Function `keystate_Fill_KeyboardReport` (lines 206-241). -/
def keystate_Fill_KeyboardReport (E : Env) (s : State) (KeyboardReport : KeyboardReport_Data_t) :
    KeyboardReport_Data_t :=
  let r := fill_slots E s KEYSTATE_COUNT 0 0 false KeyboardReport
  if r.1 then
    (List.range 6).foldl
      (fun report i =>
        { report with
          KeyCode := Function.update report.KeyCode i E.HID_KEYBOARD_SC_ERROR_ROLLOVER })
      r.2.2
  else r.2.2

/-- What drives the engine: a scan of the matrix with the raw levels it reads,
or a call of the keypad toggle. -/
inductive Event where
  | scan (reading : Nat → Nat → Nat)
  | toggle

/-- One event applied to the globals. -/
def step (E : Env) (s : State) : Event → State
  | Event.scan reading => keystate_update E reading s
  | Event.toggle => keystate_toggle_keypad E s

/-- A finite sequence of events applied in order. -/
def run (E : Env) (s : State) (events : List Event) : State :=
  events.foldl (step E) s

/-- The start-up state: the zero-initialised globals after `keystate_init`, so
every slot is free, `key_press_count` is 0 and the keypad mode is off. -/
def startup (E : Env) : State :=
  keystate_init E ⟨fun _ => ⟨0, false, 0⟩, 0, 0⟩

/-- Number of table entries with `state = 1`. -/
def settled_count (s : State) : Nat :=
  (List.range KEYSTATE_COUNT).countP (fun j => (s.key_states j).state)

/-- A small environment used for concrete runs: a 2 x 2 matrix with one empty
cell, a three-bit debounce register and the usual HID constants. -/
def demoEnv : Env where
  NO_KEY := 255
  DEBOUNCE_MASK := 7
  MATRIX_ROWS := 2
  MATRIX_COLS := 2
  matrix_to_logical_map := fun r c => if r = 1 ∧ c = 1 then 255 else 2 * r + c
  KEYPAD_LAYER_START := 2
  KEYPAD_LAYER_SIZE := 10
  LOGICAL_KEY_PROGRAM := 40
  config_get_definition := fun l => l + 4
  SPECIAL_HID_KEYS_START := 232
  HID_KEYBOARD_SC_LEFT_CONTROL := 224
  HID_KEYBOARD_SC_ERROR_ROLLOVER := 1

/-- A 4 x 4 matrix with sixteen keys, more than the table has slots. -/
def wideEnv : Env where
  NO_KEY := 255
  DEBOUNCE_MASK := 7
  MATRIX_ROWS := 4
  MATRIX_COLS := 4
  matrix_to_logical_map := fun r c => 4 * r + c
  KEYPAD_LAYER_START := 100
  KEYPAD_LAYER_SIZE := 50
  LOGICAL_KEY_PROGRAM := 40
  config_get_definition := fun l => l + 4
  SPECIAL_HID_KEYS_START := 232
  HID_KEYBOARD_SC_LEFT_CONTROL := 224
  HID_KEYBOARD_SC_ERROR_ROLLOVER := 1

/-- The invariant behind the settled count: a free slot is not settled, and
`key_press_count` is the number of settled entries. -/
def CountInv (E : Env) (s : State) : Prop :=
  (∀ j < KEYSTATE_COUNT, (s.key_states j).l_key = E.NO_KEY → (s.key_states j).state = false) ∧
    s.key_press_count = settled_count s

/-- No populated matrix cell is tracked under the code `NO_KEY`, in either
keypad mode: the effective codes of the matrix map never equal `NO_KEY`. -/
def effective_codes_valid (E : Env) : Prop :=
  ∀ r < E.MATRIX_ROWS, ∀ c < E.MATRIX_COLS, ∀ mode < 2,
    E.matrix_to_logical_map r c ≠ E.NO_KEY →
      effective_key E mode (E.matrix_to_logical_map r c) ≠ E.NO_KEY

instance (E : Env) : Decidable (effective_codes_valid E) := by
  unfold effective_codes_valid
  infer_instance

/-- The table after `t` scans from `s0`, scan number `i` (counted from 0)
reading the levels `rd i`; no keypad toggle in between. -/
def state_at (E : Env) (s0 : State) (rd : Nat → Nat → Nat → Nat) : Nat → State
  | 0 => s0
  | t + 1 => keystate_update E (rd t) (state_at E s0 rd t)

/-- The table inside a scan at the moment the cell `(r0, c0)` is reached: the
rows before `r0` and the columns before `c0` of row `r0` have been processed. -/
def before_cell (E : Env) (reading : Nat → Nat → Nat) (r0 c0 : Nat) (s : State) : State :=
  (List.range c0).foldl (update_cell E reading r0)
    ((List.range r0).foldl
      (fun s matrix_row => (List.range E.MATRIX_COLS).foldl (update_cell E reading matrix_row) s) s)

/-- The table right after the cell `(r0, c0)` has been processed in a scan. -/
def after_cell (E : Env) (reading : Nat → Nat → Nat) (r0 c0 : Nat) (s : State) : State :=
  update_cell E reading r0 (before_cell E reading r0 c0 s) c0

/-- Some slot holds the logical code `K`: the key is tracked. -/
def is_tracked (s : State) (K : Nat) : Prop :=
  ∃ j < KEYSTATE_COUNT, (s.key_states j).l_key = K

/-- Some slot holds the logical code `K` with `state = 1`: the key is settled. -/
def is_settled (s : State) (K : Nat) : Prop :=
  ∃ j < KEYSTATE_COUNT, (s.key_states j).l_key = K ∧ (s.key_states j).state = true

/-- Some slot is free. -/
def has_free_slot (E : Env) (s : State) : Prop :=
  ∃ j < KEYSTATE_COUNT, (s.key_states j).l_key = E.NO_KEY

instance (s : State) (K : Nat) : Decidable (is_tracked s K) := by
  unfold is_tracked
  infer_instance

instance (s : State) (K : Nat) : Decidable (is_settled s K) := by
  unfold is_settled
  infer_instance

instance (E : Env) (s : State) : Decidable (has_free_slot E s) := by
  unfold has_free_slot
  infer_instance

/-- The key `K` settles between the tables `sb` and `sa`: its entry goes from
`state = 0` to `state = 1` in place and `key_press_count` is incremented. -/
def settles (sb sa : State) (K : Nat) : Prop :=
  ∃ j < KEYSTATE_COUNT,
    (sb.key_states j).l_key = K ∧ (sb.key_states j).state = false ∧
    (sa.key_states j).l_key = K ∧ (sa.key_states j).state = true ∧
    sa.key_press_count = (sb.key_press_count + 1) % 256

/-- What lines 102-131 do to one key seen on its own: `none` is an untracked
key, `some (state, debounce)` a tracked one. -/
def key_step (E : Env) (a : Option (Bool × Nat)) (reading : Nat) : Option (Bool × Nat) :=
  match a with
  | none => if reading ≠ 0 then some (false, 1) else none
  | some (state, debounce) =>
    let debounce := E.DEBOUNCE_MASK &&& ((debounce <<< 1) ||| reading)
    if debounce = 0 then none
    else if state = false ∧ debounce = E.DEBOUNCE_MASK then some (true, debounce)
    else some (state, debounce)

/-- The key `K` in the table `s` is as `a` describes it: untracked, or tracked
in exactly one slot with the given flag and register. -/
def Shadows (K : Nat) (s : State) (a : Option (Bool × Nat)) : Prop :=
  match a with
  | none => ∀ j < KEYSTATE_COUNT, (s.key_states j).l_key ≠ K
  | some (state, debounce) =>
    ∃ j < KEYSTATE_COUNT, s.key_states j = ⟨K, state, debounce⟩ ∧
      ∀ i < KEYSTATE_COUNT, i ≠ j → (s.key_states i).l_key ≠ K

/-- The entries of the key `K` are the same in `s` and `t`, no other entry has
taken the code `K`, and the keypad mode is the same. -/
def KeyFrame (K : Nat) (s t : State) : Prop :=
  t.keypad_mode = s.keypad_mode ∧
    ∀ j < KEYSTATE_COUNT,
      ((s.key_states j).l_key = K → t.key_states j = s.key_states j) ∧
      ((s.key_states j).l_key ≠ K → (t.key_states j).l_key ≠ K)

/-- In keypad mode `mode`, the cell `(r0, c0)` is the only populated matrix
cell whose effective code is `K`. -/
def only_cell (E : Env) (mode K r0 c0 : Nat) : Prop :=
  ∀ r < E.MATRIX_ROWS, ∀ c < E.MATRIX_COLS, E.matrix_to_logical_map r c ≠ E.NO_KEY →
    effective_key E mode (E.matrix_to_logical_map r c) = K → r = r0 ∧ c = c0

instance (E : Env) (mode K r0 c0 : Nat) : Decidable (only_cell E mode K r0 c0) := by
  unfold only_cell
  infer_instance

/-- The key of one cell seen on its own over time: `key_trace E r t` is its
description after `t` scans reading `r 0, ..., r (t - 1)`, starting untracked. -/
def key_trace (E : Env) (r : Nat → Nat) : Nat → Option (Bool × Nat)
  | 0 => none
  | t + 1 => key_step E (key_trace E r t) (r t)

/-- The debounce register as a function of the readings alone: the register a
key would hold after `t` scans if it were tracked from the start. -/
def history (E : Env) (r : Nat → Nat) : Nat → Nat
  | 0 => 0
  | t + 1 => E.DEBOUNCE_MASK &&& ((history E r t <<< 1) ||| r t)

/-- The debounce register of a tracked key that starts at `d` and then reads
deasserted levels only, after `i` scans. -/
def release_reg (E : Env) (d : Nat) : Nat → Nat
  | 0 => d
  | i + 1 => E.DEBOUNCE_MASK &&& ((release_reg E d i <<< 1) ||| 0)

/-- The matrix cells in the order in which `keystate_update` visits them. -/
def cells (E : Env) : List (Nat × Nat) :=
  (List.range E.MATRIX_ROWS).flatMap (fun r => (List.range E.MATRIX_COLS).map (fun c => (r, c)))

/-- The effective codes of the populated cells among `cs`, in order. -/
def codes_of (E : Env) (mode : Nat) (cs : List (Nat × Nat)) : List Nat :=
  (cs.filter (fun rc => decide (E.matrix_to_logical_map rc.1 rc.2 ≠ E.NO_KEY))).map
    (fun rc => effective_key E mode (E.matrix_to_logical_map rc.1 rc.2))

/-- The effective codes of the populated cells among `cs` that read asserted,
in order. -/
def pressed_of (E : Env) (reading : Nat → Nat → Nat) (mode : Nat) (cs : List (Nat × Nat)) :
    List Nat :=
  (cs.filter (fun rc =>
      decide (E.matrix_to_logical_map rc.1 rc.2 ≠ E.NO_KEY ∧ reading rc.1 rc.2 ≠ 0))).map
    (fun rc => effective_key E mode (E.matrix_to_logical_map rc.1 rc.2))

/-- The table `s` holds the first codes of the list `l`, one per slot from slot
0 on, each as a fresh entry, the slots after them are free, and the counter and
the keypad mode are those of `s0`. -/
def TableIs (E : Env) (l : List Nat) (s0 s : State) : Prop :=
  s.keypad_mode = s0.keypad_mode ∧ s.key_press_count = s0.key_press_count ∧
    ∀ j < KEYSTATE_COUNT,
      (j < l.length → s.key_states j = ⟨l.getD j 0, false, 1⟩) ∧
      (l.length ≤ j → (s.key_states j).l_key = E.NO_KEY)

/-- The entry in slot `j` is settled and its output code is an ordinary key
code (below `HID_KEYBOARD_SC_LEFT_CONTROL`). -/
def is_ordinary (E : Env) (s : State) (j : Nat) : Bool :=
  (s.key_states j).state &&
    decide (E.config_get_definition (s.key_states j).l_key < E.HID_KEYBOARD_SC_LEFT_CONTROL)

/-- Number of settled entries with an ordinary output code. -/
def ordinary_count (E : Env) (s : State) : Nat :=
  (List.range KEYSTATE_COUNT).countP (is_ordinary E s)

/-- No logical code other than `NO_KEY` is held by two slots. -/
def UniqueKeys (E : Env) (s : State) : Prop :=
  ∀ i < KEYSTATE_COUNT, ∀ j < KEYSTATE_COUNT,
    (s.key_states i).l_key = (s.key_states j).l_key → (s.key_states i).l_key ≠ E.NO_KEY → i = j

/-- The invariants of the table: tracked codes are unique, and a free slot is
not settled. -/
def TableInv (E : Env) (s : State) : Prop :=
  UniqueKeys E s ∧
    ∀ j < KEYSTATE_COUNT, (s.key_states j).l_key = E.NO_KEY → (s.key_states j).state = false

instance (E : Env) (s : State) : Decidable (UniqueKeys E s) := by
  unfold UniqueKeys
  infer_instance

instance (E : Env) (s : State) : Decidable (TableInv E s) := by
  unfold TableInv
  infer_instance

/-- The table after the key of cell (0, 0) alone has been held for three scans
from start-up, in `demoEnv`: the key 0 is settled and `key_press_count` is 1. -/
def oneKeyDown : State :=
  run demoEnv (startup demoEnv)
    [Event.scan (fun r c => if r = 0 ∧ c = 0 then 1 else 0),
     Event.scan (fun r c => if r = 0 ∧ c = 0 then 1 else 0),
     Event.scan (fun r c => if r = 0 ∧ c = 0 then 1 else 0)]

/-- A 3 x 3 matrix whose keys 0-5 and 7 are ordinary keys (output codes 4-9
and 10), whose key 6 is left shift (225) and whose key 8 is left control (224). -/
def reportEnv : Env where
  NO_KEY := 255
  DEBOUNCE_MASK := 7
  MATRIX_ROWS := 3
  MATRIX_COLS := 3
  matrix_to_logical_map := fun r c => 3 * r + c
  KEYPAD_LAYER_START := 100
  KEYPAD_LAYER_SIZE := 50
  LOGICAL_KEY_PROGRAM := 40
  config_get_definition := fun l =>
    if l ≤ 5 then l + 4 else if l = 6 then 225 else if l = 7 then 10 else 224
  SPECIAL_HID_KEYS_START := 232
  HID_KEYBOARD_SC_LEFT_CONTROL := 224
  HID_KEYBOARD_SC_ERROR_ROLLOVER := 1

/-- The table after the keys 0-5 and left shift (key 6) have been held for
three scans from start-up, in `reportEnv`: slots 0-5 hold the six ordinary keys
and slot 6 holds left shift, all settled. -/
def sixKeysAndShift : State :=
  state_at reportEnv (startup reportEnv) (fun _ r c => if 3 * r + c ≤ 6 then 1 else 0) 3

/-- The table after the keys 0-5, 7 and left control (key 8) have been held for
three scans from start-up, in `reportEnv`: slots 0-6 hold seven ordinary keys
and slot 7 holds left control, all settled. -/
def sevenKeysAndControl : State :=
  state_at reportEnv (startup reportEnv) (fun _ r c => if 3 * r + c = 6 then 0 else 1) 3

/-- A table with the program key settled in slot 0 and nothing else. -/
def programState : State :=
  ⟨fun j => if j = 0 then ⟨40, true, 7⟩ else ⟨255, false, 0⟩, 1, 0⟩

/-- A zeroed keyboard report. -/
def emptyReport : KeyboardReport_Data_t := ⟨0, fun _ => 0⟩

/-- The loop of `keystate_get_keys` (lines 199-203) from slot `i` with `n`
iterations to go; `ki` is the next index of the output buffer.  The result is
the final `ki` and the buffer. -/
def get_keys_loop (s : State) : Nat → Nat → Nat → (Nat → Nat) → Nat × (Nat → Nat)
  | 0, _, ki, l_keys => (ki, l_keys)
  | n + 1, i, ki, l_keys =>
    if ki < s.key_press_count then
      if (s.key_states i).state then
        get_keys_loop s n (i + 1) (ki + 1) (Function.update l_keys ki (s.key_states i).l_key)
      else get_keys_loop s n (i + 1) ki l_keys
    else (ki, l_keys)

/-- Function `keystate_get_keys` (lines 197-204): the output buffer after the
call, given the buffer before it. -/
def keystate_get_keys (s : State) (l_keys : Nat → Nat) : Nat → Nat :=
  (get_keys_loop s KEYSTATE_COUNT 0 0 l_keys).2

/-- The logical codes of the entries with `state = 1` among the slots
`i, ..., i + n - 1`, in increasing slot order. -/
def settled_keys_from (s : State) (i n : Nat) : List Nat :=
  ((List.range' i n).filter (fun j => (s.key_states j).state)).map
    (fun j => (s.key_states j).l_key)

/-- The logical codes of all entries with `state = 1`, each once, in
increasing slot order. -/
def settled_keys (s : State) : List Nat :=
  ((List.range KEYSTATE_COUNT).filter (fun j => (s.key_states j).state)).map
    (fun j => (s.key_states j).l_key)

/-- The keypad mode after a toggle (`keypad_mode = !keypad_mode`). -/
def toggled_mode (s : State) : Nat :=
  if s.keypad_mode = 0 then 1 else 0

/-- The logical code `l_key` is valid in keypad mode `mode`: it is below the
keypad layer, or in the upper sub-range of the mode (mode on: from
`KEYPAD_LAYER_START + KEYPAD_LAYER_SIZE` on; mode off: below it). -/
def valid_in_mode (E : Env) (mode l_key : Nat) : Prop :=
  l_key < E.KEYPAD_LAYER_START ∨
    (mode ≠ 0 ∧ E.KEYPAD_LAYER_START + E.KEYPAD_LAYER_SIZE ≤ l_key) ∨
    (mode = 0 ∧ l_key < E.KEYPAD_LAYER_START + E.KEYPAD_LAYER_SIZE)

instance (E : Env) (mode l_key : Nat) : Decidable (valid_in_mode E mode l_key) := by
  unfold valid_in_mode
  infer_instance

/-- Number of slots below `n` whose entry is settled and holds a code that is
not valid in the mode after the toggle: the settled entries the toggle frees. -/
def freed_settled (E : Env) (s : State) (n : Nat) : Nat :=
  (List.range n).countP (fun j =>
    decide (¬ valid_in_mode E (toggled_mode s) (s.key_states j).l_key) && (s.key_states j).state)

/-- The mouse key codes that `keystate.c` takes from its headers; they are
parameters of the embedding. -/
structure MouseEnv where
  SPECIAL_HID_KEYS_MOUSE_START : Nat
  SPECIAL_HID_KEYS_MOUSE_END : Nat
  SPECIAL_HID_KEY_MOUSE_BTN1 : Nat
  SPECIAL_HID_KEY_MOUSE_BTN2 : Nat
  SPECIAL_HID_KEY_MOUSE_BTN3 : Nat
  SPECIAL_HID_KEY_MOUSE_BTN4 : Nat
  SPECIAL_HID_KEY_MOUSE_BTN5 : Nat
  SPECIAL_HID_KEY_MOUSE_FWD : Nat
  SPECIAL_HID_KEY_MOUSE_BACK : Nat
  SPECIAL_HID_KEY_MOUSE_LEFT : Nat
  SPECIAL_HID_KEY_MOUSE_RIGHT : Nat

/-- The mouse report filled by `keystate_Fill_MouseReport`: the button mask
(`uint8_t`) and the relative movement (`int8_t` each). -/
structure MouseReport_Data_t where
  Button : Nat
  X : Int
  Y : Int

/-- The function-local statics of `keystate_Fill_MouseReport` (lines 281-283):
`mousedown_time` (`uint16_t`) and `last_button_report` (`uint8_t`). -/
structure MouseStatics where
  mousedown_time : Nat
  last_button_report : Nat

/-- The initial values of the statics: `mousedown_time = 1`,
`last_button_report = 0`. -/
def mouse_startup : MouseStatics := ⟨1, 0⟩

/-- One block `if((mask & n) == 0){ leading_zeroes += bits; n <<= bits; }` of
`ilog2_16` on the pair `(leading_zeroes, n)`, `n` being a `uint16_t`. -/
def shift_if_clear (mask bits : Nat) (p : Nat × Nat) : Nat × Nat :=
  if mask &&& p.2 = 0 then (p.1 + bits, (p.2 <<< bits) % 65536) else p

/-- Function `ilog2_16` (lines 243-269): the five blocks in order, then
`16 - leading_zeroes` returned as a `uint8_t`. -/
def ilog2_16 (n : Nat) : Nat :=
  let p := shift_if_clear 0xFF00 8 (0, n)
  let p := shift_if_clear 0xF000 4 p
  let p := shift_if_clear 0xC000 2 p
  let p := shift_if_clear 0x8000 1 p
  let p := shift_if_clear 0x8000 1 p
  (16 - p.1) % 256

/-- Function `mouse_accel` (lines 271-278), the result a `uint8_t`. -/
def mouse_accel (time : Nat) : Nat :=
  if time < 0x2f then (ilog2_16 (time >>> 2) + 1) % 256
  else (2 * ilog2_16 (time >>> 3)) % 256

/-- Store of an `int` into an `int8_t` (two's complement wrap). -/
def to_int8 (x : Int) : Int :=
  (x + 128) % 256 - 128

/-- Lines 289-331 of `keystate_Fill_MouseReport`: the body of the loop for slot
`i`, acting on `(send, moving, report)`; the `switch` is the chain of its cases
in order. -/
def mouse_slot (E : Env) (M : MouseEnv) (s : State) (mousedown_time : Nat)
    (acc : Bool × Bool × MouseReport_Data_t) (i : Nat) : Bool × Bool × MouseReport_Data_t :=
  if (s.key_states i).state then
    let h_key := E.config_get_definition (s.key_states i).l_key
    if h_key ≥ M.SPECIAL_HID_KEYS_MOUSE_START ∧ h_key ≤ M.SPECIAL_HID_KEYS_MOUSE_END then
      if h_key = M.SPECIAL_HID_KEY_MOUSE_BTN1 then
        (true, acc.2.1, { acc.2.2 with Button := (acc.2.2.Button ||| 1) % 256 })
      else if h_key = M.SPECIAL_HID_KEY_MOUSE_BTN2 then
        (true, acc.2.1, { acc.2.2 with Button := (acc.2.2.Button ||| (1 <<< 1)) % 256 })
      else if h_key = M.SPECIAL_HID_KEY_MOUSE_BTN3 then
        (true, acc.2.1, { acc.2.2 with Button := (acc.2.2.Button ||| (1 <<< 2)) % 256 })
      else if h_key = M.SPECIAL_HID_KEY_MOUSE_BTN4 then
        (true, acc.2.1, { acc.2.2 with Button := (acc.2.2.Button ||| (1 <<< 3)) % 256 })
      else if h_key = M.SPECIAL_HID_KEY_MOUSE_BTN5 then
        (true, acc.2.1, { acc.2.2 with Button := (acc.2.2.Button ||| (1 <<< 4)) % 256 })
      else if h_key = M.SPECIAL_HID_KEY_MOUSE_FWD then
        (true, true, { acc.2.2 with Y := to_int8 (acc.2.2.Y - mouse_accel mousedown_time) })
      else if h_key = M.SPECIAL_HID_KEY_MOUSE_BACK then
        (true, true, { acc.2.2 with Y := to_int8 (acc.2.2.Y + mouse_accel mousedown_time) })
      else if h_key = M.SPECIAL_HID_KEY_MOUSE_LEFT then
        (true, true, { acc.2.2 with X := to_int8 (acc.2.2.X - mouse_accel mousedown_time) })
      else if h_key = M.SPECIAL_HID_KEY_MOUSE_RIGHT then
        (true, true, { acc.2.2 with X := to_int8 (acc.2.2.X + mouse_accel mousedown_time) })
      else (true, acc.2.1, acc.2.2)
    else acc
  else acc

/-- Function `keystate_Fill_MouseReport` (lines 280-343): the returned flag, the
report after the call and the statics after the call. -/
def keystate_Fill_MouseReport (E : Env) (M : MouseEnv) (s : State) (statics : MouseStatics)
    (MouseReport : MouseReport_Data_t) : Bool × MouseReport_Data_t × MouseStatics :=
  let acc := (List.range KEYSTATE_COUNT).foldl (mouse_slot E M s statics.mousedown_time)
    (false, false, MouseReport)
  let mousedown_time := if acc.2.1 then (statics.mousedown_time + 1) % 65536 else 1
  let send := acc.1 || decide (acc.2.2.Button ≠ statics.last_button_report)
  (send, acc.2.2, ⟨mousedown_time, acc.2.2.Button⟩)

/-- The block of `ilog2_16` in arithmetic: the mask test as a comparison and
the shift as a multiplication. -/
def shift_if_below (bound mult bits : Nat) (p : Nat × Nat) : Nat × Nat :=
  if p.2 < bound then (p.1 + bits, p.2 * mult) else p

/-- The entry in slot `j` is settled with an output code in the mouse range:
the loop of `keystate_Fill_MouseReport` sets `send` for it. -/
def mouse_key (E : Env) (M : MouseEnv) (s : State) (j : Nat) : Bool :=
  (s.key_states j).state &&
    decide (E.config_get_definition (s.key_states j).l_key ≥ M.SPECIAL_HID_KEYS_MOUSE_START ∧
      E.config_get_definition (s.key_states j).l_key ≤ M.SPECIAL_HID_KEYS_MOUSE_END)

/-- The entry in slot `j` is a mouse key that reaches one of the four direction
cases of the `switch` (the cases are tried in the order of the source): the
loop sets `moving` for it. -/
def direction_key (E : Env) (M : MouseEnv) (s : State) (j : Nat) : Bool :=
  mouse_key E M s j &&
    (if E.config_get_definition (s.key_states j).l_key = M.SPECIAL_HID_KEY_MOUSE_BTN1 then false
     else if E.config_get_definition (s.key_states j).l_key = M.SPECIAL_HID_KEY_MOUSE_BTN2 then
       false
     else if E.config_get_definition (s.key_states j).l_key = M.SPECIAL_HID_KEY_MOUSE_BTN3 then
       false
     else if E.config_get_definition (s.key_states j).l_key = M.SPECIAL_HID_KEY_MOUSE_BTN4 then
       false
     else if E.config_get_definition (s.key_states j).l_key = M.SPECIAL_HID_KEY_MOUSE_BTN5 then
       false
     else if E.config_get_definition (s.key_states j).l_key = M.SPECIAL_HID_KEY_MOUSE_FWD then
       true
     else if E.config_get_definition (s.key_states j).l_key = M.SPECIAL_HID_KEY_MOUSE_BACK then
       true
     else if E.config_get_definition (s.key_states j).l_key = M.SPECIAL_HID_KEY_MOUSE_LEFT then
       true
     else if E.config_get_definition (s.key_states j).l_key = M.SPECIAL_HID_KEY_MOUSE_RIGHT then
       true
     else false)

/-- A zeroed mouse report. -/
def zeroMouseReport : MouseReport_Data_t := ⟨0, 0, 0⟩

/-- The statics after `k` consecutive calls of `keystate_Fill_MouseReport` on
the table `s`, each on a zeroed report. -/
def mouse_calls (E : Env) (M : MouseEnv) (s : State) : Nat → MouseStatics → MouseStatics
  | 0, statics => statics
  | k + 1, statics =>
    mouse_calls E M s k (keystate_Fill_MouseReport E M s statics zeroMouseReport).2.2

/-- A 2 x 2 matrix whose key 0 is the mouse key "forward" and whose key 1 is
mouse button 1. -/
def pointerEnv : Env where
  NO_KEY := 255
  DEBOUNCE_MASK := 7
  MATRIX_ROWS := 2
  MATRIX_COLS := 2
  matrix_to_logical_map := fun r c => 2 * r + c
  KEYPAD_LAYER_START := 100
  KEYPAD_LAYER_SIZE := 50
  LOGICAL_KEY_PROGRAM := 40
  config_get_definition := fun l => if l = 0 then 245 else if l = 1 then 240 else l + 4
  SPECIAL_HID_KEYS_START := 232
  HID_KEYBOARD_SC_LEFT_CONTROL := 224
  HID_KEYBOARD_SC_ERROR_ROLLOVER := 1

/-- Mouse key codes: buttons 240-244, forward 245, back 246, left 247,
right 248. -/
def pointerKeys : MouseEnv where
  SPECIAL_HID_KEYS_MOUSE_START := 240
  SPECIAL_HID_KEYS_MOUSE_END := 248
  SPECIAL_HID_KEY_MOUSE_BTN1 := 240
  SPECIAL_HID_KEY_MOUSE_BTN2 := 241
  SPECIAL_HID_KEY_MOUSE_BTN3 := 242
  SPECIAL_HID_KEY_MOUSE_BTN4 := 243
  SPECIAL_HID_KEY_MOUSE_BTN5 := 244
  SPECIAL_HID_KEY_MOUSE_FWD := 245
  SPECIAL_HID_KEY_MOUSE_BACK := 246
  SPECIAL_HID_KEY_MOUSE_LEFT := 247
  SPECIAL_HID_KEY_MOUSE_RIGHT := 248

/-- The table of `pointerEnv` after the key "forward" (cell (0, 0)) has been
held for three scans from start-up. -/
def forwardHeld : State :=
  state_at pointerEnv (startup pointerEnv) (fun _ r c => if r = 0 ∧ c = 0 then 1 else 0) 3

/-- The table of `pointerEnv` after mouse button 1 (cell (0, 1)) has been held
for three scans from start-up. -/
def buttonHeld : State :=
  state_at pointerEnv (startup pointerEnv) (fun _ r c => if r = 0 ∧ c = 1 then 1 else 0) 3

/-- Every tracked entry holds a code that is valid in the current keypad
mode. -/
def LayerInv (E : Env) (s : State) : Prop :=
  ∀ j < KEYSTATE_COUNT, (s.key_states j).l_key ≠ E.NO_KEY →
    valid_in_mode E s.keypad_mode (s.key_states j).l_key

/-- Every populated matrix cell maps to a logical code below
`KEYPAD_LAYER_START + KEYPAD_LAYER_SIZE`. -/
def codes_below_layer_end (E : Env) : Prop :=
  ∀ r < E.MATRIX_ROWS, ∀ c < E.MATRIX_COLS, E.matrix_to_logical_map r c ≠ E.NO_KEY →
    E.matrix_to_logical_map r c < E.KEYPAD_LAYER_START + E.KEYPAD_LAYER_SIZE

instance (E : Env) : Decidable (codes_below_layer_end E) := by
  unfold codes_below_layer_end
  infer_instance

/-- The table of `demoEnv` after three scans with every key held, from
start-up: the keys 0, 1 and 2 are settled in slots 0, 1 and 2. -/
def threeKeysDown : State :=
  run demoEnv (startup demoEnv)
    [Event.scan (fun _ _ => 1), Event.scan (fun _ _ => 1), Event.scan (fun _ _ => 1)]

/-! ## General lemmas -/

theorem foldl_preserves {α β : Type} (Q : α → Prop) (f : α → β → α) (l : List β) (a : α)
    (hstep : ∀ a, ∀ x ∈ l, Q a → Q (f a x)) (ha : Q a) : Q (l.foldl f a) := by
  induction l generalizing a with
  | nil => exact ha
  | cons x xs ih =>
    simp only [List.foldl_cons]
    apply ih
    · intro b y hy hb
      exact hstep b y (List.mem_cons_of_mem _ hy) hb
    · exact hstep a x (List.mem_cons_self _ _) ha

theorem countP_range_update (p : Nat → Bool) (j : Nat) (b : Bool) (n : Nat) (hj : j < n) :
    (List.range n).countP (Function.update p j b) + (if p j then 1 else 0)
      = (List.range n).countP p + (if b then 1 else 0) := by
  induction n with
  | zero => omega
  | succ n ih =>
    rw [List.range_succ, List.countP_append, List.countP_append]
    simp only [List.countP_cons, List.countP_nil, Nat.zero_add]
    by_cases hjn : j = n
    · subst hjn
      have hsame : (List.range j).countP (Function.update p j b) = (List.range j).countP p := by
        apply List.countP_congr
        intro x hx
        have hxj : x ≠ j := by
          have := List.mem_range.mp hx
          omega
        simp [Function.update_noteq hxj]
      rw [hsame]
      simp only [Function.update_same]
      cases b <;> cases p j <;> simp
    · have hlt : j < n := by omega
      have h := ih hlt
      have hn : Function.update p j b n = p n := Function.update_noteq (Ne.symm hjn) _ _
      rw [hn]
      omega

theorem settled_count_update (s : State) (j : Nat) (v : key_state) (c : Nat)
    (hj : j < KEYSTATE_COUNT) :
    settled_count { s with key_states := Function.update s.key_states j v, key_press_count := c }
        + (if (s.key_states j).state then 1 else 0)
      = settled_count s + (if v.state then 1 else 0) := by
  unfold settled_count
  have h := countP_range_update (fun i => (s.key_states i).state) j v.state KEYSTATE_COUNT hj
  have hfun : (fun i => (Function.update s.key_states j v i).state)
      = Function.update (fun i => (s.key_states i).state) j v.state := by
    funext i
    by_cases hi : i = j
    · subst hi; simp
    · simp [Function.update_noteq hi]
  simp only [hfun]
  exact h

theorem settled_count_le (s : State) : settled_count s ≤ KEYSTATE_COUNT := by
  unfold settled_count
  have h := List.countP_le_length (fun j => (s.key_states j).state) (l := List.range KEYSTATE_COUNT)
  simpa using h

/-! ## The settled-count invariant -/

theorem CountInv_update (E : Env) (s : State) (j : Nat) (v : key_state) (c : Nat)
    (hj : j < KEYSTATE_COUNT) (hinv : CountInv E s)
    (hv : v.l_key = E.NO_KEY → v.state = false)
    (hc : c + (if (s.key_states j).state then 1 else 0)
      = s.key_press_count + (if v.state then 1 else 0)) :
    CountInv E { s with key_states := Function.update s.key_states j v, key_press_count := c } := by
  constructor
  · intro k hk hfree
    by_cases hkj : k = j
    · subst hkj
      simp only [Function.update_same] at hfree ⊢
      exact hv hfree
    · simp only [Function.update_noteq hkj] at hfree ⊢
      exact hinv.1 k hk hfree
  · have h := settled_count_update s j v c hj
    have h2 := hinv.2
    simp only at h ⊢
    omega

theorem settled_pos_of_state (s : State) (j : Nat) (hj : j < KEYSTATE_COUNT)
    (hs : (s.key_states j).state = true) : 1 ≤ settled_count s := by
  have h := settled_count_update s j ⟨0, false, 0⟩ 0 hj
  simp [hs] at h
  omega

theorem settled_lt_of_state (s : State) (j : Nat) (hj : j < KEYSTATE_COUNT)
    (hs : (s.key_states j).state = false) : settled_count s < KEYSTATE_COUNT := by
  have h := settled_count_update s j ⟨0, true, 0⟩ 0 hj
  have hle := settled_count_le
    { s with key_states := Function.update s.key_states j ⟨0, true, 0⟩, key_press_count := 0 }
  simp [hs] at h
  omega

theorem CountInv_found_key (E : Env) (reading : Nat) (s : State) (j : Nat)
    (hj : j < KEYSTATE_COUNT) (hinv : CountInv E s) (hkey : (s.key_states j).l_key ≠ E.NO_KEY) :
    CountInv E (found_key E reading s j) := by
  unfold found_key
  simp only
  have h2 := hinv.2
  split_ifs with h0 hst h1
  · -- removed, was settled
    refine CountInv_update E s j ⟨E.NO_KEY, false, _⟩ _ hj hinv (fun _ => rfl) ?_
    have hpos := settled_pos_of_state s j hj hst
    have hle := settled_count_le s
    simp only [KEYSTATE_COUNT] at hle
    simp [hst]
    omega
  · -- removed, was not settled
    have hf : (s.key_states j).state = false := by simpa using hst
    refine CountInv_update E s j ⟨E.NO_KEY, false, _⟩ _ hj hinv (fun _ => rfl) ?_
    simp [hf]
  · -- settles
    refine CountInv_update E s j ⟨(s.key_states j).l_key, true, _⟩ _ hj hinv
      (fun h => absurd h hkey) ?_
    have hlt := settled_lt_of_state s j hj h1.1
    simp only [KEYSTATE_COUNT] at hlt
    simp [h1.1]
    omega
  · -- only the register changes
    refine CountInv_update E s j ⟨(s.key_states j).l_key, (s.key_states j).state, _⟩ _ hj hinv
      (fun h => absurd h hkey) ?_
    simp

theorem scan_slots_cases (E : Env) (l_key reading : Nat) (s : State) :
    ∀ n j free_slot, j + n = KEYSTATE_COUNT →
      (free_slot = E.NO_KEY ∨
        (free_slot < KEYSTATE_COUNT ∧ (s.key_states free_slot).l_key = E.NO_KEY)) →
      scan_slots E l_key reading s n j free_slot = s ∨
      (∃ k, k < KEYSTATE_COUNT ∧ (s.key_states k).l_key = E.NO_KEY ∧
        scan_slots E l_key reading s n j free_slot
          = { s with key_states := Function.update s.key_states k ⟨l_key, false, 1⟩ }) ∨
      (∃ k, k < KEYSTATE_COUNT ∧ (s.key_states k).l_key = l_key ∧
        scan_slots E l_key reading s n j free_slot = found_key E reading s k) := by
  intro n
  induction n with
  | zero =>
    intro j free_slot _ hfree
    simp only [scan_slots]
    split_ifs with h
    · rcases hfree with hfs | ⟨hlt, hno⟩
      · exact absurd hfs h.2
      · exact Or.inr (Or.inl ⟨free_slot, hlt, hno, rfl⟩)
    · exact Or.inl rfl
  | succ n ih =>
    intro j free_slot hjn hfree
    simp only [scan_slots]
    split_ifs with h1 h2
    · exact ih (j + 1) j (by omega) (Or.inr ⟨by omega, h1.2⟩)
    · exact Or.inr (Or.inr ⟨j, by omega, h2, rfl⟩)
    · exact ih (j + 1) free_slot (by omega) hfree

theorem CountInv_scan_slots (E : Env) (l_key reading : Nat) (s : State)
    (hl : l_key ≠ E.NO_KEY) (hinv : CountInv E s) :
    CountInv E (scan_slots E l_key reading s KEYSTATE_COUNT 0 E.NO_KEY) := by
  rcases scan_slots_cases E l_key reading s KEYSTATE_COUNT 0 E.NO_KEY (by simp) (Or.inl rfl)
    with h | ⟨k, hk, hfree, h⟩ | ⟨k, hk, hkey, h⟩
  · rw [h]; exact hinv
  · rw [h]
    have hst := hinv.1 k hk hfree
    have := CountInv_update E s k ⟨l_key, false, 1⟩ s.key_press_count hk hinv (fun _ => rfl)
      (by simp [hst])
    exact this
  · rw [h]
    exact CountInv_found_key E reading s k hk hinv (by rw [hkey]; exact hl)

theorem effective_key_mode (E : Env) (mode l_key : Nat) :
    effective_key E mode l_key = effective_key E (if mode = 0 then 0 else 1) l_key := by
  unfold effective_key
  by_cases h : mode = 0 <;> simp [h]

theorem effective_key_ne_NO_KEY (E : Env) (hmap : effective_codes_valid E) (r c mode : Nat)
    (hr : r < E.MATRIX_ROWS) (hc : c < E.MATRIX_COLS)
    (hne : E.matrix_to_logical_map r c ≠ E.NO_KEY) :
    effective_key E mode (E.matrix_to_logical_map r c) ≠ E.NO_KEY := by
  rw [effective_key_mode]
  apply hmap r hr c hc _ _ hne
  split_ifs <;> omega

theorem CountInv_update_cell (E : Env) (hmap : effective_codes_valid E)
    (reading : Nat → Nat → Nat) (r c : Nat) (hr : r < E.MATRIX_ROWS) (hc : c < E.MATRIX_COLS)
    (s : State) (hinv : CountInv E s) : CountInv E (update_cell E reading r s c) := by
  unfold update_cell
  simp only
  split_ifs with h
  · exact hinv
  · exact CountInv_scan_slots E _ _ s (effective_key_ne_NO_KEY E hmap r c _ hr hc h) hinv

theorem CountInv_keystate_update (E : Env) (hmap : effective_codes_valid E)
    (reading : Nat → Nat → Nat) (s : State) (hinv : CountInv E s) :
    CountInv E (keystate_update E reading s) := by
  unfold keystate_update
  apply foldl_preserves (CountInv E) _ _ _ _ hinv
  intro a r hr ha
  apply foldl_preserves (CountInv E) _ _ _ _ ha
  intro b c hc hb
  exact CountInv_update_cell E hmap reading r c (List.mem_range.mp hr) (List.mem_range.mp hc) b hb

theorem CountInv_toggle_slot (E : Env) (s : State) (i : Nat) (hi : i < KEYSTATE_COUNT)
    (hinv : CountInv E s) : CountInv E (toggle_slot E s i) := by
  unfold toggle_slot
  simp only
  have h2 := hinv.2
  split_ifs with h1 h3 h4 hst
  · exact hinv
  · exact hinv
  · exact hinv
  · refine CountInv_update E s i ⟨E.NO_KEY, false, _⟩ _ hi hinv (fun _ => rfl) ?_
    have hpos := settled_pos_of_state s i hi hst
    have hle := settled_count_le s
    simp only [KEYSTATE_COUNT] at hle
    simp [hst]
    omega
  · have hf : (s.key_states i).state = false := by simpa using hst
    refine CountInv_update E s i ⟨E.NO_KEY, false, _⟩ _ hi hinv (fun _ => rfl) ?_
    simp [hf]

theorem CountInv_mode (E : Env) (s : State) (m : Nat) (hinv : CountInv E s) :
    CountInv E { s with keypad_mode := m } := hinv

theorem CountInv_toggle (E : Env) (s : State) (hinv : CountInv E s) :
    CountInv E (keystate_toggle_keypad E s) := by
  unfold keystate_toggle_keypad
  apply foldl_preserves (CountInv E) _ _ _ _ (CountInv_mode E s _ hinv)
  intro a i hi ha
  exact CountInv_toggle_slot E a i (List.mem_range.mp hi) ha

theorem range_keystate_count :
    List.range KEYSTATE_COUNT = [0, 1, 2, 3, 4, 5, 6, 7, 8, 9, 10, 11, 12, 13] := by
  decide

theorem keystate_init_slot (E : Env) (s : State) (j : Nat) (hj : j < KEYSTATE_COUNT) :
    (keystate_init E s).key_states j = ⟨E.NO_KEY, false, 0⟩ := by
  unfold keystate_init
  rw [range_keystate_count]
  simp only [List.foldl_cons, List.foldl_nil]
  simp only [KEYSTATE_COUNT] at hj
  interval_cases j <;> simp [Function.update]

theorem keystate_init_count (E : Env) (s : State) :
    (keystate_init E s).key_press_count = s.key_press_count := by
  unfold keystate_init
  apply foldl_preserves (fun t : State => t.key_press_count = s.key_press_count) _ _ _ _ rfl
  intro a i _ ha
  exact ha

theorem keystate_init_mode (E : Env) (s : State) :
    (keystate_init E s).keypad_mode = s.keypad_mode := by
  unfold keystate_init
  apply foldl_preserves (fun t : State => t.keypad_mode = s.keypad_mode) _ _ _ _ rfl
  intro a i _ ha
  exact ha

theorem CountInv_startup (E : Env) : CountInv E (startup E) := by
  constructor
  · intro j hj _
    unfold startup
    rw [keystate_init_slot E _ j hj]
  · unfold startup
    rw [keystate_init_count]
    unfold settled_count
    symm
    rw [List.countP_eq_zero]
    intro j hj
    rw [keystate_init_slot E _ j (List.mem_range.mp hj)]
    simp

theorem CountInv_step (E : Env) (hmap : effective_codes_valid E) (s : State) (e : Event)
    (hinv : CountInv E s) : CountInv E (step E s e) := by
  cases e with
  | scan reading => exact CountInv_keystate_update E hmap reading s hinv
  | toggle => exact CountInv_toggle E s hinv

theorem CountInv_run (E : Env) (hmap : effective_codes_valid E) (events : List Event)
    (s : State) (hinv : CountInv E s) : CountInv E (run E s events) := by
  unfold run
  apply foldl_preserves (CountInv E) _ _ _ _ hinv
  intro a e _ ha
  exact CountInv_step E hmap a e ha

/-- C1. Settled-count invariant: in every state reached from the start-up state
by a finite sequence of matrix scans (with any raw readings) and keypad
toggles, for a matrix map whose effective codes never equal `NO_KEY`,
`key_press_count` is the number of table entries with `state = 1`. -/
theorem settled_count_invariant (E : Env) (hmap : effective_codes_valid E)
    (events : List Event) :
    (run E (startup E) events).key_press_count = settled_count (run E (startup E) events) :=
  (CountInv_run E hmap events (startup E) (CountInv_startup E)).2

theorem settled_count_invariant_witness :
    effective_codes_valid demoEnv ∧
      (run demoEnv (startup demoEnv)
          [Event.scan (fun _ _ => 1), Event.toggle, Event.scan (fun r _ => r)]).key_press_count
        = settled_count (run demoEnv (startup demoEnv)
          [Event.scan (fun _ _ => 1), Event.toggle, Event.scan (fun r _ => r)]) :=
  ⟨by decide, settled_count_invariant demoEnv (by decide) _⟩

/-! ## What one matrix cell does to the table -/

theorem scan_slots_spec (E : Env) (l_key reading : Nat) (s : State)
    (hNO : KEYSTATE_COUNT ≤ E.NO_KEY) (hl : l_key ≠ E.NO_KEY) :
    ∀ n j free_slot, j + n = KEYSTATE_COUNT →
      (∀ i < j, (s.key_states i).l_key ≠ l_key) →
      (free_slot = E.NO_KEY → ∀ i < j, (s.key_states i).l_key ≠ E.NO_KEY) →
      (free_slot ≠ E.NO_KEY → free_slot < j ∧ (s.key_states free_slot).l_key = E.NO_KEY ∧
        ∀ i < free_slot, (s.key_states i).l_key ≠ E.NO_KEY) →
      (∃ k, k < KEYSTATE_COUNT ∧ (s.key_states k).l_key = l_key ∧
        (∀ i < k, (s.key_states i).l_key ≠ l_key) ∧
        scan_slots E l_key reading s n j free_slot = found_key E reading s k) ∨
      ((∀ i < KEYSTATE_COUNT, (s.key_states i).l_key ≠ l_key) ∧
        ((reading ≠ 0 ∧ ∃ k, k < KEYSTATE_COUNT ∧ (s.key_states k).l_key = E.NO_KEY ∧
            (∀ i < k, (s.key_states i).l_key ≠ E.NO_KEY) ∧
            scan_slots E l_key reading s n j free_slot
              = { s with key_states := Function.update s.key_states k ⟨l_key, false, 1⟩ }) ∨
          ((reading = 0 ∨ ∀ i < KEYSTATE_COUNT, (s.key_states i).l_key ≠ E.NO_KEY) ∧
            scan_slots E l_key reading s n j free_slot = s))) := by
  intro n
  induction n with
  | zero =>
    intro j free_slot hj hnot hnone hsome
    simp only [scan_slots]
    have hj14 : j = KEYSTATE_COUNT := by omega
    subst hj14
    right
    refine ⟨hnot, ?_⟩
    split_ifs with h
    · left
      obtain ⟨h1, h2, h3⟩ := hsome h.2
      exact ⟨h.1, free_slot, h1, h2, h3, rfl⟩
    · right
      refine ⟨?_, rfl⟩
      by_cases hr : reading = 0
      · exact Or.inl hr
      · right
        apply hnone
        by_contra hfs
        exact h ⟨hr, hfs⟩
  | succ n ih =>
    intro j free_slot hj hnot hnone hsome
    simp only [scan_slots]
    split_ifs with h1 h2
    · -- first free slot
      apply ih (j + 1) j (by omega)
      · intro i hi
        by_cases hij : i = j
        · subst hij; rw [h1.2]; exact fun h => hl h.symm
        · exact hnot i (by omega)
      · intro hjno
        omega
      · intro _
        exact ⟨by omega, h1.2, hnone h1.1⟩
    · -- our key
      left
      exact ⟨j, by omega, h2, hnot, rfl⟩
    · apply ih (j + 1) free_slot (by omega)
      · intro i hi
        by_cases hij : i = j
        · subst hij; exact h2
        · exact hnot i (by omega)
      · intro hfs i hi
        by_cases hij : i = j
        · subst hij
          intro hno
          exact h1 ⟨hfs, hno⟩
        · exact hnone hfs i (by omega)
      · intro hfs
        obtain ⟨h3, h4, h5⟩ := hsome hfs
        exact ⟨by omega, h4, h5⟩

theorem scan_slots_found_from (E : Env) (l_key reading : Nat) (s : State)
    (hl : l_key ≠ E.NO_KEY) (k : Nat) (hkey : (s.key_states k).l_key = l_key) :
    ∀ n j free_slot, j + n = KEYSTATE_COUNT → j ≤ k → k < KEYSTATE_COUNT →
      (∀ i, j ≤ i → i < k → (s.key_states i).l_key ≠ l_key) →
      scan_slots E l_key reading s n j free_slot = found_key E reading s k := by
  intro n
  induction n with
  | zero =>
    intro j free_slot hj hjk hk _
    omega
  | succ n ih =>
    intro j free_slot hj hjk hk hfirst
    simp only [scan_slots]
    by_cases hjeq : j = k
    · subst hjeq
      have h1 : ¬ (free_slot = E.NO_KEY ∧ (s.key_states j).l_key = E.NO_KEY) := by
        rintro ⟨_, h⟩
        rw [hkey] at h
        exact hl h
      rw [if_neg h1, if_pos hkey]
    · have h2 : (s.key_states j).l_key ≠ l_key := hfirst j (le_refl j) (by omega)
      split_ifs with h1
      · exact ih (j + 1) j (by omega) (by omega) hk (fun i hi hik => hfirst i (by omega) hik)
      · exact ih (j + 1) free_slot (by omega) (by omega) hk
          (fun i hi hik => hfirst i (by omega) hik)

theorem scan_slots_found (E : Env) (l_key reading : Nat) (s : State)
    (hl : l_key ≠ E.NO_KEY) (k : Nat)
    (hk : k < KEYSTATE_COUNT) (hkey : (s.key_states k).l_key = l_key)
    (hfirst : ∀ i < k, (s.key_states i).l_key ≠ l_key) :
    scan_slots E l_key reading s KEYSTATE_COUNT 0 E.NO_KEY = found_key E reading s k :=
  scan_slots_found_from E l_key reading s hl k hkey KEYSTATE_COUNT 0 E.NO_KEY (by simp)
    (Nat.zero_le k) hk (fun i _ hik => hfirst i hik)

theorem scan_slots_new (E : Env) (l_key reading : Nat) (s : State)
    (hNO : KEYSTATE_COUNT ≤ E.NO_KEY) (hl : l_key ≠ E.NO_KEY) (hr : reading ≠ 0)
    (hnone : ∀ i < KEYSTATE_COUNT, (s.key_states i).l_key ≠ l_key) (k : Nat)
    (hk : k < KEYSTATE_COUNT) (hfree : (s.key_states k).l_key = E.NO_KEY)
    (hfirst : ∀ i < k, (s.key_states i).l_key ≠ E.NO_KEY) :
    scan_slots E l_key reading s KEYSTATE_COUNT 0 E.NO_KEY
      = { s with key_states := Function.update s.key_states k ⟨l_key, false, 1⟩ } := by
  rcases scan_slots_spec E l_key reading s hNO hl KEYSTATE_COUNT 0 E.NO_KEY (by simp)
    (by intro i hi; omega) (by intro _ i hi; omega) (by intro h; exact absurd rfl h)
    with ⟨k2, hk2, hkey2, _, _⟩ | ⟨_, ⟨_, k2, hk2, hfree2, hfirst2, h⟩ | ⟨hno, _⟩⟩
  · exact absurd hkey2 (hnone k2 hk2)
  · have : k2 = k := by
      rcases Nat.lt_trichotomy k2 k with hlt | heq | hgt
      · exact absurd hfree2 (hfirst k2 hlt)
      · exact heq
      · exact absurd hfree (hfirst2 k hgt)
    rw [h, this]
  · rcases hno with h0 | hfull
    · exact absurd h0 hr
    · exact absurd hfree (hfull k hk)

theorem scan_slots_unchanged (E : Env) (l_key reading : Nat) (s : State)
    (hNO : KEYSTATE_COUNT ≤ E.NO_KEY) (hl : l_key ≠ E.NO_KEY)
    (hnone : ∀ i < KEYSTATE_COUNT, (s.key_states i).l_key ≠ l_key)
    (hno : reading = 0 ∨ ∀ i < KEYSTATE_COUNT, (s.key_states i).l_key ≠ E.NO_KEY) :
    scan_slots E l_key reading s KEYSTATE_COUNT 0 E.NO_KEY = s := by
  rcases scan_slots_spec E l_key reading s hNO hl KEYSTATE_COUNT 0 E.NO_KEY (by simp)
    (by intro i hi; omega) (by intro _ i hi; omega) (by intro h; exact absurd rfl h)
    with ⟨k2, hk2, hkey2, _, _⟩ | ⟨_, ⟨hr, k2, hk2, hfree2, _, _⟩ | ⟨_, h⟩⟩
  · exact absurd hkey2 (hnone k2 hk2)
  · rcases hno with h0 | hfull
    · exact absurd h0 hr
    · exact absurd hfree2 (hfull k2 hk2)
  · exact h

theorem exists_first (p : Nat → Prop) [DecidablePred p] (n : Nat) (h : ∃ j, j < n ∧ p j) :
    ∃ k, k < n ∧ p k ∧ ∀ i < k, ¬ p i := by
  have hex : ∃ j, j < n ∧ p j := h
  refine ⟨Nat.find hex, (Nat.find_spec hex).1, (Nat.find_spec hex).2, ?_⟩
  intro i hi hp
  have hlt : Nat.find hex < n := (Nat.find_spec hex).1
  exact Nat.find_min hex hi ⟨by omega, hp⟩

theorem KeyFrame_refl (K : Nat) (s : State) : KeyFrame K s s :=
  ⟨rfl, fun _ _ => ⟨fun _ => rfl, fun h => h⟩⟩

theorem KeyFrame_trans (K : Nat) (s t u : State) (h1 : KeyFrame K s t) (h2 : KeyFrame K t u) :
    KeyFrame K s u := by
  refine ⟨by rw [h2.1, h1.1], ?_⟩
  intro j hj
  constructor
  · intro hK
    have e1 := (h1.2 j hj).1 hK
    have hK2 : (t.key_states j).l_key = K := by rw [e1]; exact hK
    rw [(h2.2 j hj).1 hK2, e1]
  · intro hK
    exact (h2.2 j hj).2 ((h1.2 j hj).2 hK)

theorem KeyFrame_foldl {β : Type} (K : Nat) (f : State → β → State) (l : List β) (s : State)
    (hstep : ∀ a, ∀ x ∈ l, KeyFrame K a (f a x)) : KeyFrame K s (l.foldl f s) := by
  induction l generalizing s with
  | nil => exact KeyFrame_refl K s
  | cons x xs ih =>
    simp only [List.foldl_cons]
    apply KeyFrame_trans K s (f s x)
    · exact hstep s x (List.mem_cons_self _ _)
    · apply ih
      intro a y hy
      exact hstep a y (List.mem_cons_of_mem _ hy)

theorem KeyFrame_set (K : Nat) (s : State) (k : Nat) (v : key_state) (c : Nat)
    (hold : (s.key_states k).l_key ≠ K) (hnew : v.l_key ≠ K) :
    KeyFrame K s { s with key_states := Function.update s.key_states k v, key_press_count := c } := by
  refine ⟨rfl, ?_⟩
  intro j _
  by_cases hjk : j = k
  · subst hjk
    constructor
    · intro h; exact absurd h hold
    · intro _; simpa using hnew
  · simp [Function.update_noteq hjk]

theorem KeyFrame_found_key (E : Env) (K reading : Nat) (s : State) (k : Nat)
    (hKne : K ≠ E.NO_KEY) (hold : (s.key_states k).l_key ≠ K) :
    KeyFrame K s (found_key E reading s k) := by
  unfold found_key
  simp only
  split_ifs
  · exact KeyFrame_set K s k ⟨E.NO_KEY, false, _⟩ _ hold (fun h => hKne h.symm)
  · exact KeyFrame_set K s k ⟨E.NO_KEY, false, _⟩ _ hold (fun h => hKne h.symm)
  · exact KeyFrame_set K s k ⟨(s.key_states k).l_key, true, _⟩ _ hold hold
  · exact KeyFrame_set K s k ⟨(s.key_states k).l_key, (s.key_states k).state, _⟩ _ hold hold

theorem KeyFrame_scan_slots (E : Env) (K l_key reading : Nat) (s : State)
    (hKne : K ≠ E.NO_KEY) (hl : l_key ≠ K) :
    KeyFrame K s (scan_slots E l_key reading s KEYSTATE_COUNT 0 E.NO_KEY) := by
  rcases scan_slots_cases E l_key reading s KEYSTATE_COUNT 0 E.NO_KEY (by simp) (Or.inl rfl)
    with h | ⟨k, _, hfree, h⟩ | ⟨k, _, hkey, h⟩
  · rw [h]; exact KeyFrame_refl K s
  · rw [h]
    exact KeyFrame_set K s k ⟨l_key, false, 1⟩ s.key_press_count
      (by rw [hfree]; exact fun h => hKne h.symm) hl
  · rw [h]
    exact KeyFrame_found_key E K reading s k hKne (by rw [hkey]; exact hl)

theorem KeyFrame_update_cell (E : Env) (K : Nat) (reading : Nat → Nat → Nat) (r c : Nat)
    (s : State) (hKne : K ≠ E.NO_KEY)
    (hother : E.matrix_to_logical_map r c ≠ E.NO_KEY →
      effective_key E s.keypad_mode (E.matrix_to_logical_map r c) ≠ K) :
    KeyFrame K s (update_cell E reading r s c) := by
  unfold update_cell
  simp only
  split_ifs with h
  · exact KeyFrame_refl K s
  · exact KeyFrame_scan_slots E K _ _ s hKne (hother h)

theorem range_split (n k : Nat) (h : k < n) :
    ∃ rest, List.range n = List.range k ++ k :: rest ∧ ∀ x ∈ rest, k < x ∧ x < n := by
  induction n with
  | zero => omega
  | succ n ih =>
    by_cases hk : k = n
    · subst hk
      exact ⟨[], by rw [List.range_succ], by simp⟩
    · obtain ⟨rest, h1, h2⟩ := ih (by omega)
      refine ⟨rest ++ [n], ?_, ?_⟩
      · rw [List.range_succ, h1]; simp
      · intro x hx
        rcases List.mem_append.mp hx with hx | hx
        · have := h2 x hx; omega
        · simp at hx; omega

theorem keystate_update_split (E : Env) (reading : Nat → Nat → Nat) (r0 c0 : Nat)
    (hr0 : r0 < E.MATRIX_ROWS) (hc0 : c0 < E.MATRIX_COLS) :
    ∃ colsAfter rowsAfter : List Nat,
      (∀ c ∈ colsAfter, c0 < c ∧ c < E.MATRIX_COLS) ∧
      (∀ r ∈ rowsAfter, r0 < r ∧ r < E.MATRIX_ROWS) ∧
      ∀ s, keystate_update E reading s
        = rowsAfter.foldl
            (fun s matrix_row =>
              (List.range E.MATRIX_COLS).foldl (update_cell E reading matrix_row) s)
            (colsAfter.foldl (update_cell E reading r0) (after_cell E reading r0 c0 s)) := by
  obtain ⟨rowsAfter, hrows, hrowsAfter⟩ := range_split E.MATRIX_ROWS r0 hr0
  obtain ⟨colsAfter, hcols, hcolsAfter⟩ := range_split E.MATRIX_COLS c0 hc0
  refine ⟨colsAfter, rowsAfter, hcolsAfter, hrowsAfter, ?_⟩
  intro s
  unfold keystate_update after_cell before_cell
  rw [hrows, List.foldl_append, List.foldl_cons]
  congr 1
  generalize (List.range r0).foldl
    (fun s matrix_row =>
      (List.range E.MATRIX_COLS).foldl (update_cell E reading matrix_row) s) s = s1
  rw [hcols, List.foldl_append, List.foldl_cons]

theorem KeyFrame_other_cell (E : Env) (K : Nat) (reading : Nat → Nat → Nat) (r0 c0 r c : Nat)
    (s a : State) (hKne : K ≠ E.NO_KEY) (honly : only_cell E s.keypad_mode K r0 c0)
    (hr : r < E.MATRIX_ROWS) (hc : c < E.MATRIX_COLS) (hne : ¬ (r = r0 ∧ c = c0))
    (ha : KeyFrame K s a) : KeyFrame K s (update_cell E reading r a c) := by
  apply KeyFrame_trans K s a _ ha
  apply KeyFrame_update_cell E K reading r c a hKne
  intro hpop heff
  rw [ha.1] at heff
  exact hne (honly r hr c hc hpop heff)

theorem KeyFrame_other_row (E : Env) (K : Nat) (reading : Nat → Nat → Nat) (r0 c0 r : Nat)
    (s a : State) (hKne : K ≠ E.NO_KEY) (honly : only_cell E s.keypad_mode K r0 c0)
    (hr : r < E.MATRIX_ROWS) (hne : r ≠ r0) (ha : KeyFrame K s a) :
    KeyFrame K s ((List.range E.MATRIX_COLS).foldl (update_cell E reading r) a) := by
  apply foldl_preserves (KeyFrame K s) _ _ _ _ ha
  intro b c hc hb
  exact KeyFrame_other_cell E K reading r0 c0 r c s b hKne honly hr (List.mem_range.mp hc)
    (fun h => hne h.1) hb

theorem KeyFrame_before_cell (E : Env) (K : Nat) (reading : Nat → Nat → Nat) (r0 c0 : Nat)
    (s : State) (hKne : K ≠ E.NO_KEY) (honly : only_cell E s.keypad_mode K r0 c0)
    (hr0 : r0 < E.MATRIX_ROWS) (hc0 : c0 < E.MATRIX_COLS) :
    KeyFrame K s (before_cell E reading r0 c0 s) := by
  unfold before_cell
  apply foldl_preserves (KeyFrame K s)
  · intro b c hc hb
    have hc' := List.mem_range.mp hc
    exact KeyFrame_other_cell E K reading r0 c0 r0 c s b hKne honly hr0 (by omega)
      (fun h => by omega) hb
  · apply foldl_preserves (KeyFrame K s) _ _ _ _ (KeyFrame_refl K s)
    intro b r hr hb
    have hr' := List.mem_range.mp hr
    exact KeyFrame_other_row E K reading r0 c0 r s b hKne honly (by omega) (by omega) hb

theorem KeyFrame_after_cell (E : Env) (K : Nat) (reading : Nat → Nat → Nat) (r0 c0 : Nat)
    (s : State) (hKne : K ≠ E.NO_KEY) (honly : only_cell E s.keypad_mode K r0 c0)
    (hr0 : r0 < E.MATRIX_ROWS) (hc0 : c0 < E.MATRIX_COLS)
    (hmode : (after_cell E reading r0 c0 s).keypad_mode = s.keypad_mode) :
    KeyFrame K (after_cell E reading r0 c0 s) (keystate_update E reading s) := by
  obtain ⟨colsAfter, rowsAfter, hcols, hrows, heq⟩ :=
    keystate_update_split E reading r0 c0 hr0 hc0
  rw [heq s]
  have honly' : only_cell E (after_cell E reading r0 c0 s).keypad_mode K r0 c0 := by
    rw [hmode]; exact honly
  apply foldl_preserves (KeyFrame K (after_cell E reading r0 c0 s))
  · intro b r hr hb
    have hr' := hrows r hr
    exact KeyFrame_other_row E K reading r0 c0 r _ b hKne honly' hr'.2 (by omega) hb
  · apply foldl_preserves (KeyFrame K (after_cell E reading r0 c0 s)) _ _ _ _ (KeyFrame_refl K _)
    intro b c hc hb
    have hc' := hcols c hc
    exact KeyFrame_other_cell E K reading r0 c0 r0 c _ b hKne honly' hr0 hc'.2
      (fun h => by omega) hb

/-! ## One key seen on its own -/

theorem Shadows_frame (K : Nat) (s t : State) (a : Option (Bool × Nat))
    (hf : KeyFrame K s t) (ha : Shadows K s a) : Shadows K t a := by
  cases a with
  | none =>
    intro j hj
    exact (hf.2 j hj).2 (ha j hj)
  | some p =>
    obtain ⟨st, d⟩ := p
    obtain ⟨j, hj, hentry, hothers⟩ := ha
    refine ⟨j, hj, ?_, ?_⟩
    · rw [(hf.2 j hj).1 (by rw [hentry]), hentry]
    · intro i hi hij
      exact (hf.2 i hi).2 (hothers i hi hij)

theorem Shadows_settled (K : Nat) (s : State) (a : Option (Bool × Nat)) (ha : Shadows K s a) :
    is_settled s K ↔ ∃ d, a = some (true, d) := by
  cases a with
  | none =>
    constructor
    · rintro ⟨j, hj, hkey, _⟩
      exact absurd hkey (ha j hj)
    · rintro ⟨d, hd⟩
      cases hd
  | some p =>
    obtain ⟨st, d⟩ := p
    obtain ⟨j, hj, hentry, hothers⟩ := ha
    constructor
    · rintro ⟨i, hi, hkey, hst⟩
      have hij : i = j := by
        by_contra hne
        exact hothers i hi hne hkey
      subst hij
      rw [hentry] at hst
      simp only at hst
      subst hst
      exact ⟨d, rfl⟩
    · rintro ⟨d', hd'⟩
      cases hd'
      exact ⟨j, hj, by rw [hentry], by rw [hentry]⟩

theorem Shadows_set (K : Nat) (s : State) (j : Nat) (st : Bool) (d c : Nat)
    (hj : j < KEYSTATE_COUNT)
    (hothers : ∀ i < KEYSTATE_COUNT, i ≠ j → (s.key_states i).l_key ≠ K) :
    Shadows K { s with key_states := Function.update s.key_states j ⟨K, st, d⟩, key_press_count := c }
      (some (st, d)) := by
  refine ⟨j, hj, by simp, ?_⟩
  intro i hi hij
  simp only [Function.update_noteq hij]
  exact hothers i hi hij

theorem Shadows_clear (K : Nat) (s : State) (j : Nat) (v : key_state) (c : Nat)
    (hv : v.l_key ≠ K)
    (hothers : ∀ i < KEYSTATE_COUNT, i ≠ j → (s.key_states i).l_key ≠ K) :
    Shadows K { s with key_states := Function.update s.key_states j v, key_press_count := c }
      none := by
  intro i hi
  by_cases hij : i = j
  · subst hij; simpa using hv
  · simp only [Function.update_noteq hij]
    exact hothers i hi hij

theorem found_key_shadow (E : Env) (K reading : Nat) (s : State) (j : Nat) (st : Bool) (d : Nat)
    (hKne : K ≠ E.NO_KEY) (hj : j < KEYSTATE_COUNT) (hentry : s.key_states j = ⟨K, st, d⟩)
    (hothers : ∀ i < KEYSTATE_COUNT, i ≠ j → (s.key_states i).l_key ≠ K) :
    Shadows K (found_key E reading s j) (key_step E (some (st, d)) reading) ∧
      (settles s (found_key E reading s j) K ↔
        st = false ∧ ∃ d', key_step E (some (st, d)) reading = some (true, d')) := by
  have hsettles_j : ∀ t : State, settles s t K ↔
      (s.key_states j).state = false ∧ (t.key_states j).l_key = K ∧
        (t.key_states j).state = true ∧ t.key_press_count = (s.key_press_count + 1) % 256 := by
    intro t
    constructor
    · rintro ⟨i, hi, h1, h2, h3, h4, h5⟩
      have hij : i = j := by
        by_contra hne
        exact hothers i hi hne h1
      subst hij
      exact ⟨h2, h3, h4, h5⟩
    · rintro ⟨h2, h3, h4, h5⟩
      exact ⟨j, hj, by rw [hentry], h2, h3, h4, h5⟩
  rw [hsettles_j]
  unfold found_key key_step
  simp only [hentry]
  split_ifs with h0 hst h1
  · exact ⟨Shadows_clear K s j _ _ (fun h => hKne h.symm) hothers, by simp⟩
  · exact ⟨Shadows_clear K s j _ _ (fun h => hKne h.symm) hothers, by simp⟩
  · exact ⟨Shadows_set K s j true _ _ hj hothers, by simp [h1.1]⟩
  · refine ⟨Shadows_set K s j st _ _ hj hothers, ?_⟩
    simp only [Function.update_same]
    constructor
    · rintro ⟨h2, _, h4, _⟩
      rw [h2] at h4
      cases h4
    · rintro ⟨h2, d', hd'⟩
      rw [h2] at hd'
      simp at hd'

theorem key_cell_shadow (E : Env) (K reading : Nat) (s : State) (a : Option (Bool × Nat))
    (hNO : KEYSTATE_COUNT ≤ E.NO_KEY) (hKne : K ≠ E.NO_KEY) (ha : Shadows K s a)
    (hfree : a = none → reading ≠ 0 → has_free_slot E s) :
    Shadows K (scan_slots E K reading s KEYSTATE_COUNT 0 E.NO_KEY) (key_step E a reading) ∧
      (settles s (scan_slots E K reading s KEYSTATE_COUNT 0 E.NO_KEY) K ↔
        (∃ d, a = some (false, d)) ∧ ∃ d', key_step E a reading = some (true, d')) := by
  cases a with
  | none =>
    have hnot : ¬ settles s (scan_slots E K reading s KEYSTATE_COUNT 0 E.NO_KEY) K := by
      rintro ⟨j, hj, h1, _⟩
      exact ha j hj h1
    have hrhs : ¬ ((∃ d, (none : Option (Bool × Nat)) = some (false, d)) ∧
        ∃ d', key_step E none reading = some (true, d')) := by
      rintro ⟨⟨d, hd⟩, _⟩
      cases hd
    refine ⟨?_, iff_of_false hnot hrhs⟩
    by_cases hr : reading = 0
    · rw [scan_slots_unchanged E K reading s hNO hKne ha (Or.inl hr)]
      have hstep : key_step E none reading = none := by
        simp [key_step, hr]
      rw [hstep]
      exact ha
    · obtain ⟨k, hk, hkfree, hfirst⟩ :=
        exists_first (fun j => (s.key_states j).l_key = E.NO_KEY) KEYSTATE_COUNT (hfree rfl hr)
      rw [scan_slots_new E K reading s hNO hKne hr ha k hk hkfree hfirst]
      have hstep : key_step E none reading = some (false, 1) := by
        simp [key_step, hr]
      rw [hstep]
      exact Shadows_set K s k false 1 s.key_press_count hk (fun i hi _ => ha i hi)
  | some p =>
    obtain ⟨st, d⟩ := p
    obtain ⟨j, hj, hentry, hothers⟩ := ha
    have hfirst : ∀ i < j, (s.key_states i).l_key ≠ K := fun i hi =>
      hothers i (by omega) (by omega)
    rw [scan_slots_found E K reading s hKne j hj (by rw [hentry]) hfirst]
    obtain ⟨h1, h2⟩ := found_key_shadow E K reading s j st d hKne hj hentry hothers
    refine ⟨h1, ?_⟩
    rw [h2]
    constructor
    · rintro ⟨hst, h⟩
      subst hst
      exact ⟨⟨d, rfl⟩, h⟩
    · rintro ⟨⟨d2, hd2⟩, h⟩
      cases hd2
      exact ⟨rfl, h⟩

theorem scan_slots_mode (E : Env) (l_key reading : Nat) (s : State) :
    (scan_slots E l_key reading s KEYSTATE_COUNT 0 E.NO_KEY).keypad_mode = s.keypad_mode := by
  rcases scan_slots_cases E l_key reading s KEYSTATE_COUNT 0 E.NO_KEY (by simp) (Or.inl rfl)
    with h | ⟨k, _, _, h⟩ | ⟨k, _, _, h⟩
  · rw [h]
  · rw [h]
  · rw [h]
    unfold found_key
    simp only
    split_ifs <;> rfl

theorem update_cell_mode (E : Env) (reading : Nat → Nat → Nat) (r c : Nat) (s : State) :
    (update_cell E reading r s c).keypad_mode = s.keypad_mode := by
  unfold update_cell
  simp only
  split_ifs
  · rfl
  · exact scan_slots_mode E _ _ s

theorem keystate_update_mode (E : Env) (reading : Nat → Nat → Nat) (s : State) :
    (keystate_update E reading s).keypad_mode = s.keypad_mode := by
  unfold keystate_update
  apply foldl_preserves (fun t : State => t.keypad_mode = s.keypad_mode) _ _ _ _ rfl
  intro a r _ ha
  apply foldl_preserves (fun t : State => t.keypad_mode = s.keypad_mode) _ _ _ _ ha
  intro b c _ hb
  rw [update_cell_mode]
  exact hb

theorem state_at_mode (E : Env) (s0 : State) (rd : Nat → Nat → Nat → Nat) (t : Nat) :
    (state_at E s0 rd t).keypad_mode = s0.keypad_mode := by
  induction t with
  | zero => rfl
  | succ t ih =>
    simp only [state_at]
    rw [keystate_update_mode, ih]

/-- One scan, seen from the key `K` of the cell `(r0, c0)`: the key's entry
makes one `key_step` with the reading of its cell. -/
theorem scan_shadow (E : Env) (K r0 c0 : Nat) (reading : Nat → Nat → Nat) (s : State)
    (a : Option (Bool × Nat))
    (hNO : KEYSTATE_COUNT ≤ E.NO_KEY) (hKne : K ≠ E.NO_KEY)
    (hr0 : r0 < E.MATRIX_ROWS) (hc0 : c0 < E.MATRIX_COLS)
    (hpop : E.matrix_to_logical_map r0 c0 ≠ E.NO_KEY)
    (hK : effective_key E s.keypad_mode (E.matrix_to_logical_map r0 c0) = K)
    (honly : only_cell E s.keypad_mode K r0 c0)
    (ha : Shadows K s a)
    (hfree : ¬ is_tracked (before_cell E reading r0 c0 s) K → reading r0 c0 ≠ 0 →
      has_free_slot E (before_cell E reading r0 c0 s)) :
    Shadows K (before_cell E reading r0 c0 s) a ∧
    Shadows K (after_cell E reading r0 c0 s) (key_step E a (reading r0 c0)) ∧
    Shadows K (keystate_update E reading s) (key_step E a (reading r0 c0)) ∧
    (settles (before_cell E reading r0 c0 s) (after_cell E reading r0 c0 s) K ↔
      (∃ d, a = some (false, d)) ∧ ∃ d', key_step E a (reading r0 c0) = some (true, d')) := by
  have hfb := KeyFrame_before_cell E K reading r0 c0 s hKne honly hr0 hc0
  have hb := Shadows_frame K s _ a hfb ha
  have hcell : after_cell E reading r0 c0 s
      = scan_slots E K (reading r0 c0) (before_cell E reading r0 c0 s)
          KEYSTATE_COUNT 0 E.NO_KEY := by
    unfold after_cell update_cell
    simp only [hpop, if_false]
    rw [hfb.1, hK]
  have hfree' : a = none → reading r0 c0 ≠ 0 → has_free_slot E (before_cell E reading r0 c0 s) := by
    intro hnone hr
    apply hfree _ hr
    rintro ⟨j, hj, hkey⟩
    rw [hnone] at hb
    exact hb j hj hkey
  obtain ⟨h1, h2⟩ := key_cell_shadow E K (reading r0 c0) (before_cell E reading r0 c0 s) a
    hNO hKne hb hfree'
  rw [← hcell] at h1 h2
  have hmode : (after_cell E reading r0 c0 s).keypad_mode = s.keypad_mode := by
    unfold after_cell
    rw [update_cell_mode, hfb.1]
  have hfa := KeyFrame_after_cell E K reading r0 c0 s hKne honly hr0 hc0 hmode
  exact ⟨hb, h1, Shadows_frame K _ _ _ hfa h1, h2⟩

/-! ## The debounce register as a window on the readings -/

theorem testBit_reading_zero (r : Nat) (h : r ≤ 1) : r.testBit 0 = decide (r = 1) := by
  interval_cases r <;> simp

theorem testBit_reading_succ (r i : Nat) (h : r ≤ 1) : r.testBit (i + 1) = false := by
  interval_cases r <;> simp [Nat.testBit_succ]

theorem history_testBit (E : Env) (N : Nat) (hmask : E.DEBOUNCE_MASK = 2 ^ N - 1)
    (r : Nat → Nat) (T : Nat) (hr : ∀ t < T, r t ≤ 1) :
    ∀ t ≤ T, ∀ i, (history E r t).testBit i
      = (decide (i < N) && decide (i < t) && decide (r (t - 1 - i) = 1)) := by
  intro t
  induction t with
  | zero =>
    intro _ i
    simp [history]
  | succ t ih =>
    intro ht i
    have ih' := ih (by omega)
    have hrt := hr t (by omega)
    simp only [history, hmask, Nat.testBit_and, Nat.testBit_or, Nat.testBit_shiftLeft,
      Nat.testBit_two_pow_sub_one]
    cases i with
    | zero =>
      rw [testBit_reading_zero (r t) hrt]
      simp
    | succ i =>
      rw [testBit_reading_succ (r t) i hrt, Nat.add_sub_cancel, ih' i]
      have e1 : t + 1 - 1 - (i + 1) = t - 1 - i := by omega
      rw [e1]
      by_cases h1 : i + 1 < N <;> by_cases h2 : i < t <;> simp [h1, h2]
      omega

theorem history_full (E : Env) (N : Nat) (hmask : E.DEBOUNCE_MASK = 2 ^ N - 1)
    (hN : 1 ≤ N) (r : Nat → Nat) (T : Nat) (hr : ∀ t < T, r t ≤ 1) (t : Nat) (ht : t ≤ T) :
    history E r t = E.DEBOUNCE_MASK ↔ N ≤ t ∧ ∀ i < N, r (t - 1 - i) = 1 := by
  have hbits := history_testBit E N hmask r T hr t ht
  constructor
  · intro h
    have hall : ∀ i < N, i < t ∧ r (t - 1 - i) = 1 := by
      intro i hi
      have hb := hbits i
      rw [h, hmask, Nat.testBit_two_pow_sub_one] at hb
      simp [hi] at hb
      exact hb
    exact ⟨by have := (hall (N - 1) (by omega)).1; omega, fun i hi => (hall i hi).2⟩
  · rintro ⟨hNt, hall⟩
    rw [hmask]
    apply Nat.eq_of_testBit_eq
    intro i
    rw [hbits i, Nat.testBit_two_pow_sub_one]
    by_cases hi : i < N
    · have h2 : i < t := by omega
      simp [hi, h2, hall i hi]
    · simp [hi]

theorem mask_ge_three (N : Nat) (hN : 2 ≤ N) : 3 ≤ 2 ^ N - 1 := by
  have h : 2 ^ 2 ≤ 2 ^ N := Nat.pow_le_pow_right (by norm_num) hN
  omega

theorem mask_and_one (N : Nat) (hN : 1 ≤ N) : (2 ^ N - 1) &&& 1 = 1 := by
  rw [Nat.and_one_is_mod]
  obtain ⟨m, rfl⟩ : ∃ m, N = m + 1 := ⟨N - 1, by omega⟩
  have hpos : 0 < 2 ^ m := Nat.pos_pow_of_pos m (by norm_num)
  rw [pow_succ]
  omega

theorem key_trace_history (E : Env) (N : Nat) (hmask : E.DEBOUNCE_MASK = 2 ^ N - 1)
    (hN : 2 ≤ N) (r : Nat → Nat) (T : Nat) (hr : ∀ t < T, r t ≤ 1) :
    ∀ t ≤ T, (key_trace E r t = none → history E r t = 0) ∧
      ∀ st d, key_trace E r t = some (st, d) →
        d = history E r t ∧ d ≠ 0 ∧ (st = false → d ≠ E.DEBOUNCE_MASK) := by
  intro t
  induction t with
  | zero =>
    intro _
    refine ⟨fun _ => rfl, ?_⟩
    intro st d h
    simp [key_trace] at h
  | succ t ih =>
    intro ht
    obtain ⟨ihn, ihs⟩ := ih (by omega)
    have hrt := hr t (by omega)
    have h3 := mask_ge_three N hN
    simp only [key_trace, history]
    cases hk : key_trace E r t with
    | none =>
      have h0 := ihn hk
      rw [h0]
      simp only [key_step, Nat.zero_shiftLeft, Nat.zero_or]
      by_cases hr0 : r t = 0
      · simp [hr0]
      · have hr1 : r t = 1 := by omega
        simp only [hr1]
        rw [hmask, mask_and_one N (by omega)]
        simp
        omega
    | some p =>
      obtain ⟨st, d⟩ := p
      obtain ⟨hd, _, _⟩ := ihs st d hk
      rw [← hd]
      simp only [key_step]
      split_ifs with h0 h1
      · simp [h0]
      · refine ⟨(fun h => by cases h), ?_⟩
        intro st' d' h
        cases h
        exact ⟨rfl, h0, fun h => by cases h⟩
      · refine ⟨(fun h => by cases h), ?_⟩
        intro st' d' h
        cases h
        exact ⟨rfl, h0, fun hf hm => h1 ⟨hf, hm⟩⟩

theorem key_trace_settles (E : Env) (N : Nat) (hmask : E.DEBOUNCE_MASK = 2 ^ N - 1)
    (hN : 2 ≤ N) (r : Nat → Nat) (T : Nat) (hr : ∀ t < T, r t ≤ 1) (t : Nat) (ht : t < T) :
    ((∃ d, key_trace E r t = some (false, d)) ∧ ∃ d', key_trace E r (t + 1) = some (true, d')) ↔
      (¬ (∃ d, key_trace E r t = some (true, d)) ∧ history E r (t + 1) = E.DEBOUNCE_MASK) := by
  obtain ⟨hn, hs⟩ := key_trace_history E N hmask hN r T hr t (by omega)
  have h3 := mask_ge_three N hN
  have hrt := hr t ht
  simp only [key_trace, history]
  cases hk : key_trace E r t with
  | none =>
    have h0 := hn hk
    rw [h0]
    simp only [Nat.zero_shiftLeft, Nat.zero_or]
    have hle : E.DEBOUNCE_MASK &&& r t ≤ r t := Nat.and_le_right
    constructor
    · rintro ⟨⟨d, hd⟩, _⟩
      cases hd
    · rintro ⟨_, h⟩
      omega
  | some p =>
    obtain ⟨st, d⟩ := p
    obtain ⟨hd, _, _⟩ := hs st d hk
    rw [← hd]
    cases st with
    | true =>
      constructor
      · rintro ⟨⟨d2, hd2⟩, _⟩
        cases hd2
      · rintro ⟨h, _⟩
        exact absurd ⟨d, rfl⟩ h
    | false =>
      simp only [key_step]
      constructor
      · rintro ⟨_, d', hd'⟩
        refine ⟨(fun ⟨d2, hd2⟩ => by cases hd2), ?_⟩
        split_ifs at hd' with h0 h1
        · exact h1.2
        · cases hd'
      · rintro ⟨_, h⟩
        refine ⟨⟨d, rfl⟩, E.DEBOUNCE_MASK, ?_⟩
        rw [h]
        have hne : E.DEBOUNCE_MASK ≠ 0 := by omega
        simp [hne]

theorem key_trace_rise (E : Env) (r : Nat → Nat) (t : Nat) :
    (¬ (∃ d, key_trace E r t = some (true, d)) ∧ ∃ d', key_trace E r (t + 1) = some (true, d')) ↔
      ((∃ d, key_trace E r t = some (false, d)) ∧
        ∃ d', key_trace E r (t + 1) = some (true, d')) := by
  simp only [key_trace]
  cases hk : key_trace E r t with
  | none =>
    constructor
    · rintro ⟨_, d', hd'⟩
      simp only [key_step] at hd'
      split_ifs at hd'
      cases hd'
    · rintro ⟨⟨d, hd⟩, _⟩
      cases hd
  | some p =>
    obtain ⟨st, d⟩ := p
    cases st with
    | true =>
      constructor
      · rintro ⟨h, _⟩
        exact absurd ⟨d, rfl⟩ h
      · rintro ⟨⟨d2, hd2⟩, _⟩
        cases hd2
    | false =>
      constructor
      · rintro ⟨_, h⟩
        exact ⟨⟨d, rfl⟩, h⟩
      · rintro ⟨_, h⟩
        exact ⟨(fun ⟨d2, hd2⟩ => by cases hd2), h⟩

/-- Over scans without a toggle, the entry of the key `K` of the cell
`(r0, c0)` follows `key_trace` on the readings of that cell. -/
theorem state_at_shadow (E : Env) (K r0 c0 : Nat) (s0 : State)
    (rd : Nat → Nat → Nat → Nat) (T : Nat)
    (hNO : KEYSTATE_COUNT ≤ E.NO_KEY)
    (hr0 : r0 < E.MATRIX_ROWS) (hc0 : c0 < E.MATRIX_COLS)
    (hpop : E.matrix_to_logical_map r0 c0 ≠ E.NO_KEY)
    (hK : effective_key E s0.keypad_mode (E.matrix_to_logical_map r0 c0) = K)
    (hKne : K ≠ E.NO_KEY)
    (honly : only_cell E s0.keypad_mode K r0 c0)
    (hstart : ¬ is_tracked s0 K)
    (hfree : ∀ t < T, ¬ is_tracked (before_cell E (rd t) r0 c0 (state_at E s0 rd t)) K →
      rd t r0 c0 ≠ 0 → has_free_slot E (before_cell E (rd t) r0 c0 (state_at E s0 rd t))) :
    ∀ t ≤ T, Shadows K (state_at E s0 rd t) (key_trace E (fun i => rd i r0 c0) t) := by
  intro t
  induction t with
  | zero =>
    intro _ j hj hkey
    exact hstart ⟨j, hj, hkey⟩
  | succ t ih =>
    intro ht
    have hm := state_at_mode E s0 rd t
    have h := scan_shadow E K r0 c0 (rd t) (state_at E s0 rd t) _ hNO hKne hr0 hc0 hpop
      (by rw [hm]; exact hK) (by rw [hm]; exact honly) (ih (by omega)) (hfree t (by omega))
    exact h.2.2.1

theorem key_trace_never (E : Env) (N : Nat) (hmask : E.DEBOUNCE_MASK = 2 ^ N - 1)
    (hN : 2 ≤ N) (r : Nat → Nat) (T : Nat) (hr : ∀ t < T, r t ≤ 1) (M : Nat) (hM : M ≤ T)
    (hnot : ∀ t < M, history E r (t + 1) ≠ E.DEBOUNCE_MASK) :
    ∀ t ≤ M, ¬ ∃ d, key_trace E r t = some (true, d) := by
  intro t
  induction t with
  | zero =>
    rintro _ ⟨d, hd⟩
    simp [key_trace] at hd
  | succ t ih =>
    intro ht hset
    have hprev := ih (by omega)
    have h1 := (key_trace_rise E r t).mp ⟨hprev, hset⟩
    have h2 := (key_trace_settles E N hmask hN r T hr t (by omega)).mp h1
    exact hnot t (by omega) h2.2

/-- C2. Debounce on press.  With `DEBOUNCE_MASK = 2^N - 1`, `N >= 2`, a sentinel
`NO_KEY` that is not a slot index, and a key `K` that only the matrix cell
`(r0, c0)` produces, untracked in `s0`; over `T` scans without a keypad toggle,
with readings of the cell in {0, 1}, and a free slot in the table whenever the
cell is reached with `K` untracked and asserted:
(1) `K` settles at scan `t` (its entry goes from state 0 to state 1 and
`key_press_count` is incremented) if and only if `K` was not settled before
scan `t` and the readings of the scans `t-N+1 .. t` are all asserted;
(2) that is exactly when `K` is not settled before the scan and settled after it;
(3) `N` asserted readings from the start settle `K` after the `N`-th scan and
not earlier;
(4) a signal without a run of `N` asserted readings never settles `K`;
(5) a strictly alternating signal never settles `K`. -/
theorem debounce_press (E : Env) (N K r0 c0 : Nat) (s0 : State)
    (rd : Nat → Nat → Nat → Nat) (T : Nat)
    (hN : 2 ≤ N) (hmask : E.DEBOUNCE_MASK = 2 ^ N - 1)
    (hNO : KEYSTATE_COUNT ≤ E.NO_KEY)
    (hr0 : r0 < E.MATRIX_ROWS) (hc0 : c0 < E.MATRIX_COLS)
    (hpop : E.matrix_to_logical_map r0 c0 ≠ E.NO_KEY)
    (hK : effective_key E s0.keypad_mode (E.matrix_to_logical_map r0 c0) = K)
    (hKne : K ≠ E.NO_KEY)
    (honly : only_cell E s0.keypad_mode K r0 c0)
    (hstart : ¬ is_tracked s0 K)
    (hrd : ∀ t < T, rd t r0 c0 ≤ 1)
    (hfree : ∀ t < T, ¬ is_tracked (before_cell E (rd t) r0 c0 (state_at E s0 rd t)) K →
      rd t r0 c0 = 1 → has_free_slot E (before_cell E (rd t) r0 c0 (state_at E s0 rd t))) :
    (∀ t < T,
      settles (before_cell E (rd t) r0 c0 (state_at E s0 rd t))
          (after_cell E (rd t) r0 c0 (state_at E s0 rd t)) K ↔
        (¬ is_settled (state_at E s0 rd t) K ∧ N ≤ t + 1 ∧ ∀ i < N, rd (t - i) r0 c0 = 1)) ∧
    (∀ t < T,
      (¬ is_settled (state_at E s0 rd t) K ∧ is_settled (state_at E s0 rd (t + 1)) K) ↔
        settles (before_cell E (rd t) r0 c0 (state_at E s0 rd t))
          (after_cell E (rd t) r0 c0 (state_at E s0 rd t)) K) ∧
    (N ≤ T → (∀ t < N, rd t r0 c0 = 1) →
      is_settled (state_at E s0 rd N) K ∧ ∀ t < N, ¬ is_settled (state_at E s0 rd t) K) ∧
    ((∀ t < T, N ≤ t + 1 → ∃ i < N, rd (t - i) r0 c0 = 0) →
      ∀ t ≤ T, ¬ is_settled (state_at E s0 rd t) K) ∧
    ((∀ t, t + 1 < T → rd t r0 c0 ≠ rd (t + 1) r0 c0) →
      ∀ t ≤ T, ¬ is_settled (state_at E s0 rd t) K) := by
  have hfree' : ∀ t < T, ¬ is_tracked (before_cell E (rd t) r0 c0 (state_at E s0 rd t)) K →
      rd t r0 c0 ≠ 0 → has_free_slot E (before_cell E (rd t) r0 c0 (state_at E s0 rd t)) := by
    intro t ht hun hr
    have := hrd t ht
    exact hfree t ht hun (by omega)
  have hsh := state_at_shadow E K r0 c0 s0 rd T hNO hr0 hc0 hpop hK hKne honly hstart hfree'
  have hrd' : ∀ t < T, (fun i => rd i r0 c0) t ≤ 1 := hrd
  have hset : ∀ t ≤ T, is_settled (state_at E s0 rd t) K ↔
      ∃ d, key_trace E (fun i => rd i r0 c0) t = some (true, d) :=
    fun t ht => Shadows_settled K _ _ (hsh t ht)
  have hcell : ∀ t < T,
      settles (before_cell E (rd t) r0 c0 (state_at E s0 rd t))
          (after_cell E (rd t) r0 c0 (state_at E s0 rd t)) K ↔
        ((∃ d, key_trace E (fun i => rd i r0 c0) t = some (false, d)) ∧
          ∃ d', key_trace E (fun i => rd i r0 c0) (t + 1) = some (true, d')) := by
    intro t ht
    have hm := state_at_mode E s0 rd t
    exact (scan_shadow E K r0 c0 (rd t) (state_at E s0 rd t) _ hNO hKne hr0 hc0 hpop
      (by rw [hm]; exact hK) (by rw [hm]; exact honly) (hsh t (by omega)) (hfree' t ht)).2.2.2
  have hfull : ∀ t < T, history E (fun i => rd i r0 c0) (t + 1) = E.DEBOUNCE_MASK ↔
      (N ≤ t + 1 ∧ ∀ i < N, rd (t - i) r0 c0 = 1) := by
    intro t ht
    rw [history_full E N hmask (by omega) _ T hrd' (t + 1) (by omega)]
    have e : ∀ i, t + 1 - 1 - i = t - i := fun i => by omega
    simp only [e]
  have hpart4 : (∀ t < T, N ≤ t + 1 → ∃ i < N, rd (t - i) r0 c0 = 0) →
      ∀ t ≤ T, ¬ is_settled (state_at E s0 rd t) K := by
    intro hno t ht
    rw [hset t ht]
    apply key_trace_never E N hmask hN _ T hrd' T (le_refl T) _ t ht
    intro u hu hm
    obtain ⟨h1, h2⟩ := (hfull u hu).mp hm
    obtain ⟨i, hi, h0⟩ := hno u hu h1
    have := h2 i hi
    omega
  refine ⟨?_, ?_, ?_, hpart4, ?_⟩
  · intro t ht
    rw [hcell t ht, key_trace_settles E N hmask hN _ T hrd' t ht, hset t (by omega), hfull t ht]
  · intro t ht
    rw [hcell t ht, hset t (by omega), hset (t + 1) (by omega)]
    exact key_trace_rise E _ t
  · intro hNT hall
    have hbefore : ∀ t ≤ N - 1, ¬ ∃ d, key_trace E (fun i => rd i r0 c0) t = some (true, d) := by
      apply key_trace_never E N hmask hN _ T hrd' (N - 1) (by omega)
      intro u hu hm
      have := ((hfull u (by omega)).mp hm).1
      omega
    constructor
    · have hlast : N - 1 + 1 = N := by omega
      have h := (key_trace_settles E N hmask hN _ T hrd' (N - 1) (by omega)).mpr
        ⟨hbefore (N - 1) (le_refl _),
          (hfull (N - 1) (by omega)).mpr ⟨by omega, fun i hi => hall _ (by omega)⟩⟩
      rw [hlast] at h
      exact (hset N hNT).mpr h.2
    · intro t ht
      rw [hset t (by omega)]
      exact hbefore t (by omega)
  · intro halt
    apply hpart4
    intro t ht hNt
    have h1 := hrd t ht
    have h2 := hrd (t - 1) (by omega)
    have h3 := halt (t - 1) (by omega)
    have e : t - 1 + 1 = t := by omega
    rw [e] at h3
    by_cases h0 : rd t r0 c0 = 0
    · exact ⟨0, by omega, by simpa using h0⟩
    · exact ⟨1, by omega, by omega⟩

theorem debounce_press_witness :
    is_settled (state_at demoEnv (startup demoEnv) (fun _ _ _ => 1) 3) 0 ∧
      ∀ t < 3, ¬ is_settled (state_at demoEnv (startup demoEnv) (fun _ _ _ => 1) t) 0 :=
  (debounce_press demoEnv 3 0 0 0 (startup demoEnv) (fun _ _ _ => 1) 3
    (by decide) (by decide) (by decide) (by decide) (by decide) (by decide) (by decide)
    (by decide) (by decide) (by decide) (by decide) (by decide)).2.2.1 (by decide) (by decide)

/-! ## The point query -/

theorem check_key_from_spec (s : State) (c : Nat) :
    ∀ n i, check_key_from s c n i = true ↔
      ∃ j, i ≤ j ∧ j < i + n ∧ (s.key_states j).l_key = c ∧ (s.key_states j).state = true ∧
        ∀ k, i ≤ k → k < j → (s.key_states k).l_key ≠ c := by
  intro n
  induction n with
  | zero =>
    intro i
    simp only [check_key_from]
    constructor
    · intro h; cases h
    · rintro ⟨j, h1, h2, _⟩; omega
  | succ n ih =>
    intro i
    simp only [check_key_from]
    split_ifs with h
    · constructor
      · intro hst
        exact ⟨i, le_refl i, by omega, h, hst, fun k h1 h2 => by omega⟩
      · rintro ⟨j, h1, _, _, h4, h5⟩
        by_cases hji : j = i
        · subst hji; exact h4
        · exact absurd h (h5 i (le_refl i) (by omega))
    · rw [ih (i + 1)]
      constructor
      · rintro ⟨j, h1, h2, h3, h4, h5⟩
        refine ⟨j, by omega, by omega, h3, h4, ?_⟩
        intro k hk1 hk2
        by_cases hki : k = i
        · subst hki; exact h
        · exact h5 k (by omega) hk2
      · rintro ⟨j, h1, h2, h3, h4, h5⟩
        have hji : j ≠ i := by
          rintro rfl
          exact h h3
        exact ⟨j, by omega, by omega, h3, h4, fun k hk1 hk2 => h5 k (by omega) hk2⟩

theorem keystate_check_key_spec (s : State) (c : Nat) :
    keystate_check_key s c = true ↔
      ∃ j, j < KEYSTATE_COUNT ∧ (s.key_states j).l_key = c ∧ (s.key_states j).state = true ∧
        ∀ k < j, (s.key_states k).l_key ≠ c := by
  unfold keystate_check_key
  rw [check_key_from_spec]
  constructor
  · rintro ⟨j, _, h2, h3, h4, h5⟩
    exact ⟨j, by omega, h3, h4, fun k hk => h5 k (Nat.zero_le k) hk⟩
  · rintro ⟨j, h2, h3, h4, h5⟩
    exact ⟨j, Nat.zero_le j, by omega, h3, h4, fun k _ hk => h5 k hk⟩

theorem check_key_of_entry (s : State) (K j : Nat) (hj : j < KEYSTATE_COUNT)
    (hkey : (s.key_states j).l_key = K)
    (hothers : ∀ i < KEYSTATE_COUNT, i ≠ j → (s.key_states i).l_key ≠ K) :
    keystate_check_key s K = (s.key_states j).state := by
  cases hst : (s.key_states j).state with
  | true =>
    rw [keystate_check_key_spec]
    exact ⟨j, hj, hkey, hst, fun k hk => hothers k (by omega) (by omega)⟩
  | false =>
    cases hc : keystate_check_key s K with
    | false => rfl
    | true =>
      obtain ⟨i, hi, h1, h2, _⟩ := (keystate_check_key_spec s K).mp hc
      have hij : i = j := by
        by_contra hne
        exact hothers i hi hne h1
      subst hij
      rw [hst] at h2
      cases h2

theorem check_key_untracked (s : State) (K : Nat) (hun : ¬ is_tracked s K) :
    keystate_check_key s K = false := by
  cases hc : keystate_check_key s K with
  | false => rfl
  | true =>
    obtain ⟨i, hi, h1, _, _⟩ := (keystate_check_key_spec s K).mp hc
    exact absurd ⟨i, hi, h1⟩ hun

/-! ## Release of a settled key -/

theorem release_reg_testBit (E : Env) (N : Nat) (hmask : E.DEBOUNCE_MASK = 2 ^ N - 1) (d : Nat) :
    ∀ i j, (release_reg E d (i + 1)).testBit j
      = (decide (j < N) && decide (i + 1 ≤ j) && d.testBit (j - (i + 1))) := by
  intro i
  induction i with
  | zero =>
    intro j
    simp [release_reg, hmask, Nat.testBit_and, Nat.testBit_shiftLeft,
      Nat.testBit_two_pow_sub_one, Bool.and_assoc]
  | succ i ih =>
    intro j
    have hdef : release_reg E d (i + 1 + 1)
        = E.DEBOUNCE_MASK &&& ((release_reg E d (i + 1) <<< 1) ||| 0) := rfl
    rw [hdef, hmask]
    simp only [Nat.testBit_and, Nat.testBit_or, Nat.testBit_shiftLeft,
      Nat.testBit_two_pow_sub_one, Nat.zero_testBit, Bool.or_false, ih]
    by_cases h1 : j < N <;> by_cases h2 : i + 1 + 1 ≤ j
    · have e : j - 1 - (i + 1) = j - (i + 1 + 1) := by omega
      have h3 : j - 1 < N := by omega
      have h4 : i + 1 ≤ j - 1 := by omega
      have h5 : j ≥ 1 := by omega
      simp [h1, h2, h3, h4, h5, e]
    · have h4 : ¬ (i + 1 ≤ j - 1 ∧ j ≥ 1) := by omega
      by_cases h5 : j ≥ 1
      · have h6 : ¬ (i + 1 ≤ j - 1) := by omega
        simp [h1, h2, h5, h6]
      · simp [h1, h2, h5]
    · simp [h1]
    · simp [h1]

theorem release_reg_ne_zero (E : Env) (N : Nat) (hmask : E.DEBOUNCE_MASK = 2 ^ N - 1) (d : Nat)
    (hlast : d % 2 = 1) (i : Nat) (hi : i < N) : release_reg E d i ≠ 0 := by
  have hbit0 : d.testBit 0 = true := by
    rw [Nat.testBit_zero]; simp [hlast]
  cases i with
  | zero =>
    simp only [release_reg]
    omega
  | succ i =>
    intro h0
    have hb := release_reg_testBit E N hmask d i (i + 1)
    rw [h0] at hb
    simp [hi, hbit0] at hb

theorem release_reg_zero (E : Env) (N : Nat) (hmask : E.DEBOUNCE_MASK = 2 ^ N - 1) (d : Nat)
    (hN : 1 ≤ N) : release_reg E d N = 0 := by
  obtain ⟨m, rfl⟩ : ∃ m, N = m + 1 := ⟨N - 1, by omega⟩
  apply Nat.eq_of_testBit_eq
  intro j
  rw [release_reg_testBit E (m + 1) hmask d m j]
  by_cases h1 : j < m + 1
  · have h2 : ¬ (m + 1 ≤ j) := by omega
    simp [h2]
  · simp [h1]

/-- One scan that reads the cell of the settled key `K` deasserted: the
register shifts; the entry stays settled in its slot while the register is not
zero and is freed, with `key_press_count` decremented, when it is zero. -/
theorem release_step (E : Env) (K r0 c0 j x : Nat) (reading : Nat → Nat → Nat) (s : State)
    (hr0 : r0 < E.MATRIX_ROWS) (hc0 : c0 < E.MATRIX_COLS)
    (hpop : E.matrix_to_logical_map r0 c0 ≠ E.NO_KEY)
    (hK : effective_key E s.keypad_mode (E.matrix_to_logical_map r0 c0) = K)
    (hKne : K ≠ E.NO_KEY)
    (honly : only_cell E s.keypad_mode K r0 c0)
    (hj : j < KEYSTATE_COUNT) (hentry : s.key_states j = ⟨K, true, x⟩)
    (hothers : ∀ i < KEYSTATE_COUNT, i ≠ j → (s.key_states i).l_key ≠ K)
    (hzero : reading r0 c0 = 0) :
    (before_cell E reading r0 c0 s).key_states j = ⟨K, true, x⟩ ∧
    (E.DEBOUNCE_MASK &&& ((x <<< 1) ||| 0) ≠ 0 →
      (after_cell E reading r0 c0 s).key_press_count
        = (before_cell E reading r0 c0 s).key_press_count ∧
      (keystate_update E reading s).key_states j
        = ⟨K, true, E.DEBOUNCE_MASK &&& ((x <<< 1) ||| 0)⟩ ∧
      ∀ i < KEYSTATE_COUNT, i ≠ j → ((keystate_update E reading s).key_states i).l_key ≠ K) ∧
    (E.DEBOUNCE_MASK &&& ((x <<< 1) ||| 0) = 0 →
      (after_cell E reading r0 c0 s).key_states j = ⟨E.NO_KEY, false, 0⟩ ∧
      (after_cell E reading r0 c0 s).key_press_count
        = ((before_cell E reading r0 c0 s).key_press_count + 255) % 256 ∧
      ¬ is_tracked (keystate_update E reading s) K) := by
  have hfb := KeyFrame_before_cell E K reading r0 c0 s hKne honly hr0 hc0
  have hbj : (before_cell E reading r0 c0 s).key_states j = ⟨K, true, x⟩ := by
    rw [(hfb.2 j hj).1 (by rw [hentry]), hentry]
  have hbo : ∀ i < KEYSTATE_COUNT, i ≠ j →
      ((before_cell E reading r0 c0 s).key_states i).l_key ≠ K :=
    fun i hi hij => (hfb.2 i hi).2 (hothers i hi hij)
  have hcell : after_cell E reading r0 c0 s
      = found_key E 0 (before_cell E reading r0 c0 s) j := by
    unfold after_cell update_cell
    simp only [hpop, if_false]
    rw [hfb.1, hK, hzero]
    exact scan_slots_found E K 0 _ hKne j hj (by rw [hbj])
      (fun i hi => hbo i (by omega) (by omega))
  have hmode : (after_cell E reading r0 c0 s).keypad_mode = s.keypad_mode := by
    unfold after_cell
    rw [update_cell_mode, hfb.1]
  have hfa := KeyFrame_after_cell E K reading r0 c0 s hKne honly hr0 hc0 hmode
  refine ⟨hbj, ?_, ?_⟩
  · intro hne
    have haj : (after_cell E reading r0 c0 s).key_states j
        = ⟨K, true, E.DEBOUNCE_MASK &&& ((x <<< 1) ||| 0)⟩ := by
      rw [hcell]
      unfold found_key
      simp only [hbj]
      rw [if_neg hne]
      simp
    have hao : ∀ i < KEYSTATE_COUNT, i ≠ j →
        ((after_cell E reading r0 c0 s).key_states i).l_key ≠ K := by
      intro i hi hij
      rw [hcell]
      unfold found_key
      simp only [hbj]
      rw [if_neg hne]
      simp only [Bool.true_eq_false, false_and, if_false, Function.update_noteq hij]
      exact hbo i hi hij
    refine ⟨?_, ?_, ?_⟩
    · rw [hcell]
      unfold found_key
      simp only [hbj]
      rw [if_neg hne]
      simp
    · rw [(hfa.2 j hj).1 (by rw [haj]), haj]
    · intro i hi hij
      exact (hfa.2 i hi).2 (hao i hi hij)
  · intro h0
    have haj : (after_cell E reading r0 c0 s).key_states j = ⟨E.NO_KEY, false, 0⟩ := by
      rw [hcell]
      unfold found_key
      simp only [hbj]
      rw [if_pos h0]
      simp only [Function.update_same, h0]
    have hao : ∀ i < KEYSTATE_COUNT, ((after_cell E reading r0 c0 s).key_states i).l_key ≠ K := by
      intro i hi
      by_cases hij : i = j
      · subst hij
        rw [haj]
        exact fun h => hKne h.symm
      · rw [hcell]
        unfold found_key
        simp only [hbj]
        rw [if_pos h0]
        simp only [Function.update_noteq hij]
        exact hbo i hi hij
    refine ⟨haj, ?_, ?_⟩
    · rw [hcell]
      unfold found_key
      simp only [hbj]
      rw [if_pos h0]
      simp
    · rintro ⟨i, hi, hkey⟩
      exact (hfa.2 i hi).2 (hao i hi) hkey

theorem CountInv_state_at (E : Env) (hmap : effective_codes_valid E) (s0 : State)
    (rd : Nat → Nat → Nat → Nat) (hinv : CountInv E s0) (t : Nat) :
    CountInv E (state_at E s0 rd t) := by
  induction t with
  | zero => exact hinv
  | succ t ih => exact CountInv_keystate_update E hmap (rd t) _ ih

theorem CountInv_before_cell (E : Env) (hmap : effective_codes_valid E)
    (reading : Nat → Nat → Nat) (r0 c0 : Nat) (hr0 : r0 < E.MATRIX_ROWS)
    (hc0 : c0 < E.MATRIX_COLS) (s : State) (hinv : CountInv E s) :
    CountInv E (before_cell E reading r0 c0 s) := by
  unfold before_cell
  apply foldl_preserves (CountInv E)
  · intro b c hc hb
    have := List.mem_range.mp hc
    exact CountInv_update_cell E hmap reading r0 c hr0 (by omega) b hb
  · apply foldl_preserves (CountInv E) _ _ _ _ hinv
    intro a r hr ha
    have := List.mem_range.mp hr
    apply foldl_preserves (CountInv E) _ _ _ _ ha
    intro b c hc hb
    exact CountInv_update_cell E hmap reading r c (by omega) (List.mem_range.mp hc) b hb

theorem release_invariant (E : Env) (N K r0 c0 j d : Nat) (s0 : State)
    (rd : Nat → Nat → Nat → Nat)
    (hmask : E.DEBOUNCE_MASK = 2 ^ N - 1)
    (hr0 : r0 < E.MATRIX_ROWS) (hc0 : c0 < E.MATRIX_COLS)
    (hpop : E.matrix_to_logical_map r0 c0 ≠ E.NO_KEY)
    (hK : effective_key E s0.keypad_mode (E.matrix_to_logical_map r0 c0) = K)
    (hKne : K ≠ E.NO_KEY)
    (honly : only_cell E s0.keypad_mode K r0 c0)
    (hj : j < KEYSTATE_COUNT) (hentry : s0.key_states j = ⟨K, true, d⟩)
    (hothers : ∀ i < KEYSTATE_COUNT, i ≠ j → (s0.key_states i).l_key ≠ K)
    (hlast : d % 2 = 1)
    (hzero : ∀ t < N, rd t r0 c0 = 0) :
    ∀ t < N, (state_at E s0 rd t).key_states j = ⟨K, true, release_reg E d t⟩ ∧
      ∀ i < KEYSTATE_COUNT, i ≠ j → ((state_at E s0 rd t).key_states i).l_key ≠ K := by
  intro t
  induction t with
  | zero =>
    intro _
    exact ⟨hentry, hothers⟩
  | succ t ih =>
    intro ht
    obtain ⟨h1, h2⟩ := ih (by omega)
    have hm := state_at_mode E s0 rd t
    have hstep := release_step E K r0 c0 j (release_reg E d t) (rd t) (state_at E s0 rd t)
      hr0 hc0 hpop (by rw [hm]; exact hK) hKne (by rw [hm]; exact honly) hj h1 h2
      (hzero t (by omega))
    have hne : E.DEBOUNCE_MASK &&& ((release_reg E d t <<< 1) ||| 0) ≠ 0 :=
      release_reg_ne_zero E N hmask d hlast (t + 1) ht
    obtain ⟨_, h3, h4⟩ := hstep.2.1 hne
    exact ⟨h3, h4⟩

/-- C3. Debounce on release.  With `DEBOUNCE_MASK = 2^N - 1`, let `K` be
settled in slot `j` (and in no other slot), its register recording an asserted
most recent reading, `K` produced by the matrix cell `(r0, c0)` only, and no
keypad toggle.  When the next `N` scans read the cell deasserted:
after each of the first `N - 1` scans `K` is still settled,
`keystate_check_key K` is true, and the cell of `K` left `key_press_count`
unchanged; in the `N`-th scan the cell of `K` finds the entry still settled in
slot `j`, frees it (`l_key = NO_KEY`, `state = 0`) and decrements
`key_press_count` (by exactly one when the counter was consistent at the
start), and after that scan `K` is untracked and `keystate_check_key K` is
false. -/
theorem debounce_release (E : Env) (N K r0 c0 j d : Nat) (s0 : State)
    (rd : Nat → Nat → Nat → Nat)
    (hN : 1 ≤ N) (hmask : E.DEBOUNCE_MASK = 2 ^ N - 1)
    (hr0 : r0 < E.MATRIX_ROWS) (hc0 : c0 < E.MATRIX_COLS)
    (hpop : E.matrix_to_logical_map r0 c0 ≠ E.NO_KEY)
    (hK : effective_key E s0.keypad_mode (E.matrix_to_logical_map r0 c0) = K)
    (hKne : K ≠ E.NO_KEY)
    (honly : only_cell E s0.keypad_mode K r0 c0)
    (hj : j < KEYSTATE_COUNT) (hentry : s0.key_states j = ⟨K, true, d⟩)
    (hothers : ∀ i < KEYSTATE_COUNT, i ≠ j → (s0.key_states i).l_key ≠ K)
    (hlast : d % 2 = 1)
    (hzero : ∀ t < N, rd t r0 c0 = 0) :
    (∀ t, t + 1 < N →
      is_settled (state_at E s0 rd (t + 1)) K ∧
      keystate_check_key (state_at E s0 rd (t + 1)) K = true ∧
      (after_cell E (rd t) r0 c0 (state_at E s0 rd t)).key_press_count
        = (before_cell E (rd t) r0 c0 (state_at E s0 rd t)).key_press_count) ∧
    (((before_cell E (rd (N - 1)) r0 c0 (state_at E s0 rd (N - 1))).key_states j).l_key = K ∧
      ((before_cell E (rd (N - 1)) r0 c0 (state_at E s0 rd (N - 1))).key_states j).state = true ∧
      (after_cell E (rd (N - 1)) r0 c0 (state_at E s0 rd (N - 1))).key_states j
        = ⟨E.NO_KEY, false, 0⟩ ∧
      (after_cell E (rd (N - 1)) r0 c0 (state_at E s0 rd (N - 1))).key_press_count
        = ((before_cell E (rd (N - 1)) r0 c0 (state_at E s0 rd (N - 1))).key_press_count
            + 255) % 256 ∧
      ¬ is_tracked (state_at E s0 rd N) K ∧
      keystate_check_key (state_at E s0 rd N) K = false) ∧
    (CountInv E s0 → effective_codes_valid E →
      (after_cell E (rd (N - 1)) r0 c0 (state_at E s0 rd (N - 1))).key_press_count + 1
        = (before_cell E (rd (N - 1)) r0 c0 (state_at E s0 rd (N - 1))).key_press_count) := by
  have hinv := release_invariant E N K r0 c0 j d s0 rd hmask hr0 hc0 hpop hK hKne honly hj
    hentry hothers hlast hzero
  have hstep : ∀ t < N,
      (before_cell E (rd t) r0 c0 (state_at E s0 rd t)).key_states j
        = ⟨K, true, release_reg E d t⟩ ∧
      (release_reg E d (t + 1) ≠ 0 →
        (after_cell E (rd t) r0 c0 (state_at E s0 rd t)).key_press_count
          = (before_cell E (rd t) r0 c0 (state_at E s0 rd t)).key_press_count ∧
        (state_at E s0 rd (t + 1)).key_states j = ⟨K, true, release_reg E d (t + 1)⟩ ∧
        ∀ i < KEYSTATE_COUNT, i ≠ j → ((state_at E s0 rd (t + 1)).key_states i).l_key ≠ K) ∧
      (release_reg E d (t + 1) = 0 →
        (after_cell E (rd t) r0 c0 (state_at E s0 rd t)).key_states j = ⟨E.NO_KEY, false, 0⟩ ∧
        (after_cell E (rd t) r0 c0 (state_at E s0 rd t)).key_press_count
          = ((before_cell E (rd t) r0 c0 (state_at E s0 rd t)).key_press_count + 255) % 256 ∧
        ¬ is_tracked (state_at E s0 rd (t + 1)) K) := by
    intro t ht
    obtain ⟨h1, h2⟩ := hinv t ht
    have hm := state_at_mode E s0 rd t
    exact release_step E K r0 c0 j (release_reg E d t) (rd t) (state_at E s0 rd t)
      hr0 hc0 hpop (by rw [hm]; exact hK) hKne (by rw [hm]; exact honly) hj h1 h2 (hzero t ht)
  have hNeq : N - 1 + 1 = N := by omega
  have hlaststep := hstep (N - 1) (by omega)
  rw [hNeq] at hlaststep
  obtain ⟨hb, _, hfree⟩ := hlaststep
  obtain ⟨ha, hc, hun⟩ := hfree (release_reg_zero E N hmask d hN)
  refine ⟨?_, ⟨by rw [hb], by rw [hb], ha, hc, hun, check_key_untracked _ K hun⟩, ?_⟩
  · intro t ht
    obtain ⟨_, hkeep, _⟩ := hstep t (by omega)
    obtain ⟨h1, h2, h3⟩ := hkeep (release_reg_ne_zero E N hmask d hlast (t + 1) ht)
    refine ⟨⟨j, hj, by rw [h2], by rw [h2]⟩, ?_, h1⟩
    rw [check_key_of_entry _ K j hj (by rw [h2]) h3, h2]
  · intro hci hmap
    have hcb := CountInv_before_cell E hmap (rd (N - 1)) r0 c0 hr0 hc0 _
      (CountInv_state_at E hmap s0 rd hci (N - 1))
    have hpos := settled_pos_of_state _ j hj (show
      ((before_cell E (rd (N - 1)) r0 c0 (state_at E s0 rd (N - 1))).key_states j).state = true
      by rw [hb])
    have hle := settled_count_le (before_cell E (rd (N - 1)) r0 c0 (state_at E s0 rd (N - 1)))
    have h2 := hcb.2
    simp only [KEYSTATE_COUNT] at hle
    rw [hc]
    omega

theorem debounce_release_witness :
    keystate_check_key
        (state_at demoEnv (state_at demoEnv (startup demoEnv) (fun _ _ _ => 1) 3)
          (fun _ _ _ => 0) 2) 0 = true ∧
      keystate_check_key
        (state_at demoEnv (state_at demoEnv (startup demoEnv) (fun _ _ _ => 1) 3)
          (fun _ _ _ => 0) 3) 0 = false :=
  have h := debounce_release demoEnv 3 0 0 0 0 7
    (state_at demoEnv (startup demoEnv) (fun _ _ _ => 1) 3) (fun _ _ _ => 0)
    (by decide) (by decide) (by decide) (by decide) (by decide) (by decide) (by decide)
    (by decide) (by decide) (by decide) (by decide) (by decide) (by decide)
  ⟨(h.1 1 (by decide)).2.1, h.2.1.2.2.2.2.2⟩

/-! ## Capacity -/

theorem foldl_rows {σ : Type} (f : Nat → σ → Nat → σ) (cols rows : List Nat) (s : σ) :
    rows.foldl (fun s r => cols.foldl (f r) s) s
      = (rows.flatMap (fun r => cols.map (fun c => (r, c)))).foldl
          (fun s rc => f rc.1 s rc.2) s := by
  induction rows generalizing s with
  | nil => rfl
  | cons r rows ih =>
    simp only [List.foldl_cons, List.flatMap_cons, List.foldl_append, List.foldl_map]
    exact ih _

theorem keystate_update_cells (E : Env) (reading : Nat → Nat → Nat) (s : State) :
    keystate_update E reading s
      = (cells E).foldl (fun s rc => update_cell E reading rc.1 s rc.2) s := by
  unfold keystate_update cells
  exact foldl_rows (update_cell E reading) _ _ s

theorem update_cell_full (E : Env) (reading : Nat → Nat → Nat) (r c : Nat) (s : State)
    (hun : ¬ is_tracked s (effective_key E s.keypad_mode (E.matrix_to_logical_map r c)))
    (hfull : ¬ has_free_slot E s) : update_cell E reading r s c = s := by
  unfold update_cell
  simp only
  split_ifs with h
  · rfl
  · rcases scan_slots_cases E _ (reading r c) s KEYSTATE_COUNT 0 E.NO_KEY (by simp) (Or.inl rfl)
      with h1 | ⟨k, hk, hfree, _⟩ | ⟨k, hk, hkey, _⟩
    · exact h1
    · exact absurd ⟨k, hk, hfree⟩ hfull
    · exact absurd ⟨k, hk, hkey⟩ hun

theorem update_cell_new (E : Env) (reading : Nat → Nat → Nat) (r c : Nat) (s : State)
    (hNO : KEYSTATE_COUNT ≤ E.NO_KEY)
    (hpop : E.matrix_to_logical_map r c ≠ E.NO_KEY)
    (hun : ¬ is_tracked s (effective_key E s.keypad_mode (E.matrix_to_logical_map r c)))
    (hr : reading r c ≠ 0) (k : Nat) (hk : k < KEYSTATE_COUNT)
    (hfree : (s.key_states k).l_key = E.NO_KEY)
    (hfirst : ∀ i < k, (s.key_states i).l_key ≠ E.NO_KEY) :
    update_cell E reading r s c
      = { s with
          key_states := Function.update s.key_states k
            ⟨effective_key E s.keypad_mode (E.matrix_to_logical_map r c), false, 1⟩ } := by
  have hKne : effective_key E s.keypad_mode (E.matrix_to_logical_map r c) ≠ E.NO_KEY := by
    intro h
    apply hun
    exact ⟨k, hk, by rw [hfree, h]⟩
  unfold update_cell
  simp only [hpop, if_false]
  exact scan_slots_new E _ (reading r c) s hNO hKne hr
    (fun i hi hkey => hun ⟨i, hi, hkey⟩) k hk hfree hfirst

theorem update_cell_idle (E : Env) (reading : Nat → Nat → Nat) (r c : Nat) (s : State)
    (hNO : KEYSTATE_COUNT ≤ E.NO_KEY)
    (hKne : effective_key E s.keypad_mode (E.matrix_to_logical_map r c) ≠ E.NO_KEY)
    (hun : ¬ is_tracked s (effective_key E s.keypad_mode (E.matrix_to_logical_map r c)))
    (hr : reading r c = 0) : update_cell E reading r s c = s := by
  unfold update_cell
  simp only
  split_ifs with h
  · rfl
  · exact scan_slots_unchanged E _ (reading r c) s hNO hKne
      (fun i hi hkey => hun ⟨i, hi, hkey⟩) (Or.inl hr)

theorem TableIs_untracked (E : Env) (l : List Nat) (s0 s : State) (K : Nat)
    (ht : TableIs E l s0 s) (hKne : K ≠ E.NO_KEY) (hK : K ∉ l) : ¬ is_tracked s K := by
  rintro ⟨j, hj, hkey⟩
  by_cases hjl : j < l.length
  · rw [(ht.2.2 j hj).1 hjl] at hkey
    simp only at hkey
    rw [List.getD_eq_getElem l 0 hjl] at hkey
    exact hK (hkey ▸ List.getElem_mem hjl)
  · rw [(ht.2.2 j hj).2 (by omega)] at hkey
    exact hKne hkey.symm

theorem TableIs_not_free (E : Env) (l : List Nat) (s0 s : State)
    (ht : TableIs E l s0 s) (hl : ∀ x ∈ l, x ≠ E.NO_KEY) (j : Nat) (hj : j < KEYSTATE_COUNT)
    (hjl : j < l.length) : (s.key_states j).l_key ≠ E.NO_KEY := by
  rw [(ht.2.2 j hj).1 hjl]
  simp only
  rw [List.getD_eq_getElem l 0 hjl]
  exact hl _ (List.getElem_mem hjl)

theorem TableIs_press (E : Env) (l : List Nat) (s0 s : State) (K : Nat)
    (reading : Nat → Nat → Nat) (r c : Nat)
    (hNO : KEYSTATE_COUNT ≤ E.NO_KEY)
    (hpop : E.matrix_to_logical_map r c ≠ E.NO_KEY)
    (hK : effective_key E s.keypad_mode (E.matrix_to_logical_map r c) = K)
    (hr : reading r c ≠ 0)
    (ht : TableIs E l s0 s) (hl : ∀ x ∈ l, x ≠ E.NO_KEY) (hKne : K ≠ E.NO_KEY) (hKl : K ∉ l) :
    TableIs E (l ++ [K]) s0 (update_cell E reading r s c) := by
  have hun : ¬ is_tracked s (effective_key E s.keypad_mode (E.matrix_to_logical_map r c)) := by
    rw [hK]; exact TableIs_untracked E l s0 s K ht hKne hKl
  by_cases hlen : l.length < KEYSTATE_COUNT
  · have hnew := update_cell_new E reading r c s hNO hpop hun hr l.length hlen
      ((ht.2.2 _ hlen).2 (le_refl _))
      (fun i hi => TableIs_not_free E l s0 s ht hl i (by omega) hi)
    rw [hnew, hK]
    refine ⟨ht.1, ht.2.1, ?_⟩
    intro j hj
    simp only [List.length_append, List.length_singleton]
    by_cases hjl : j = l.length
    · subst hjl
      constructor
      · intro _
        simp only [Function.update_same]
        rw [List.getD_append_right l [K] 0 _ (le_refl _)]
        simp
      · intro h; omega
    · simp only [Function.update_noteq hjl]
      constructor
      · intro h
        have hlt : j < l.length := by omega
        rw [(ht.2.2 j hj).1 hlt, List.getD_append l [K] 0 j hlt]
      · intro h
        exact (ht.2.2 j hj).2 (by omega)
  · have hfull : ¬ has_free_slot E s := by
      rintro ⟨j, hj, hfree⟩
      exact TableIs_not_free E l s0 s ht hl j hj (by omega) hfree
    rw [update_cell_full E reading r c s hun hfull]
    refine ⟨ht.1, ht.2.1, ?_⟩
    intro j hj
    have hlt : j < l.length := by omega
    simp only [List.length_append, List.length_singleton]
    constructor
    · intro _
      rw [(ht.2.2 j hj).1 hlt, List.getD_append l [K] 0 j hlt]
    · intro h; omega

theorem TableIs_cells (E : Env) (reading : Nat → Nat → Nat) (s0 : State)
    (hNO : KEYSTATE_COUNT ≤ E.NO_KEY) :
    ∀ (cs : List (Nat × Nat)) (l : List Nat) (s : State),
      TableIs E l s0 s → (∀ x ∈ l, x ≠ E.NO_KEY) →
      (codes_of E s0.keypad_mode cs).Nodup →
      (∀ x ∈ codes_of E s0.keypad_mode cs, x ≠ E.NO_KEY ∧ x ∉ l) →
      TableIs E (l ++ pressed_of E reading s0.keypad_mode cs) s0
        (cs.foldl (fun s rc => update_cell E reading rc.1 s rc.2) s) := by
  intro cs
  induction cs with
  | nil =>
    intro l s ht _ _ _
    simpa [pressed_of] using ht
  | cons rc cs ih =>
    intro l s ht hl hnd hcodes
    simp only [List.foldl_cons]
    by_cases hpop : E.matrix_to_logical_map rc.1 rc.2 = E.NO_KEY
    · have hc : codes_of E s0.keypad_mode (rc :: cs) = codes_of E s0.keypad_mode cs := by
        simp [codes_of, hpop]
      have hp : pressed_of E reading s0.keypad_mode (rc :: cs)
          = pressed_of E reading s0.keypad_mode cs := by
        simp [pressed_of, hpop]
      have hs : update_cell E reading rc.1 s rc.2 = s := by
        simp [update_cell, hpop]
      rw [hc] at hnd hcodes
      rw [hp, hs]
      exact ih l s ht hl hnd hcodes
    · have hc : codes_of E s0.keypad_mode (rc :: cs)
          = effective_key E s0.keypad_mode (E.matrix_to_logical_map rc.1 rc.2)
              :: codes_of E s0.keypad_mode cs := by
        simp [codes_of, hpop]
      rw [hc] at hnd hcodes
      obtain ⟨hKcs, hnd'⟩ := List.nodup_cons.mp hnd
      obtain ⟨hKne, hKl⟩ := hcodes _ (List.mem_cons_self _ _)
      have hcodes' : ∀ x ∈ codes_of E s0.keypad_mode cs, x ≠ E.NO_KEY ∧ x ∉ l :=
        fun x hx => hcodes x (List.mem_cons_of_mem _ hx)
      have hKs : effective_key E s.keypad_mode (E.matrix_to_logical_map rc.1 rc.2)
          = effective_key E s0.keypad_mode (E.matrix_to_logical_map rc.1 rc.2) := by
        rw [ht.1]
      by_cases hr : reading rc.1 rc.2 = 0
      · have hp : pressed_of E reading s0.keypad_mode (rc :: cs)
            = pressed_of E reading s0.keypad_mode cs := by
          simp [pressed_of, hr]
        have hun := TableIs_untracked E l s0 s _ ht hKne hKl
        have hs : update_cell E reading rc.1 s rc.2 = s :=
          update_cell_idle E reading rc.1 rc.2 s hNO (by rw [hKs]; exact hKne)
            (by rw [hKs]; exact hun) hr
        rw [hp, hs]
        exact ih l s ht hl hnd' hcodes'
      · have hp : pressed_of E reading s0.keypad_mode (rc :: cs)
            = effective_key E s0.keypad_mode (E.matrix_to_logical_map rc.1 rc.2)
                :: pressed_of E reading s0.keypad_mode cs := by
          simp [pressed_of, hpop, hr]
        have ht' := TableIs_press E l s0 s _ reading rc.1 rc.2 hNO hpop hKs hr ht hl hKne hKl
        rw [hp]
        have happ : l ++ effective_key E s0.keypad_mode (E.matrix_to_logical_map rc.1 rc.2)
              :: pressed_of E reading s0.keypad_mode cs
            = (l ++ [effective_key E s0.keypad_mode (E.matrix_to_logical_map rc.1 rc.2)])
              ++ pressed_of E reading s0.keypad_mode cs := by
          simp
        rw [happ]
        apply ih _ _ ht'
        · intro x hx
          rcases List.mem_append.mp hx with hx | hx
          · exact hl x hx
          · simp only [List.mem_singleton] at hx
            rw [hx]; exact hKne
        · exact hnd'
        · intro x hx
          refine ⟨(hcodes' x hx).1, ?_⟩
          intro hmem
          rcases List.mem_append.mp hmem with h1 | h1
          · exact (hcodes' x hx).2 h1
          · simp only [List.mem_singleton] at h1
            rw [h1] at hx
            exact hKcs hx

theorem pressed_of_nodup (E : Env) (reading : Nat → Nat → Nat) (mode : Nat)
    (cs : List (Nat × Nat)) (h : (codes_of E mode cs).Nodup) :
    (pressed_of E reading mode cs).Nodup := by
  unfold pressed_of
  unfold codes_of at h
  apply List.Nodup.sublist _ h
  apply List.Sublist.map
  have hff : cs.filter (fun rc =>
      decide (E.matrix_to_logical_map rc.1 rc.2 ≠ E.NO_KEY ∧ reading rc.1 rc.2 ≠ 0))
      = (cs.filter (fun rc => decide (E.matrix_to_logical_map rc.1 rc.2 ≠ E.NO_KEY))).filter
          (fun rc => decide (reading rc.1 rc.2 ≠ 0)) := by
    rw [List.filter_filter]
    congr 1
    funext rc
    by_cases h1 : E.matrix_to_logical_map rc.1 rc.2 = E.NO_KEY <;>
      by_cases h2 : reading rc.1 rc.2 = 0 <;> simp [h1, h2]
  rw [hff]
  exact List.filter_sublist _

/-- C4. Capacity.  The table has 14 slots, and for a sentinel `NO_KEY` that is
not a slot index:
(a) when the cell of a code that is not in the table is processed and no slot
is free, nothing changes (all entries, `key_press_count` and the mode), whatever
the reading, so an untracked key can only become tracked when a slot is free;
(b) when it is processed with an asserted reading and a slot is free, the entry
`{l_key = K, state = 0, debounce = 1}` is written into the lowest free slot and
nothing else changes;
(c) a scan of a table whose slots are all free, over a matrix whose populated
cells have distinct effective codes, leaves in slot `j` the fresh entry of the
`j`-th asserted key in scan order, leaves the later slots free and
`key_press_count` unchanged, and when more than 14 keys read asserted none of
the keys after the 14th is tracked. -/
theorem capacity (E : Env) (hNO : KEYSTATE_COUNT ≤ E.NO_KEY) :
    (∀ (reading : Nat → Nat → Nat) (r c : Nat) (s : State),
      ¬ is_tracked s (effective_key E s.keypad_mode (E.matrix_to_logical_map r c)) →
      ¬ has_free_slot E s →
      update_cell E reading r s c = s) ∧
    (∀ (reading : Nat → Nat → Nat) (r c : Nat) (s : State),
      E.matrix_to_logical_map r c ≠ E.NO_KEY →
      ¬ is_tracked s (effective_key E s.keypad_mode (E.matrix_to_logical_map r c)) →
      reading r c ≠ 0 →
      has_free_slot E s →
      ∃ k, k < KEYSTATE_COUNT ∧ (s.key_states k).l_key = E.NO_KEY ∧
        (∀ i < k, (s.key_states i).l_key ≠ E.NO_KEY) ∧
        update_cell E reading r s c
          = { s with
              key_states := Function.update s.key_states k
                ⟨effective_key E s.keypad_mode (E.matrix_to_logical_map r c), false, 1⟩ }) ∧
    (∀ (reading : Nat → Nat → Nat) (s0 : State),
      (∀ j < KEYSTATE_COUNT, (s0.key_states j).l_key = E.NO_KEY) →
      (codes_of E s0.keypad_mode (cells E)).Nodup →
      E.NO_KEY ∉ codes_of E s0.keypad_mode (cells E) →
      (∀ j < KEYSTATE_COUNT, j < (pressed_of E reading s0.keypad_mode (cells E)).length →
        (keystate_update E reading s0).key_states j
          = ⟨(pressed_of E reading s0.keypad_mode (cells E)).getD j 0, false, 1⟩) ∧
      (∀ j < KEYSTATE_COUNT, (pressed_of E reading s0.keypad_mode (cells E)).length ≤ j →
        ((keystate_update E reading s0).key_states j).l_key = E.NO_KEY) ∧
      (keystate_update E reading s0).key_press_count = s0.key_press_count ∧
      (KEYSTATE_COUNT < (pressed_of E reading s0.keypad_mode (cells E)).length →
        ∀ i, KEYSTATE_COUNT ≤ i →
          i < (pressed_of E reading s0.keypad_mode (cells E)).length →
          ¬ is_tracked (keystate_update E reading s0)
            ((pressed_of E reading s0.keypad_mode (cells E)).getD i 0))) := by
  refine ⟨?_, ?_, ?_⟩
  · intro reading r c s hun hfull
    exact update_cell_full E reading r c s hun hfull
  · intro reading r c s hpop hun hr hfree
    obtain ⟨k, hk, hkfree, hfirst⟩ :=
      exists_first (fun j => (s.key_states j).l_key = E.NO_KEY) KEYSTATE_COUNT hfree
    exact ⟨k, hk, hkfree, hfirst,
      update_cell_new E reading r c s hNO hpop hun hr k hk hkfree hfirst⟩
  · intro reading s0 hempty hnd hno
    have hstart : TableIs E [] s0 s0 :=
      ⟨rfl, rfl, fun j hj => ⟨fun h => by simp at h, fun _ => hempty j hj⟩⟩
    have ht := TableIs_cells E reading s0 hNO (cells E) [] s0 hstart (by simp) hnd
      (fun x hx => ⟨fun h => hno (h ▸ hx), by simp⟩)
    rw [← keystate_update_cells, List.nil_append] at ht
    refine ⟨fun j hj => (ht.2.2 j hj).1, fun j hj => (ht.2.2 j hj).2, ht.2.1, ?_⟩
    intro hlen i hi hil
    rintro ⟨j, hj, hkey⟩
    have hjl : j < (pressed_of E reading s0.keypad_mode (cells E)).length := by omega
    rw [(ht.2.2 j hj).1 hjl] at hkey
    simp only at hkey
    rw [List.getD_eq_getElem _ 0 hjl, List.getD_eq_getElem _ 0 hil] at hkey
    have hpn := pressed_of_nodup E reading s0.keypad_mode (cells E) hnd
    have := (List.Nodup.getElem_inj_iff hpn).mp hkey
    omega

theorem capacity_witness :
    (keystate_update wideEnv (fun _ _ => 1) (startup wideEnv)).key_states 13 = ⟨13, false, 1⟩ ∧
      ¬ is_tracked (keystate_update wideEnv (fun _ _ => 1) (startup wideEnv)) 14 :=
  have h := (capacity wideEnv (by decide)).2.2 (fun _ _ => 1) (startup wideEnv)
    (by decide) (by decide) (by decide)
  ⟨h.1 13 (by decide) (by decide), h.2.2.2 (by decide) 14 (by decide) (by decide)⟩

/-! ## The keyboard report -/

theorem fill_slots_rollover_kept (E : Env) (s : State) :
    ∀ n i used report, (fill_slots E s n i used true report).1 = true := by
  intro n
  induction n with
  | zero => intro i used report; rfl
  | succ n ih =>
    intro i used report
    simp only [fill_slots]
    split_ifs <;> first | rfl | exact ih _ _ _

theorem fill_slots_program (E : Env) (s : State) :
    ∀ n i used rollover report, i + n = KEYSTATE_COUNT →
      (∃ j, i ≤ j ∧ j < KEYSTATE_COUNT ∧ (s.key_states j).state = true ∧
        (s.key_states j).l_key = E.LOGICAL_KEY_PROGRAM) →
      (fill_slots E s n i used rollover report).1 = true := by
  intro n
  induction n with
  | zero =>
    rintro i used rollover report hi ⟨j, h1, h2, _⟩
    omega
  | succ n ih =>
    rintro i used rollover report hi ⟨j, h1, h2, h3, h4⟩
    simp only [fill_slots]
    by_cases hji : j = i
    · subst hji
      rw [if_pos h3]
      split_ifs
      · rfl
      all_goals exact fill_slots_rollover_kept E s _ _ _ _
    · have hex : ∃ j, i + 1 ≤ j ∧ j < KEYSTATE_COUNT ∧ (s.key_states j).state = true ∧
          (s.key_states j).l_key = E.LOGICAL_KEY_PROGRAM := ⟨j, by omega, h2, h3, h4⟩
      split_ifs
      · rfl
      all_goals exact ih _ _ _ _ (by omega) hex

theorem countP_range_succ_shift (p : Nat → Bool) (n : Nat) :
    (List.range (n + 1)).countP p
      = (if p 0 then 1 else 0) + (List.range n).countP (fun k => p (k + 1)) := by
  rw [List.range_succ_eq_map, List.countP_cons, List.countP_map]
  rw [Nat.add_comm]
  rfl

theorem fill_slots_seventh (E : Env) (s : State)
    (hconst : E.HID_KEYBOARD_SC_LEFT_CONTROL ≤ E.SPECIAL_HID_KEYS_START) :
    ∀ n i used rollover report, used ≤ 6 →
      7 ≤ used + (List.range n).countP (fun k => is_ordinary E s (i + k)) →
      (fill_slots E s n i used rollover report).1 = true := by
  intro n
  induction n with
  | zero =>
    intro i used rollover report hu h7
    simp only [List.range_zero, List.countP_nil] at h7
    omega
  | succ n ih =>
    intro i used rollover report hu h7
    rw [countP_range_succ_shift] at h7
    have hshift : (List.range n).countP (fun k => is_ordinary E s (i + (k + 1)))
        = (List.range n).countP (fun k => is_ordinary E s (i + 1 + k)) := by
      congr 1
      funext k
      congr 1
      omega
    rw [hshift] at h7
    simp only [Nat.add_zero] at h7
    have hskip : is_ordinary E s i = false →
        7 ≤ used + (List.range n).countP (fun k => is_ordinary E s (i + 1 + k)) := by
      intro hno
      simpa [hno] using h7
    simp only [fill_slots]
    by_cases hst : (s.key_states i).state = true
    · rw [if_pos hst]
      by_cases h6 : used = 6
      · rw [if_pos h6]
      · rw [if_neg h6]
        by_cases hsp : E.config_get_definition (s.key_states i).l_key ≥ E.SPECIAL_HID_KEYS_START
        · rw [if_pos hsp]
          have hno : is_ordinary E s i = false := by
            simp only [is_ordinary, hst, Bool.true_and, decide_eq_false_iff_not]
            omega
          exact ih _ _ _ _ hu (hskip hno)
        · rw [if_neg hsp]
          by_cases hmod : E.config_get_definition (s.key_states i).l_key
              ≥ E.HID_KEYBOARD_SC_LEFT_CONTROL
          · rw [if_pos hmod]
            have hno : is_ordinary E s i = false := by
              simp only [is_ordinary, hst, Bool.true_and, decide_eq_false_iff_not]
              omega
            exact ih _ _ _ _ hu (hskip hno)
          · rw [if_neg hmod]
            have hyes : is_ordinary E s i = true := by
              simp only [is_ordinary, hst, Bool.true_and, decide_eq_true_eq]
              omega
            have h7' : 7 ≤ used + 1
                + (List.range n).countP (fun k => is_ordinary E s (i + 1 + k)) := by
              simp only [hyes, if_true] at h7
              omega
            exact ih _ _ _ _ (by omega) h7'
    · rw [if_neg hst]
      have hno : is_ordinary E s i = false := by
        simp only [is_ordinary]
        simp only [Bool.not_eq_true] at hst
        rw [hst]
        rfl
      exact ih _ _ _ _ hu (hskip hno)

theorem rollover_fill (c : Nat) (report : KeyboardReport_Data_t) (i : Nat) (hi : i < 6) :
    ((List.range 6).foldl
      (fun report i => { report with KeyCode := Function.update report.KeyCode i c })
      report).KeyCode i = c := by
  have h6 : List.range 6 = [0, 1, 2, 3, 4, 5] := by decide
  rw [h6]
  simp only [List.foldl_cons, List.foldl_nil]
  interval_cases i <;> simp [Function.update]

/-- C5. Forced rollover.  With the modifier range below the special range
(`HID_KEYBOARD_SC_LEFT_CONTROL <= SPECIAL_HID_KEYS_START`), for every table,
config mapping and input report: if at least seven settled entries have an
ordinary output code, or some settled entry has the logical code
`LOGICAL_KEY_PROGRAM`, then after `keystate_Fill_KeyboardReport` all six
`KeyCode` slots are `HID_KEYBOARD_SC_ERROR_ROLLOVER`. -/
theorem forced_rollover (E : Env) (s : State) (report : KeyboardReport_Data_t)
    (hconst : E.HID_KEYBOARD_SC_LEFT_CONTROL ≤ E.SPECIAL_HID_KEYS_START)
    (h : 7 ≤ ordinary_count E s ∨ is_settled s E.LOGICAL_KEY_PROGRAM) :
    ∀ i < 6, (keystate_Fill_KeyboardReport E s report).KeyCode i
      = E.HID_KEYBOARD_SC_ERROR_ROLLOVER := by
  have hroll : (fill_slots E s KEYSTATE_COUNT 0 0 false report).1 = true := by
    rcases h with h7 | ⟨j, hj, hkey, hst⟩
    · apply fill_slots_seventh E s hconst _ _ _ _ _ (by omega)
      unfold ordinary_count at h7
      simpa using h7
    · exact fill_slots_program E s _ _ _ _ _ (by simp) ⟨j, Nat.zero_le j, hj, hst, hkey⟩
  intro i hi
  unfold keystate_Fill_KeyboardReport
  simp only [hroll, if_true]
  exact rollover_fill _ _ i hi

theorem forced_rollover_witness :
    (keystate_Fill_KeyboardReport demoEnv programState emptyReport).KeyCode 0 = 1 ∧
      (keystate_Fill_KeyboardReport demoEnv programState emptyReport).KeyCode 5 = 1 :=
  ⟨forced_rollover demoEnv programState emptyReport (by decide) (Or.inr (by decide)) 0
      (by decide),
    forced_rollover demoEnv programState emptyReport (by decide) (Or.inr (by decide)) 5
      (by decide)⟩

/-- C6 at a failing input.  With six ordinary keys settled in slots 0-5 and
left shift settled in slot 6 (program key not settled, `k = 6`), the claim asks
for the six key codes 4-9 in `KeyCode[0..6)` and no rollover sentinel; the loop
meets the settled shift entry with `UsedKeyCodes == 6`, sets `rollover` and
leaves, so all six slots hold `HID_KEYBOARD_SC_ERROR_ROLLOVER` (1). -/
theorem six_keys_and_modifier_roll_over :
    ordinary_count reportEnv sixKeysAndShift = 6 ∧
      ¬ is_settled sixKeysAndShift reportEnv.LOGICAL_KEY_PROGRAM ∧
      reportEnv.config_get_definition (sixKeysAndShift.key_states 0).l_key = 4 ∧
      ∀ i < 6, (keystate_Fill_KeyboardReport reportEnv sixKeysAndShift emptyReport).KeyCode i
        = 1 := by
  decide

/-- C7 at a failing input.  With seven ordinary keys settled in slots 0-6 and
left control (output code 224, modifier bit 0) settled in slot 7, the loop
leaves at slot 6 and never reaches the modifier: `Modifier` stays 0. -/
theorem modifier_after_sixth_key_dropped :
    (sevenKeysAndControl.key_states 7).state = true ∧
      reportEnv.config_get_definition (sevenKeysAndControl.key_states 7).l_key = 224 ∧
      (keystate_Fill_KeyboardReport reportEnv sevenKeysAndControl emptyReport).Modifier = 0 := by
  decide

/-! ## Unique codes -/

theorem scan_slots_outcome (E : Env) (l_key reading : Nat) (s : State) :
    ∀ n j free_slot, j + n = KEYSTATE_COUNT →
      (free_slot = E.NO_KEY ∨
        (free_slot < KEYSTATE_COUNT ∧ (s.key_states free_slot).l_key = E.NO_KEY)) →
      (l_key ≠ E.NO_KEY → ∀ i < j, (s.key_states i).l_key ≠ l_key) →
      scan_slots E l_key reading s n j free_slot = s ∨
      (∃ k, k < KEYSTATE_COUNT ∧ (s.key_states k).l_key = E.NO_KEY ∧
        (l_key ≠ E.NO_KEY → ∀ i < KEYSTATE_COUNT, (s.key_states i).l_key ≠ l_key) ∧
        scan_slots E l_key reading s n j free_slot
          = { s with key_states := Function.update s.key_states k ⟨l_key, false, 1⟩ }) ∨
      (∃ k, k < KEYSTATE_COUNT ∧ (s.key_states k).l_key = l_key ∧
        scan_slots E l_key reading s n j free_slot = found_key E reading s k) := by
  intro n
  induction n with
  | zero =>
    intro j free_slot hj hfree hnot
    simp only [scan_slots]
    have hj14 : j = KEYSTATE_COUNT := by omega
    subst hj14
    split_ifs with h
    · rcases hfree with hfs | ⟨hlt, hno⟩
      · exact absurd hfs h.2
      · exact Or.inr (Or.inl ⟨free_slot, hlt, hno, hnot, rfl⟩)
    · exact Or.inl rfl
  | succ n ih =>
    intro j free_slot hjn hfree hnot
    simp only [scan_slots]
    split_ifs with h1 h2
    · apply ih (j + 1) j (by omega) (Or.inr ⟨by omega, h1.2⟩)
      intro hl i hi
      by_cases hij : i = j
      · subst hij; rw [h1.2]; exact fun h => hl h.symm
      · exact hnot hl i (by omega)
    · exact Or.inr (Or.inr ⟨j, by omega, h2, rfl⟩)
    · apply ih (j + 1) free_slot (by omega) hfree
      intro hl i hi
      by_cases hij : i = j
      · subst hij; exact h2
      · exact hnot hl i (by omega)

theorem UniqueKeys_update (E : Env) (s : State) (k : Nat) (v : key_state) (c : Nat)
    (hk : k < KEYSTATE_COUNT) (hu : UniqueKeys E s)
    (hv : v.l_key = E.NO_KEY ∨ v.l_key = (s.key_states k).l_key ∨
      ∀ i < KEYSTATE_COUNT, (s.key_states i).l_key ≠ v.l_key) :
    UniqueKeys E
      { s with key_states := Function.update s.key_states k v, key_press_count := c } := by
  intro i hi j hj heq hne
  simp only at heq hne
  by_cases hik : i = k <;> by_cases hjk : j = k
  · rw [hik, hjk]
  · subst hik
    simp only [Function.update_same, Function.update_noteq hjk] at heq hne
    rcases hv with h | h | h
    · exact absurd h hne
    · rw [h] at heq hne
      exact hu i hi j hj heq hne
    · exact absurd heq.symm (h j hj)
  · subst hjk
    simp only [Function.update_same, Function.update_noteq hik] at heq hne
    rcases hv with h | h | h
    · rw [heq] at hne
      exact absurd h hne
    · rw [h] at heq
      exact hu i hi j hj heq hne
    · exact absurd heq (h i hi)
  · simp only [Function.update_noteq hik, Function.update_noteq hjk] at heq hne
    exact hu i hi j hj heq hne

theorem UniqueKeys_found_key (E : Env) (reading : Nat) (s : State) (k : Nat)
    (hk : k < KEYSTATE_COUNT) (hu : UniqueKeys E s) :
    UniqueKeys E (found_key E reading s k) := by
  unfold found_key
  simp only
  split_ifs
  · exact UniqueKeys_update E s k ⟨E.NO_KEY, false, _⟩ _ hk hu (Or.inl rfl)
  · exact UniqueKeys_update E s k ⟨E.NO_KEY, false, _⟩ _ hk hu (Or.inl rfl)
  · exact UniqueKeys_update E s k ⟨(s.key_states k).l_key, true, _⟩ _ hk hu (Or.inr (Or.inl rfl))
  · exact UniqueKeys_update E s k ⟨(s.key_states k).l_key, (s.key_states k).state, _⟩ _ hk hu
      (Or.inr (Or.inl rfl))

theorem UniqueKeys_update_cell (E : Env) (reading : Nat → Nat → Nat) (r c : Nat) (s : State)
    (hu : UniqueKeys E s) : UniqueKeys E (update_cell E reading r s c) := by
  unfold update_cell
  simp only
  split_ifs with hpop
  · exact hu
  · rcases scan_slots_outcome E (effective_key E s.keypad_mode (E.matrix_to_logical_map r c))
        (reading r c) s KEYSTATE_COUNT 0 E.NO_KEY (by simp) (Or.inl rfl)
        (by intro _ i hi; omega)
      with h | ⟨k, hk, _, hfresh, h⟩ | ⟨k, hk, _, h⟩
    · rw [h]; exact hu
    · rw [h]
      apply UniqueKeys_update E s k ⟨_, false, 1⟩ s.key_press_count hk hu
      by_cases hl : effective_key E s.keypad_mode (E.matrix_to_logical_map r c) = E.NO_KEY
      · exact Or.inl hl
      · exact Or.inr (Or.inr (hfresh hl))
    · rw [h]
      exact UniqueKeys_found_key E (reading r c) s k hk hu

theorem UniqueKeys_keystate_update (E : Env) (reading : Nat → Nat → Nat) (s : State)
    (hu : UniqueKeys E s) : UniqueKeys E (keystate_update E reading s) := by
  unfold keystate_update
  apply foldl_preserves (UniqueKeys E) _ _ _ _ hu
  intro a r _ ha
  apply foldl_preserves (UniqueKeys E) _ _ _ _ ha
  intro b c _ hb
  exact UniqueKeys_update_cell E reading r c b hb

theorem UniqueKeys_toggle_slot (E : Env) (s : State) (i : Nat) (hi : i < KEYSTATE_COUNT)
    (hu : UniqueKeys E s) : UniqueKeys E (toggle_slot E s i) := by
  unfold toggle_slot
  simp only
  split_ifs
  · exact hu
  · exact hu
  · exact hu
  · exact UniqueKeys_update E s i ⟨E.NO_KEY, false, _⟩ _ hi hu (Or.inl rfl)
  · exact UniqueKeys_update E s i ⟨E.NO_KEY, false, _⟩ _ hi hu (Or.inl rfl)

theorem UniqueKeys_toggle (E : Env) (s : State) (hu : UniqueKeys E s) :
    UniqueKeys E (keystate_toggle_keypad E s) := by
  unfold keystate_toggle_keypad
  have h0 : UniqueKeys E { s with keypad_mode := if s.keypad_mode = 0 then 1 else 0 } := hu
  apply foldl_preserves (UniqueKeys E) _ _ _ _ h0
  intro a i hi ha
  exact UniqueKeys_toggle_slot E a i (List.mem_range.mp hi) ha

theorem UniqueKeys_startup (E : Env) : UniqueKeys E (startup E) := by
  intro i hi j _ _ hne
  unfold startup at hne
  rw [keystate_init_slot E _ i hi] at hne
  exact absurd rfl hne

theorem UniqueKeys_run (E : Env) (events : List Event) (s : State) (hu : UniqueKeys E s) :
    UniqueKeys E (run E s events) := by
  unfold run
  apply foldl_preserves (UniqueKeys E) _ _ _ _ hu
  intro a e _ ha
  cases e with
  | scan reading => exact UniqueKeys_keystate_update E reading a ha
  | toggle => exact UniqueKeys_toggle E a ha

theorem TableInv_run (E : Env) (hmap : effective_codes_valid E) (events : List Event) :
    TableInv E (run E (startup E) events) :=
  ⟨UniqueKeys_run E events _ (UniqueKeys_startup E),
    (CountInv_run E hmap events _ (CountInv_startup E)).1⟩

theorem check_key_iff_settled (E : Env) (s : State) (hinv : TableInv E s) (c : Nat) :
    keystate_check_key s c = true ↔ is_settled s c := by
  rw [keystate_check_key_spec]
  constructor
  · rintro ⟨j, hj, hkey, hst, _⟩
    exact ⟨j, hj, hkey, hst⟩
  · rintro ⟨j, hj, hkey, hst⟩
    refine ⟨j, hj, hkey, hst, ?_⟩
    intro k hk hkk
    have hne : (s.key_states k).l_key ≠ E.NO_KEY := by
      intro hno
      rw [hkk] at hno
      have := hinv.2 j hj (by rw [hkey]; exact hno)
      rw [this] at hst
      cases hst
    have := hinv.1 k (by omega) j hj (by rw [hkk, hkey]) hne
    omega

/-- C8. Point query.  In every table that satisfies the invariants of the data
model (tracked codes unique, free slots not settled), and for every logical
code `c`, `NO_KEY` included, `keystate_check_key c` is true if and only if some
entry has `l_key = c` and `state = 1`; and every state reached from start-up by
scans and keypad toggles, for a matrix map whose effective codes never equal
`NO_KEY`, satisfies these invariants. -/
theorem point_query (E : Env) :
    (∀ s : State, TableInv E s → ∀ c, (keystate_check_key s c = true ↔ is_settled s c)) ∧
    (effective_codes_valid E → ∀ events : List Event,
      TableInv E (run E (startup E) events) ∧
      ∀ c, (keystate_check_key (run E (startup E) events) c = true ↔
        is_settled (run E (startup E) events) c)) :=
  ⟨fun s hinv c => check_key_iff_settled E s hinv c,
    fun hmap events => ⟨TableInv_run E hmap events,
      fun c => check_key_iff_settled E _ (TableInv_run E hmap events) c⟩⟩

theorem point_query_witness :
    (keystate_check_key programState 40 = true ↔ is_settled programState 40) ∧
    (keystate_check_key (run demoEnv (startup demoEnv)
        [Event.scan (fun _ _ => 1), Event.scan (fun _ _ => 1), Event.scan (fun _ _ => 1)]) 2 = true ↔
      is_settled (run demoEnv (startup demoEnv)
        [Event.scan (fun _ _ => 1), Event.scan (fun _ _ => 1), Event.scan (fun _ _ => 1)]) 2) :=
  ⟨(point_query demoEnv).1 programState (by decide) 40,
    ((point_query demoEnv).2 (by decide)
      [Event.scan (fun _ _ => 1), Event.scan (fun _ _ => 1), Event.scan (fun _ _ => 1)]).2 2⟩

/-! ## The bulk query -/

theorem check_keys_loop_all (s : State) :
    ∀ (args : List Nat), (∀ a ∈ args, a < 256) →
      check_keys_loop s args.length args = some (args.all (fun a => keystate_check_key s a)) := by
  intro args
  induction args with
  | nil => intro _; rfl
  | cons a args ih =>
    intro hlt
    have ha : a % 256 = a := Nat.mod_eq_of_lt (hlt a (List.mem_cons_self _ _))
    simp only [List.length_cons, check_keys_loop, ha, List.all_cons]
    cases hk : keystate_check_key s a with
    | true =>
      simp only [if_true, Bool.true_and]
      exact ih (fun x hx => hlt x (List.mem_cons_of_mem _ hx))
    | false => simp

/-- C9. Bulk query.  For every table, every count `n` and every list of `n`
logical codes (values of a `uint8_t`): `keystate_check_keys` returns false when
`n > key_press_count`, whatever the codes, and otherwise returns true exactly
when `keystate_check_key` is true for every listed code. -/
theorem bulk_query (s : State) (n : Nat) (args : List Nat)
    (hlen : args.length = n) (hlt : ∀ a ∈ args, a < 256) :
    (n > s.key_press_count → keystate_check_keys s n args = some false) ∧
    (n ≤ s.key_press_count →
      ∃ b, keystate_check_keys s n args = some b ∧
        (b = true ↔ ∀ a ∈ args, keystate_check_key s a = true)) := by
  subst hlen
  constructor
  · intro h
    simp [keystate_check_keys, h]
  · intro h
    have hnot : ¬ args.length > s.key_press_count := by omega
    refine ⟨args.all (fun a => keystate_check_key s a), ?_, ?_⟩
    · simp only [keystate_check_keys, hnot, if_false]
      exact check_keys_loop_all s args hlt
    · exact List.all_eq_true

theorem bulk_query_witness :
    keystate_check_keys oneKeyDown 2 [0, 0] = some false ∧
      ∃ b, keystate_check_keys oneKeyDown 1 [0] = some b ∧
        (b = true ↔ ∀ a ∈ [0], keystate_check_key oneKeyDown a = true) :=
  ⟨(bulk_query oneKeyDown 2 [0, 0] (by decide) (by decide)).1 (by decide),
    (bulk_query oneKeyDown 1 [0] (by decide) (by decide)).2 (by decide)⟩

/-! ## All argument keys down -/

theorem settled_slots (s : State) :
    ∀ (l : List Nat), l.Nodup → (∀ a ∈ l, is_settled s a) →
      ∃ js : List Nat, js.length = l.length ∧ js.Nodup ∧
        ∀ j ∈ js, j < KEYSTATE_COUNT ∧ (s.key_states j).state = true ∧
          (s.key_states j).l_key ∈ l := by
  intro l
  induction l with
  | nil => intro _ _; exact ⟨[], rfl, List.nodup_nil, by simp⟩
  | cons a l ih =>
    intro hnd hdown
    obtain ⟨hal, hnd'⟩ := List.nodup_cons.mp hnd
    obtain ⟨js, hlen, hjs, hmem⟩ := ih hnd' (fun x hx => hdown x (List.mem_cons_of_mem _ hx))
    obtain ⟨j0, hj0, hkey, hst⟩ := hdown a (List.mem_cons_self _ _)
    refine ⟨j0 :: js, by simp [hlen], ?_, ?_⟩
    · apply List.nodup_cons.mpr
      refine ⟨?_, hjs⟩
      intro hin
      have := (hmem j0 hin).2.2
      rw [hkey] at this
      exact hal this
    · intro j hj
      rcases List.mem_cons.mp hj with h | h
      · subst h
        exact ⟨hj0, hst, by rw [hkey]; exact List.mem_cons_self _ _⟩
      · obtain ⟨h1, h2, h3⟩ := hmem j h
        exact ⟨h1, h2, List.mem_cons_of_mem _ h3⟩

theorem distinct_down_le_settled (s : State) (l : List Nat) (hnd : l.Nodup)
    (hdown : ∀ a ∈ l, is_settled s a) : l.length ≤ settled_count s := by
  obtain ⟨js, hlen, hjs, hmem⟩ := settled_slots s l hnd hdown
  unfold settled_count
  rw [List.countP_eq_length_filter, ← hlen]
  apply List.Subperm.length_le
  apply List.Nodup.subperm hjs
  intro j hj
  obtain ⟨h1, h2, _⟩ := hmem j hj
  exact List.mem_filter.mpr ⟨List.mem_range.mpr h1, h2⟩

/-- C10, as stated, fails: in the reachable table `oneKeyDown` the key 0 is
down, so every argument of the call with the two arguments 0, 0 is down, and
`keystate_check_keys` returns false because the count 2 exceeds
`key_press_count = 1`. -/
theorem all_down_duplicates :
    (∀ a ∈ [0, 0], keystate_check_key oneKeyDown a = true) ∧
      oneKeyDown.key_press_count = 1 ∧
      keystate_check_keys oneKeyDown 2 [0, 0] = some false := by
  decide

/-- C10, amended.  In every state reached from start-up by scans and keypad
toggles (matrix map with effective codes other than `NO_KEY`), for every list of
pairwise distinct logical codes passed with its length as the count: if
`keystate_check_key` is true for each argument then `keystate_check_keys`
returns true. -/
theorem all_down_distinct (E : Env) (hmap : effective_codes_valid E) (events : List Event)
    (args : List Nat) (hnd : args.Nodup) (hlt : ∀ a ∈ args, a < 256)
    (hdown : ∀ a ∈ args, keystate_check_key (run E (startup E) events) a = true) :
    keystate_check_keys (run E (startup E) events) args.length args = some true := by
  have hset : ∀ a ∈ args, is_settled (run E (startup E) events) a := by
    intro a ha
    obtain ⟨j, hj, hkey, hst, _⟩ := (keystate_check_key_spec _ a).mp (hdown a ha)
    exact ⟨j, hj, hkey, hst⟩
  have hle := distinct_down_le_settled _ args hnd hset
  have hcount := (CountInv_run E hmap events (startup E) (CountInv_startup E)).2
  have hnot : ¬ args.length > (run E (startup E) events).key_press_count := by omega
  simp only [keystate_check_keys, hnot, if_false]
  rw [check_keys_loop_all _ args hlt]
  congr 1
  exact List.all_eq_true.mpr hdown

theorem all_down_distinct_witness :
    keystate_check_keys
      (run demoEnv (startup demoEnv)
        [Event.scan (fun _ _ => 1), Event.scan (fun _ _ => 1), Event.scan (fun _ _ => 1)])
      3 [0, 1, 2] = some true :=
  all_down_distinct demoEnv (by decide)
    [Event.scan (fun _ _ => 1), Event.scan (fun _ _ => 1), Event.scan (fun _ _ => 1)]
    [0, 1, 2] (by decide) (by decide) (by decide)

/-! ## Enumeration of the keys that are down -/

theorem get_keys_loop_spec (s : State) :
    ∀ n i ki (l_keys : Nat → Nat) (k : Nat),
      (get_keys_loop s n i ki l_keys).2 k
        = if ki ≤ k ∧ k < ki + (settled_keys_from s i n).length ∧ k < s.key_press_count then
            (settled_keys_from s i n).getD (k - ki) 0
          else l_keys k := by
  intro n
  induction n with
  | zero =>
    intro i ki l_keys k
    have h : ¬ (ki ≤ k ∧ k < ki + (settled_keys_from s i 0).length ∧ k < s.key_press_count) := by
      simp [settled_keys_from]
      omega
    rw [if_neg h]
    rfl
  | succ n ih =>
    intro i ki l_keys k
    simp only [get_keys_loop]
    by_cases hki : ki < s.key_press_count
    · rw [if_pos hki]
      by_cases hst : (s.key_states i).state = true
      · rw [if_pos hst, ih]
        have hL : settled_keys_from s i (n + 1)
            = (s.key_states i).l_key :: settled_keys_from s (i + 1) n := by
          simp [settled_keys_from, List.range'_succ, hst]
        rw [hL]
        simp only [List.length_cons]
        by_cases hk : k = ki
        · subst hk
          have h1 : ¬ (k + 1 ≤ k ∧ k < k + 1 + (settled_keys_from s (i + 1) n).length ∧
              k < s.key_press_count) := by omega
          have h2 : k ≤ k ∧ k < k + ((settled_keys_from s (i + 1) n).length + 1) ∧
              k < s.key_press_count := ⟨le_refl k, by omega, hki⟩
          rw [if_neg h1, if_pos h2]
          simp
        · by_cases hc : ki + 1 ≤ k ∧ k < ki + 1 + (settled_keys_from s (i + 1) n).length ∧
              k < s.key_press_count
          · have h2 : ki ≤ k ∧ k < ki + ((settled_keys_from s (i + 1) n).length + 1) ∧
                k < s.key_press_count := ⟨by omega, by omega, hc.2.2⟩
            rw [if_pos hc, if_pos h2]
            have e : k - ki = (k - (ki + 1)) + 1 := by omega
            rw [e, List.getD_cons_succ]
          · have h2 : ¬ (ki ≤ k ∧ k < ki + ((settled_keys_from s (i + 1) n).length + 1) ∧
                k < s.key_press_count) := by
              intro h
              apply hc
              exact ⟨by omega, by omega, h.2.2⟩
            rw [if_neg hc, if_neg h2, Function.update_noteq hk]
      · rw [if_neg hst, ih]
        have hL : settled_keys_from s i (n + 1) = settled_keys_from s (i + 1) n := by
          simp [settled_keys_from, List.range'_succ, hst]
        rw [hL]
    · rw [if_neg hki]
      have h2 : ¬ (ki ≤ k ∧ k < ki + (settled_keys_from s i (n + 1)).length ∧
          k < s.key_press_count) := by omega
      rw [if_neg h2]

theorem settled_keys_length (s : State) : (settled_keys s).length = settled_count s := by
  unfold settled_keys settled_count
  rw [List.length_map, List.countP_eq_length_filter]

/-- C11. Enumeration.  In every table whose `key_press_count` is the number of
settled entries, `keystate_get_keys` writes to `l_keys[0..key_press_count)` the
`l_key` of the entries with `state = 1`, each once and in increasing slot order,
and leaves the buffer untouched from index `key_press_count` on. -/
theorem enumeration (s : State) (l_keys : Nat → Nat)
    (hcount : s.key_press_count = settled_count s) :
    (settled_keys s).length = s.key_press_count ∧
    (∀ k < s.key_press_count, keystate_get_keys s l_keys k = (settled_keys s).getD k 0) ∧
    (∀ k, s.key_press_count ≤ k → keystate_get_keys s l_keys k = l_keys k) := by
  have hlen := settled_keys_length s
  have hfrom : settled_keys_from s 0 KEYSTATE_COUNT = settled_keys s := by
    unfold settled_keys_from settled_keys
    rw [List.range_eq_range']
  refine ⟨by omega, ?_, ?_⟩
  · intro k hk
    unfold keystate_get_keys
    rw [get_keys_loop_spec, hfrom]
    have h : 0 ≤ k ∧ k < 0 + (settled_keys s).length ∧ k < s.key_press_count :=
      ⟨Nat.zero_le k, by omega, hk⟩
    rw [if_pos h]
    simp
  · intro k hk
    unfold keystate_get_keys
    rw [get_keys_loop_spec]
    have h : ¬ (0 ≤ k ∧ k < 0 + (settled_keys_from s 0 KEYSTATE_COUNT).length ∧
        k < s.key_press_count) := by omega
    rw [if_neg h]

theorem enumeration_witness :
    keystate_get_keys
        (run demoEnv (startup demoEnv)
          [Event.scan (fun _ _ => 1), Event.scan (fun _ _ => 1), Event.scan (fun _ _ => 1)])
        (fun _ => 99) 2 = 2 ∧
      keystate_get_keys
        (run demoEnv (startup demoEnv)
          [Event.scan (fun _ _ => 1), Event.scan (fun _ _ => 1), Event.scan (fun _ _ => 1)])
        (fun _ => 99) 3 = 99 :=
  have h := enumeration
    (run demoEnv (startup demoEnv)
      [Event.scan (fun _ _ => 1), Event.scan (fun _ _ => 1), Event.scan (fun _ _ => 1)])
    (fun _ => 99) (by decide)
  ⟨h.2.1 2 (by decide), h.2.2 3 (by decide)⟩

/-! ## The keypad toggle -/

theorem toggle_slot_valid (E : Env) (s : State) (i : Nat)
    (h : valid_in_mode E s.keypad_mode (s.key_states i).l_key) : toggle_slot E s i = s := by
  unfold toggle_slot
  simp only
  rcases h with h | h | h
  · rw [if_pos h]
  · split_ifs <;> rfl
  · split_ifs <;> rfl

theorem toggle_slot_stale (E : Env) (s : State) (i : Nat)
    (h : ¬ valid_in_mode E s.keypad_mode (s.key_states i).l_key) :
    toggle_slot E s i
      = { s with
          key_states := Function.update s.key_states i
            ⟨E.NO_KEY, false, (s.key_states i).debounce⟩
          key_press_count :=
            if (s.key_states i).state then (s.key_press_count + 255) % 256
            else s.key_press_count } := by
  unfold valid_in_mode at h
  unfold toggle_slot
  simp only
  have h1 : ¬ (s.key_states i).l_key < E.KEYPAD_LAYER_START := fun h' => h (Or.inl h')
  have h2 : ¬ (s.keypad_mode ≠ 0 ∧
      (s.key_states i).l_key ≥ E.KEYPAD_LAYER_START + E.KEYPAD_LAYER_SIZE) :=
    fun h' => h (Or.inr (Or.inl h'))
  have h3 : ¬ (s.keypad_mode = 0 ∧
      (s.key_states i).l_key < E.KEYPAD_LAYER_START + E.KEYPAD_LAYER_SIZE) :=
    fun h' => h (Or.inr (Or.inr h'))
  rw [if_neg h1, if_neg h2, if_neg h3]

theorem freed_settled_succ (E : Env) (s : State) (n : Nat) :
    freed_settled E s (n + 1)
      = freed_settled E s n +
        (if ¬ valid_in_mode E (toggled_mode s) (s.key_states n).l_key ∧
            (s.key_states n).state = true then 1 else 0) := by
  unfold freed_settled
  rw [List.range_succ, List.countP_append]
  congr 1
  by_cases h1 : valid_in_mode E (toggled_mode s) (s.key_states n).l_key <;>
    cases h2 : (s.key_states n).state <;> simp [List.countP_cons, h1, h2]

theorem freed_settled_mono (E : Env) (s : State) (n m : Nat) (h : n ≤ m) :
    freed_settled E s n ≤ freed_settled E s m := by
  unfold freed_settled
  exact List.Sublist.countP_le _ (List.range_sublist.mpr h)

theorem freed_settled_le_settled (E : Env) (s : State) :
    freed_settled E s KEYSTATE_COUNT ≤ settled_count s := by
  unfold freed_settled settled_count
  apply List.countP_mono_left
  intro j _ h
  simp only [Bool.and_eq_true] at h
  exact h.2

/-- The toggle after its first `n` slots: the slots below `n` are freed when
their code is not valid in the new mode and unchanged otherwise, the slots from
`n` on are untouched, and the counter has lost the settled entries freed so
far (when it was large enough not to wrap). -/
theorem toggle_progress (E : Env) (s : State) :
    ∀ n ≤ KEYSTATE_COUNT,
      ((List.range n).foldl (toggle_slot E) { s with keypad_mode := toggled_mode s }).keypad_mode
          = toggled_mode s ∧
      (∀ j < n,
        (valid_in_mode E (toggled_mode s) (s.key_states j).l_key →
          ((List.range n).foldl (toggle_slot E)
            { s with keypad_mode := toggled_mode s }).key_states j = s.key_states j) ∧
        (¬ valid_in_mode E (toggled_mode s) (s.key_states j).l_key →
          ((List.range n).foldl (toggle_slot E)
            { s with keypad_mode := toggled_mode s }).key_states j
              = ⟨E.NO_KEY, false, (s.key_states j).debounce⟩)) ∧
      (∀ j, n ≤ j →
        ((List.range n).foldl (toggle_slot E)
          { s with keypad_mode := toggled_mode s }).key_states j = s.key_states j) ∧
      (freed_settled E s KEYSTATE_COUNT ≤ s.key_press_count → s.key_press_count < 256 →
        ((List.range n).foldl (toggle_slot E)
          { s with keypad_mode := toggled_mode s }).key_press_count + freed_settled E s n
            = s.key_press_count) := by
  intro n
  induction n with
  | zero =>
    intro _
    refine ⟨rfl, fun j hj => by omega, fun j _ => rfl, ?_⟩
    intro _ _
    simp [freed_settled]
  | succ n ih =>
    intro hn
    obtain ⟨hmode, hlow, hhigh, hcount⟩ := ih (by omega)
    rw [List.range_succ, List.foldl_append, List.foldl_cons, List.foldl_nil]
    generalize hT : (List.range n).foldl (toggle_slot E)
      { s with keypad_mode := toggled_mode s } = t at hmode hlow hhigh hcount
    have htn : t.key_states n = s.key_states n := hhigh n (le_refl n)
    by_cases hv : valid_in_mode E (toggled_mode s) (s.key_states n).l_key
    · have hstep : toggle_slot E t n = t :=
        toggle_slot_valid E t n (by rw [hmode, htn]; exact hv)
      rw [hstep]
      refine ⟨hmode, ?_, fun j hj => hhigh j (by omega), ?_⟩
      · intro j hj
        by_cases hjn : j = n
        · subst hjn
          exact ⟨fun _ => htn, fun h => absurd hv h⟩
        · exact hlow j (by omega)
      · intro h1 h2
        rw [freed_settled_succ]
        have := hcount h1 h2
        simp only [hv, not_true_eq_false, false_and, if_false]
        omega
    · have hstep := toggle_slot_stale E t n (by rw [hmode, htn]; exact hv)
      rw [hstep]
      refine ⟨hmode, ?_, ?_, ?_⟩
      · intro j hj
        by_cases hjn : j = n
        · subst hjn
          refine ⟨fun h => absurd h hv, fun _ => ?_⟩
          simp only [Function.update_same, htn]
        · simp only [Function.update_noteq hjn]
          exact hlow j (by omega)
      · intro j hj
        have hjn : j ≠ n := by omega
        simp only [Function.update_noteq hjn]
        exact hhigh j (by omega)
      · intro h1 h2
        have hc := hcount h1 h2
        have hmono := freed_settled_mono E s (n + 1) KEYSTATE_COUNT hn
        rw [freed_settled_succ] at hmono ⊢
        simp only [htn]
        cases hst : (s.key_states n).state with
        | false =>
          simp only [hst] at hmono ⊢
          simp
          omega
        | true =>
          simp only [hst, hv, not_false_eq_true, and_self, if_true] at hmono ⊢
          omega

/-- C12. Keypad toggle effect.  `keystate_toggle_keypad` flips `keypad_mode`;
a slot whose code is valid in the new mode (below `KEYPAD_LAYER_START`, or in
the upper sub-range of the new mode) keeps its entry, every other slot is freed
(`l_key = NO_KEY`, `state = 0`); `key_press_count` decreases by exactly the
number of freed entries that were settled (when it is at least that number and
a `uint8_t`, in particular when it is the number of settled entries); and after
the toggle no tracked entry has a code that is invalid in the new mode. -/
theorem toggle_effect (E : Env) (s : State) :
    (keystate_toggle_keypad E s).keypad_mode = toggled_mode s ∧
    (∀ j < KEYSTATE_COUNT,
      (valid_in_mode E (toggled_mode s) (s.key_states j).l_key →
        (keystate_toggle_keypad E s).key_states j = s.key_states j) ∧
      (¬ valid_in_mode E (toggled_mode s) (s.key_states j).l_key →
        (keystate_toggle_keypad E s).key_states j
          = ⟨E.NO_KEY, false, (s.key_states j).debounce⟩)) ∧
    (freed_settled E s KEYSTATE_COUNT ≤ s.key_press_count → s.key_press_count < 256 →
      (keystate_toggle_keypad E s).key_press_count + freed_settled E s KEYSTATE_COUNT
        = s.key_press_count) ∧
    (s.key_press_count = settled_count s →
      (keystate_toggle_keypad E s).key_press_count + freed_settled E s KEYSTATE_COUNT
        = s.key_press_count) ∧
    (∀ j < KEYSTATE_COUNT, ((keystate_toggle_keypad E s).key_states j).l_key ≠ E.NO_KEY →
      valid_in_mode E (toggled_mode s) ((keystate_toggle_keypad E s).key_states j).l_key) := by
  have hdef : keystate_toggle_keypad E s
      = (List.range KEYSTATE_COUNT).foldl (toggle_slot E)
          { s with keypad_mode := toggled_mode s } := rfl
  obtain ⟨hmode, hlow, _, hcount⟩ := toggle_progress E s KEYSTATE_COUNT (le_refl _)
  rw [← hdef] at hmode hlow hcount
  refine ⟨hmode, hlow, hcount, ?_, ?_⟩
  · intro hc
    have h1 := freed_settled_le_settled E s
    have h2 := settled_count_le s
    simp only [KEYSTATE_COUNT] at h1 h2 ⊢
    exact hcount (by simp only [KEYSTATE_COUNT]; omega) (by omega)
  · intro j hj hne
    by_cases hv : valid_in_mode E (toggled_mode s) (s.key_states j).l_key
    · rw [(hlow j hj).1 hv]
      exact hv
    · rw [(hlow j hj).2 hv] at hne
      exact absurd rfl hne

theorem toggle_effect_witness :
    (keystate_toggle_keypad demoEnv threeKeysDown).key_states 2 = ⟨255, false, 7⟩ ∧
      (keystate_toggle_keypad demoEnv threeKeysDown).key_states 1 = ⟨1, true, 7⟩ ∧
      (keystate_toggle_keypad demoEnv threeKeysDown).key_press_count
          + freed_settled demoEnv threeKeysDown KEYSTATE_COUNT
        = threeKeysDown.key_press_count :=
  have h := toggle_effect demoEnv threeKeysDown
  ⟨(h.2.1 2 (by decide)).2 (by decide), (h.2.1 1 (by decide)).1 (by decide),
    h.2.2.2.1 (by decide)⟩

/-! ## The integer logarithm and the mouse acceleration -/

theorem mask_and_eq_zero_iff (k n : Nat) (hk : k ≤ 16) (hn : n < 2 ^ 16) :
    ((2 ^ (16 - k) - 1) <<< k) &&& n = 0 ↔ n < 2 ^ k := by
  constructor
  · intro h
    apply Nat.lt_pow_two_of_testBit
    intro i hi
    by_cases hi16 : i < 16
    · have hb : (((2 ^ (16 - k) - 1) <<< k) &&& n).testBit i = false := by
        rw [h]; exact Nat.zero_testBit i
      rw [Nat.testBit_and, Nat.testBit_shiftLeft, Nat.testBit_two_pow_sub_one] at hb
      have h1 : decide (i ≥ k) = true := by simpa using hi
      have h2 : decide (i - k < 16 - k) = true := by
        simp only [decide_eq_true_eq]; omega
      rw [h1, h2] at hb
      simpa using hb
    · apply Nat.testBit_lt_two_pow
      calc n < 2 ^ 16 := hn
        _ ≤ 2 ^ i := Nat.pow_le_pow_right (by norm_num) (by omega)
  · intro h
    apply Nat.eq_of_testBit_eq
    intro i
    rw [Nat.testBit_and, Nat.testBit_shiftLeft, Nat.zero_testBit]
    by_cases hik : i ≥ k
    · have hb : n.testBit i = false := by
        apply Nat.testBit_lt_two_pow
        calc n < 2 ^ k := h
          _ ≤ 2 ^ i := Nat.pow_le_pow_right (by norm_num) hik
      rw [hb]
      simp
    · simp [hik]

theorem shift_if_clear_FF00 (lz n : Nat) (hn : n < 65536) :
    shift_if_clear 0xFF00 8 (lz, n) = if n < 256 then (lz + 8, n * 256) else (lz, n) := by
  have h := mask_and_eq_zero_iff 8 n (by norm_num) (by norm_num; exact hn)
  have hm : (2 ^ (16 - 8) - 1) <<< 8 = 0xFF00 := by decide
  rw [hm] at h
  unfold shift_if_clear
  simp only [h, Nat.shiftLeft_eq]
  norm_num
  split_ifs with hlt
  · rw [Nat.mod_eq_of_lt (by omega)]
  · rfl

theorem shift_if_clear_F000 (lz n : Nat) (hn : n < 65536) :
    shift_if_clear 0xF000 4 (lz, n) = if n < 4096 then (lz + 4, n * 16) else (lz, n) := by
  have h := mask_and_eq_zero_iff 12 n (by norm_num) (by norm_num; exact hn)
  have hm : (2 ^ (16 - 12) - 1) <<< 12 = 0xF000 := by decide
  rw [hm] at h
  unfold shift_if_clear
  simp only [h, Nat.shiftLeft_eq]
  norm_num
  split_ifs with hlt
  · rw [Nat.mod_eq_of_lt (by omega)]
  · rfl

theorem shift_if_clear_C000 (lz n : Nat) (hn : n < 65536) :
    shift_if_clear 0xC000 2 (lz, n) = if n < 16384 then (lz + 2, n * 4) else (lz, n) := by
  have h := mask_and_eq_zero_iff 14 n (by norm_num) (by norm_num; exact hn)
  have hm : (2 ^ (16 - 14) - 1) <<< 14 = 0xC000 := by decide
  rw [hm] at h
  unfold shift_if_clear
  simp only [h, Nat.shiftLeft_eq]
  norm_num
  split_ifs with hlt
  · rw [Nat.mod_eq_of_lt (by omega)]
  · rfl

theorem shift_if_clear_8000 (lz n : Nat) (hn : n < 65536) :
    shift_if_clear 0x8000 1 (lz, n) = if n < 32768 then (lz + 1, n * 2) else (lz, n) := by
  have h := mask_and_eq_zero_iff 15 n (by norm_num) (by norm_num; exact hn)
  have hm : (2 ^ (16 - 15) - 1) <<< 15 = 0x8000 := by decide
  rw [hm] at h
  unfold shift_if_clear
  simp only [h, Nat.shiftLeft_eq]
  norm_num
  split_ifs with hlt
  · rw [Nat.mod_eq_of_lt (by omega)]
  · rfl

theorem shift_if_below_lt (bound mult bits : Nat) (p : Nat × Nat)
    (hb : bound * mult ≤ 65536) (hm : 0 < mult) (hp : p.2 < 65536) :
    (shift_if_below bound mult bits p).2 < 65536 := by
  unfold shift_if_below
  split_ifs with h
  · simp only
    calc p.2 * mult < bound * mult := Nat.mul_lt_mul_of_pos_right h hm
      _ ≤ 65536 := hb
  · exact hp

theorem ilog2_16_arith (n : Nat) (hn : n < 65536) :
    ilog2_16 n
      = (16 - (shift_if_below 32768 2 1 (shift_if_below 32768 2 1 (shift_if_below 16384 4 2
          (shift_if_below 4096 16 4 (shift_if_below 256 256 8 (0, n)))))).1) % 256 := by
  have e1 : shift_if_clear 0xFF00 8 (0, n) = shift_if_below 256 256 8 (0, n) :=
    shift_if_clear_FF00 0 n hn
  have b1 : (shift_if_below 256 256 8 (0, n)).2 < 65536 :=
    shift_if_below_lt 256 256 8 (0, n) (by norm_num) (by norm_num) hn
  have e2 : shift_if_clear 0xF000 4 (shift_if_below 256 256 8 (0, n))
      = shift_if_below 4096 16 4 (shift_if_below 256 256 8 (0, n)) :=
    shift_if_clear_F000 _ _ b1
  have b2 := shift_if_below_lt 4096 16 4 _ (by norm_num) (by norm_num) b1
  have e3 : shift_if_clear 0xC000 2 (shift_if_below 4096 16 4 (shift_if_below 256 256 8 (0, n)))
      = shift_if_below 16384 4 2 (shift_if_below 4096 16 4 (shift_if_below 256 256 8 (0, n))) :=
    shift_if_clear_C000 _ _ b2
  have b3 := shift_if_below_lt 16384 4 2 _ (by norm_num) (by norm_num) b2
  have e4 : shift_if_clear 0x8000 1 (shift_if_below 16384 4 2
        (shift_if_below 4096 16 4 (shift_if_below 256 256 8 (0, n))))
      = shift_if_below 32768 2 1 (shift_if_below 16384 4 2
        (shift_if_below 4096 16 4 (shift_if_below 256 256 8 (0, n)))) :=
    shift_if_clear_8000 _ _ b3
  have b4 := shift_if_below_lt 32768 2 1 _ (by norm_num) (by norm_num) b3
  have e5 : shift_if_clear 0x8000 1 (shift_if_below 32768 2 1 (shift_if_below 16384 4 2
        (shift_if_below 4096 16 4 (shift_if_below 256 256 8 (0, n)))))
      = shift_if_below 32768 2 1 (shift_if_below 32768 2 1 (shift_if_below 16384 4 2
        (shift_if_below 4096 16 4 (shift_if_below 256 256 8 (0, n))))) :=
    shift_if_clear_8000 _ _ b4
  unfold ilog2_16
  simp only
  rw [e1, e2, e3, e4, e5]

theorem shift_if_below_size (bound mult bits lo : Nat) (p : Nat × Nat)
    (hmult : mult = 2 ^ bits) (hlo : lo ≤ p.2) (hlo0 : 0 < lo) (hlm : bound ≤ lo * mult) :
    bound ≤ (shift_if_below bound mult bits p).2 ∧
      (shift_if_below bound mult bits p).1 + Nat.size p.2
        = p.1 + Nat.size (shift_if_below bound mult bits p).2 := by
  unfold shift_if_below
  split_ifs with h
  · simp only
    constructor
    · calc bound ≤ lo * mult := hlm
        _ ≤ p.2 * mult := Nat.mul_le_mul_right mult hlo
    · have hne : p.2 ≠ 0 := by omega
      have hs := Nat.size_shiftLeft hne bits
      rw [Nat.shiftLeft_eq, ← hmult] at hs
      rw [hs]
      omega
  · exact ⟨by omega, rfl⟩

theorem ilog2_16_eq_size (n : Nat) (hn : n < 65536) : ilog2_16 n = Nat.size n := by
  by_cases h0 : n = 0
  · subst h0
    rw [Nat.size_zero]
    decide
  · rw [ilog2_16_arith n hn]
    have b1 := shift_if_below_lt 256 256 8 (0, n) (by norm_num) (by norm_num) hn
    have b2 := shift_if_below_lt 4096 16 4 _ (by norm_num) (by norm_num) b1
    have b3 := shift_if_below_lt 16384 4 2 _ (by norm_num) (by norm_num) b2
    have b4 := shift_if_below_lt 32768 2 1 _ (by norm_num) (by norm_num) b3
    have b5 := shift_if_below_lt 32768 2 1 _ (by norm_num) (by norm_num) b4
    obtain ⟨l1, s1⟩ := shift_if_below_size 256 256 8 1 (0, n) (by norm_num)
      (by simp only; omega) (by norm_num) (by norm_num)
    obtain ⟨l2, s2⟩ := shift_if_below_size 4096 16 4 256 _ (by norm_num) l1
      (by norm_num) (by norm_num)
    obtain ⟨l3, s3⟩ := shift_if_below_size 16384 4 2 4096 _ (by norm_num) l2
      (by norm_num) (by norm_num)
    obtain ⟨l4, s4⟩ := shift_if_below_size 32768 2 1 16384 _ (by norm_num) l3
      (by norm_num) (by norm_num)
    obtain ⟨l5, s5⟩ := shift_if_below_size 32768 2 1 32768 _ (by norm_num) l4
      (by norm_num) (by norm_num)
    generalize shift_if_below 32768 2 1 (shift_if_below 32768 2 1 (shift_if_below 16384 4 2
      (shift_if_below 4096 16 4 (shift_if_below 256 256 8 (0, n))))) = p5 at *
    generalize shift_if_below 32768 2 1 (shift_if_below 16384 4 2
      (shift_if_below 4096 16 4 (shift_if_below 256 256 8 (0, n)))) = p4 at *
    generalize shift_if_below 16384 4 2
      (shift_if_below 4096 16 4 (shift_if_below 256 256 8 (0, n))) = p3 at *
    generalize shift_if_below 4096 16 4 (shift_if_below 256 256 8 (0, n)) = p2 at *
    generalize shift_if_below 256 256 8 (0, n) = p1 at *
    have hfinal : Nat.size p5.2 = 16 := by
      have hle : Nat.size p5.2 ≤ 16 := Nat.size_le.mpr (by norm_num; exact b5)
      have hgt : 15 < Nat.size p5.2 := Nat.lt_size.mpr (by norm_num; exact l5)
      omega
    have hsn : Nat.size n ≤ 16 := Nat.size_le.mpr (by norm_num; exact hn)
    simp only at s1
    omega

theorem size_eq_log_succ (n : Nat) (hn : n ≠ 0) : Nat.size n = Nat.log 2 n + 1 := by
  have hpos : 0 < Nat.size n := Nat.size_pos.mpr (Nat.pos_of_ne_zero hn)
  have h1 : 2 ^ (Nat.size n - 1) ≤ n := Nat.lt_size.mp (by omega)
  have h2 : n < 2 ^ (Nat.size n - 1 + 1) := by
    have := Nat.lt_size_self n
    have e : Nat.size n - 1 + 1 = Nat.size n := by omega
    rw [e]; exact this
  have := Nat.log_eq_of_pow_le_of_lt_pow h1 h2
  omega

/-- C15. Mouse acceleration is monotone: for 16-bit held-tick counts
`t1 <= t2`, `mouse_accel t1 <= mouse_accel t2`, within each regime and across
the boundary 0x2f. -/
theorem mouse_accel_monotone (t1 t2 : Nat) (h12 : t1 ≤ t2) (h2 : t2 < 65536) :
    mouse_accel t1 ≤ mouse_accel t2 := by
  have hs1 : ilog2_16 (t1 >>> 2) = Nat.size (t1 / 4) := by
    rw [Nat.shiftRight_eq_div_pow, ilog2_16_eq_size _ (by norm_num; omega)]
  have hs2 : ilog2_16 (t2 >>> 2) = Nat.size (t2 / 4) := by
    rw [Nat.shiftRight_eq_div_pow, ilog2_16_eq_size _ (by norm_num; omega)]
  have hl1 : ilog2_16 (t1 >>> 3) = Nat.size (t1 / 8) := by
    rw [Nat.shiftRight_eq_div_pow, ilog2_16_eq_size _ (by norm_num; omega)]
  have hl2 : ilog2_16 (t2 >>> 3) = Nat.size (t2 / 8) := by
    rw [Nat.shiftRight_eq_div_pow, ilog2_16_eq_size _ (by norm_num; omega)]
  have b1 : Nat.size (t1 / 4) ≤ 16 := Nat.size_le.mpr (by norm_num; omega)
  have b2 : Nat.size (t2 / 4) ≤ 16 := Nat.size_le.mpr (by norm_num; omega)
  have b3 : Nat.size (t1 / 8) ≤ 16 := Nat.size_le.mpr (by norm_num; omega)
  have b4 : Nat.size (t2 / 8) ≤ 16 := Nat.size_le.mpr (by norm_num; omega)
  have m4 : Nat.size (t1 / 4) ≤ Nat.size (t2 / 4) :=
    Nat.size_le_size (Nat.div_le_div_right h12)
  have m8 : Nat.size (t1 / 8) ≤ Nat.size (t2 / 8) :=
    Nat.size_le_size (Nat.div_le_div_right h12)
  unfold mouse_accel
  rw [hs1, hs2, hl1, hl2]
  by_cases c1 : t1 < 0x2f <;> by_cases c2 : t2 < 0x2f
  · rw [if_pos c1, if_pos c2]
    omega
  · rw [if_pos c1, if_neg c2]
    have hsmall : Nat.size (t1 / 4) ≤ 4 := Nat.size_le.mpr (by norm_num; omega)
    have hlarge : 2 < Nat.size (t2 / 8) := Nat.lt_size.mpr (by norm_num; omega)
    omega
  · omega
  · rw [if_neg c1, if_neg c2]
    omega

theorem mouse_accel_monotone_witness : mouse_accel 0x2e ≤ mouse_accel 0x2f :=
  mouse_accel_monotone 0x2e 0x2f (by decide) (by decide)

/-- The value `ilog2_16` returns on a 16-bit `n >= 1`: one more than
`floor(log2(n))`. -/
theorem ilog2_16_eq_log_succ (n : Nat) (h1 : 1 ≤ n) (hn : n < 65536) :
    ilog2_16 n = Nat.log 2 n + 1 := by
  rw [ilog2_16_eq_size n hn, size_eq_log_succ n (by omega)]

/-- C18 at a failing input.  `floor(log2(1)) = 0`, and `ilog2_16 1 = 1`; so
`mouse_accel 4 = 2` where the claim gives `floor(log2(4 div 4)) + 1 = 1`, and
`mouse_accel 0x2f = 6` where the claim gives `2 * floor(log2(0x2f div 8)) = 4`. -/
theorem ilog2_16_one_too_large :
    Nat.log 2 1 = 0 ∧ ilog2_16 1 = 1 ∧
      mouse_accel 4 = 2 ∧ Nat.log 2 (4 / 4) + 1 = 1 ∧
      mouse_accel 0x2f = 6 ∧ 2 * Nat.log 2 (0x2f / 8) = 4 := by
  refine ⟨by simp, by decide, by decide, by simp, by decide, ?_⟩
  have h : Nat.log 2 (0x2f / 8) = 2 :=
    Nat.log_eq_of_pow_le_of_lt_pow (by norm_num) (by norm_num)
  rw [h]

/-! ## The mouse report -/

theorem mouse_slot_send (E : Env) (M : MouseEnv) (s : State) (t : Nat)
    (acc : Bool × Bool × MouseReport_Data_t) (j : Nat) :
    (mouse_slot E M s t acc j).1 = (acc.1 || mouse_key E M s j) := by
  unfold mouse_slot mouse_key
  cases hst : (s.key_states j).state with
  | false => simp
  | true =>
    simp only [if_true, Bool.true_and]
    by_cases hr : E.config_get_definition (s.key_states j).l_key
          ≥ M.SPECIAL_HID_KEYS_MOUSE_START ∧
        E.config_get_definition (s.key_states j).l_key ≤ M.SPECIAL_HID_KEYS_MOUSE_END
    · rw [if_pos hr]
      simp only [hr, and_self, decide_True, Bool.or_true]
      split_ifs <;> rfl
    · rw [if_neg hr]
      simp [hr]

theorem mouse_slot_moving (E : Env) (M : MouseEnv) (s : State) (t : Nat)
    (acc : Bool × Bool × MouseReport_Data_t) (j : Nat) :
    (mouse_slot E M s t acc j).2.1 = (acc.2.1 || direction_key E M s j) := by
  unfold mouse_slot direction_key mouse_key
  cases hst : (s.key_states j).state with
  | false => simp
  | true =>
    simp only [if_true, Bool.true_and]
    by_cases hr : E.config_get_definition (s.key_states j).l_key
          ≥ M.SPECIAL_HID_KEYS_MOUSE_START ∧
        E.config_get_definition (s.key_states j).l_key ≤ M.SPECIAL_HID_KEYS_MOUSE_END
    · rw [if_pos hr]
      simp only [hr, and_self, decide_True, Bool.true_and]
      by_cases h1 : E.config_get_definition (s.key_states j).l_key
          = M.SPECIAL_HID_KEY_MOUSE_BTN1
      · simp only [if_pos h1, Bool.or_false]
      simp only [if_neg h1]
      by_cases h2 : E.config_get_definition (s.key_states j).l_key
          = M.SPECIAL_HID_KEY_MOUSE_BTN2
      · simp only [if_pos h2, Bool.or_false]
      simp only [if_neg h2]
      by_cases h3 : E.config_get_definition (s.key_states j).l_key
          = M.SPECIAL_HID_KEY_MOUSE_BTN3
      · simp only [if_pos h3, Bool.or_false]
      simp only [if_neg h3]
      by_cases h4 : E.config_get_definition (s.key_states j).l_key
          = M.SPECIAL_HID_KEY_MOUSE_BTN4
      · simp only [if_pos h4, Bool.or_false]
      simp only [if_neg h4]
      by_cases h5 : E.config_get_definition (s.key_states j).l_key
          = M.SPECIAL_HID_KEY_MOUSE_BTN5
      · simp only [if_pos h5, Bool.or_false]
      simp only [if_neg h5]
      by_cases h6 : E.config_get_definition (s.key_states j).l_key
          = M.SPECIAL_HID_KEY_MOUSE_FWD
      · simp only [if_pos h6, Bool.or_true]
      simp only [if_neg h6]
      by_cases h7 : E.config_get_definition (s.key_states j).l_key
          = M.SPECIAL_HID_KEY_MOUSE_BACK
      · simp only [if_pos h7, Bool.or_true]
      simp only [if_neg h7]
      by_cases h8 : E.config_get_definition (s.key_states j).l_key
          = M.SPECIAL_HID_KEY_MOUSE_LEFT
      · simp only [if_pos h8, Bool.or_true]
      simp only [if_neg h8]
      by_cases h9 : E.config_get_definition (s.key_states j).l_key
          = M.SPECIAL_HID_KEY_MOUSE_RIGHT
      · simp only [if_pos h9, Bool.or_true]
      simp only [if_neg h9, Bool.or_false]
    · rw [if_neg hr]
      simp [hr]

theorem mouse_slot_idle (E : Env) (M : MouseEnv) (s : State) (t : Nat)
    (acc : Bool × Bool × MouseReport_Data_t) (j : Nat) (h : mouse_key E M s j = false) :
    mouse_slot E M s t acc j = acc := by
  unfold mouse_key at h
  unfold mouse_slot
  cases hst : (s.key_states j).state with
  | false => simp
  | true =>
    rw [hst] at h
    simp only [Bool.true_and, decide_eq_false_iff_not] at h
    simp only [if_true]
    rw [if_neg h]

theorem mouse_fold_send (E : Env) (M : MouseEnv) (s : State) (t : Nat) :
    ∀ (n : Nat) (acc : Bool × Bool × MouseReport_Data_t),
      ((List.range n).foldl (mouse_slot E M s t) acc).1
        = (acc.1 || (List.range n).any (mouse_key E M s)) := by
  intro n
  induction n with
  | zero => intro acc; simp
  | succ n ih =>
    intro acc
    rw [List.range_succ, List.foldl_append, List.foldl_cons, List.foldl_nil, mouse_slot_send, ih,
      List.any_append]
    simp [Bool.or_assoc]

theorem mouse_fold_moving (E : Env) (M : MouseEnv) (s : State) (t : Nat) :
    ∀ (n : Nat) (acc : Bool × Bool × MouseReport_Data_t),
      ((List.range n).foldl (mouse_slot E M s t) acc).2.1
        = (acc.2.1 || (List.range n).any (direction_key E M s)) := by
  intro n
  induction n with
  | zero => intro acc; simp
  | succ n ih =>
    intro acc
    rw [List.range_succ, List.foldl_append, List.foldl_cons, List.foldl_nil, mouse_slot_moving,
      ih, List.any_append]
    simp [Bool.or_assoc]

theorem mouse_fold_idle (E : Env) (M : MouseEnv) (s : State) (t : Nat)
    (acc : Bool × Bool × MouseReport_Data_t)
    (h : (List.range KEYSTATE_COUNT).any (mouse_key E M s) = false) :
    (List.range KEYSTATE_COUNT).foldl (mouse_slot E M s t) acc = acc := by
  apply foldl_preserves (fun a => a = acc) _ _ _ _ rfl
  intro a j hj ha
  rw [ha]
  apply mouse_slot_idle
  cases hk : mouse_key E M s j with
  | false => rfl
  | true =>
    have : (List.range KEYSTATE_COUNT).any (mouse_key E M s) = true :=
      List.any_eq_true.mpr ⟨j, hj, hk⟩
    rw [h] at this
    cases this

theorem any_mouse_key_iff (E : Env) (M : MouseEnv) (s : State) :
    (List.range KEYSTATE_COUNT).any (mouse_key E M s) = true ↔
      ∃ j, j < KEYSTATE_COUNT ∧ (s.key_states j).state = true ∧
        M.SPECIAL_HID_KEYS_MOUSE_START ≤ E.config_get_definition (s.key_states j).l_key ∧
        E.config_get_definition (s.key_states j).l_key ≤ M.SPECIAL_HID_KEYS_MOUSE_END := by
  rw [List.any_eq_true]
  constructor
  · rintro ⟨j, hj, hk⟩
    unfold mouse_key at hk
    simp only [Bool.and_eq_true, decide_eq_true_eq] at hk
    exact ⟨j, List.mem_range.mp hj, hk.1, hk.2.1, hk.2.2⟩
  · rintro ⟨j, hj, h1, h2, h3⟩
    refine ⟨j, List.mem_range.mpr hj, ?_⟩
    unfold mouse_key
    simp only [Bool.and_eq_true, decide_eq_true_eq]
    exact ⟨h1, h2, h3⟩

/-- C14. Mouse should-send.  `keystate_Fill_MouseReport` returns true if and
only if some settled entry has an output code in
`[SPECIAL_HID_KEYS_MOUSE_START, SPECIAL_HID_KEYS_MOUSE_END]` or the `Button`
field after the call differs from the value recorded by the previous call (0
before the first call); the recorded value becomes the current `Button`.  In
particular, on a zeroed report with no mouse key settled the call returns true
when the recorded mask is not zero, and the same call repeated at once returns
false. -/
theorem mouse_should_send (E : Env) (M : MouseEnv) (s : State) (statics : MouseStatics)
    (report : MouseReport_Data_t) :
    ((keystate_Fill_MouseReport E M s statics report).1 = true ↔
      (∃ j, j < KEYSTATE_COUNT ∧ (s.key_states j).state = true ∧
        M.SPECIAL_HID_KEYS_MOUSE_START ≤ E.config_get_definition (s.key_states j).l_key ∧
        E.config_get_definition (s.key_states j).l_key ≤ M.SPECIAL_HID_KEYS_MOUSE_END) ∨
      (keystate_Fill_MouseReport E M s statics report).2.1.Button
        ≠ statics.last_button_report) ∧
    (keystate_Fill_MouseReport E M s statics report).2.2.last_button_report
      = (keystate_Fill_MouseReport E M s statics report).2.1.Button ∧
    mouse_startup.last_button_report = 0 ∧
    ((¬ ∃ j, j < KEYSTATE_COUNT ∧ (s.key_states j).state = true ∧
        M.SPECIAL_HID_KEYS_MOUSE_START ≤ E.config_get_definition (s.key_states j).l_key ∧
        E.config_get_definition (s.key_states j).l_key ≤ M.SPECIAL_HID_KEYS_MOUSE_END) →
      report.Button = 0 → statics.last_button_report ≠ 0 →
      (keystate_Fill_MouseReport E M s statics report).1 = true ∧
      (keystate_Fill_MouseReport E M s
        (keystate_Fill_MouseReport E M s statics report).2.2 report).1 = false) := by
  have hsend := mouse_fold_send E M s statics.mousedown_time KEYSTATE_COUNT (false, false, report)
  refine ⟨?_, rfl, rfl, ?_⟩
  · unfold keystate_Fill_MouseReport
    simp only
    rw [hsend, Bool.or_eq_true, Bool.false_or, any_mouse_key_iff, decide_eq_true_eq]
  · intro hnone h0 hlast
    have hany : (List.range KEYSTATE_COUNT).any (mouse_key E M s) = false := by
      cases h : (List.range KEYSTATE_COUNT).any (mouse_key E M s) with
      | false => rfl
      | true => exact absurd ((any_mouse_key_iff E M s).mp h) hnone
    have hidle : ∀ t, (List.range KEYSTATE_COUNT).foldl (mouse_slot E M s t)
        (false, false, report) = (false, false, report) :=
      fun t => mouse_fold_idle E M s t _ hany
    unfold keystate_Fill_MouseReport
    simp only [hidle, h0]
    constructor
    · simp only [Bool.false_or, decide_eq_true_eq]
      exact fun h => hlast h.symm
    · simp

theorem mouse_should_send_witness :
    (keystate_Fill_MouseReport pointerEnv pointerKeys (startup pointerEnv)
        (keystate_Fill_MouseReport pointerEnv pointerKeys buttonHeld mouse_startup
          zeroMouseReport).2.2
        zeroMouseReport).1 = true ∧
      (keystate_Fill_MouseReport pointerEnv pointerKeys (startup pointerEnv)
        (keystate_Fill_MouseReport pointerEnv pointerKeys (startup pointerEnv)
          (keystate_Fill_MouseReport pointerEnv pointerKeys buttonHeld mouse_startup
            zeroMouseReport).2.2
          zeroMouseReport).2.2 zeroMouseReport).1 = false :=
  (mouse_should_send pointerEnv pointerKeys (startup pointerEnv)
    (keystate_Fill_MouseReport pointerEnv pointerKeys buttonHeld mouse_startup
      zeroMouseReport).2.2 zeroMouseReport).2.2.2
    (by decide) (by decide) (by decide)

theorem fill_mousedown_time (E : Env) (M : MouseEnv) (s : State) (statics : MouseStatics)
    (report : MouseReport_Data_t) :
    (keystate_Fill_MouseReport E M s statics report).2.2.mousedown_time
      = if (List.range KEYSTATE_COUNT).any (direction_key E M s) = true then
          (statics.mousedown_time + 1) % 65536
        else 1 := by
  have hmov := mouse_fold_moving E M s statics.mousedown_time KEYSTATE_COUNT
    (false, false, report)
  unfold keystate_Fill_MouseReport
  simp only
  rw [hmov, Bool.false_or]

theorem mouse_calls_moving (E : Env) (M : MouseEnv) (s : State)
    (hdir : (List.range KEYSTATE_COUNT).any (direction_key E M s) = true) :
    ∀ (k : Nat) (statics : MouseStatics), statics.mousedown_time < 65536 →
      (mouse_calls E M s k statics).mousedown_time = (statics.mousedown_time + k) % 65536 := by
  intro k
  induction k with
  | zero =>
    intro statics ht
    simp only [mouse_calls, Nat.add_zero]
    rw [Nat.mod_eq_of_lt ht]
  | succ k ih =>
    intro statics _
    simp only [mouse_calls]
    have hstep := fill_mousedown_time E M s statics zeroMouseReport
    rw [if_pos hdir] at hstep
    rw [ih _ (by rw [hstep]; exact Nat.mod_lt _ (by norm_num)), hstep]
    omega

/-- C16 at a failing input.  After a call with no direction key held
(`mousedown_time = 1`) and 65535 consecutive calls with the key "forward" held,
the claim gives `mousedown_time = 1 + 65535`; the `uint16_t` counter has wrapped
and is 0, below its minimum 1. -/
theorem mousedown_time_wraps :
    (keystate_Fill_MouseReport pointerEnv pointerKeys (startup pointerEnv) mouse_startup
        zeroMouseReport).2.2.mousedown_time = 1 ∧
      (mouse_calls pointerEnv pointerKeys forwardHeld 65535
        (keystate_Fill_MouseReport pointerEnv pointerKeys (startup pointerEnv) mouse_startup
          zeroMouseReport).2.2).mousedown_time = 0 := by
  have h1 : (keystate_Fill_MouseReport pointerEnv pointerKeys (startup pointerEnv) mouse_startup
      zeroMouseReport).2.2.mousedown_time = 1 := by decide
  refine ⟨h1, ?_⟩
  rw [mouse_calls_moving pointerEnv pointerKeys forwardHeld (by decide) 65535 _
    (by rw [h1]; norm_num), h1]

/-! ## Initialisation -/

/-- C13, as stated, fails: `keystate_init` does not write `key_press_count`.
Called on the table `programState`, whose counter is 1, it frees slot 0 and
leaves the counter at 1. -/
theorem init_keeps_count :
    programState.key_press_count = 1 ∧
      (keystate_init demoEnv programState).key_states 0 = ⟨255, false, 0⟩ ∧
      (keystate_init demoEnv programState).key_press_count = 1 := by
  decide

/-- C13, amended.  For every prior state, after `keystate_init` every one of
the 14 slots is free (`l_key = NO_KEY`, `state = 0`, `debounce = 0`) and
`key_press_count` has its prior value; at start-up, where the initialiser of
`key_press_count` has set it to 0, the settled count is 0 after the call. -/
theorem init_frees_all_slots (E : Env) (s : State) :
    (∀ j < KEYSTATE_COUNT, (keystate_init E s).key_states j = ⟨E.NO_KEY, false, 0⟩) ∧
    (keystate_init E s).key_press_count = s.key_press_count ∧
    (startup E).key_press_count = 0 := by
  refine ⟨fun j hj => keystate_init_slot E s j hj, keystate_init_count E s, ?_⟩
  unfold startup
  rw [keystate_init_count]

/-! ## Well-formedness of the table -/

/-- C17. Table well-formedness.  In every state reached from start-up by scans
and keypad toggles, for a matrix map whose effective codes never equal
`NO_KEY`: (a) no two distinct slots hold the same logical code other than
`NO_KEY`, and (b) every free slot has `state = 0`. -/
theorem table_well_formed (E : Env) (hmap : effective_codes_valid E) (events : List Event) :
    (∀ i < KEYSTATE_COUNT, ∀ j < KEYSTATE_COUNT, i ≠ j →
      ((run E (startup E) events).key_states i).l_key ≠ E.NO_KEY →
      ((run E (startup E) events).key_states i).l_key
        ≠ ((run E (startup E) events).key_states j).l_key) ∧
    (∀ j < KEYSTATE_COUNT, ((run E (startup E) events).key_states j).l_key = E.NO_KEY →
      ((run E (startup E) events).key_states j).state = false) := by
  obtain ⟨hu, hf⟩ := TableInv_run E hmap events
  refine ⟨?_, hf⟩
  intro i hi j hj hij hne heq
  exact hij (hu i hi j hj heq hne)

theorem table_well_formed_witness :
    ((run demoEnv (startup demoEnv)
        [Event.scan (fun _ _ => 1), Event.toggle, Event.scan (fun _ _ => 1)]).key_states 0).l_key
      ≠ ((run demoEnv (startup demoEnv)
        [Event.scan (fun _ _ => 1), Event.toggle, Event.scan (fun _ _ => 1)]).key_states 1).l_key :=
  (table_well_formed demoEnv (by decide)
    [Event.scan (fun _ _ => 1), Event.toggle, Event.scan (fun _ _ => 1)]).1 0 (by decide) 1
    (by decide) (by decide) (by decide)

/-! ## The short-circuit of the bulk query -/

/-- C20. The short-circuit of `keystate_check_keys` is sound for distinct keys.
In every table whose `key_press_count` is the number of settled entries, for
every list of pairwise distinct logical codes passed with its length as the
count: the call returns true exactly when `keystate_check_key` is true for
every listed code, and when the count exceeds `key_press_count` some listed
code is not down, so the early return does not change the answer. -/
theorem short_circuit_sound (s : State) (args : List Nat)
    (hcount : s.key_press_count = settled_count s) (hnd : args.Nodup)
    (hlt : ∀ a ∈ args, a < 256) :
    (∃ b, keystate_check_keys s args.length args = some b ∧
      (b = true ↔ ∀ a ∈ args, keystate_check_key s a = true)) ∧
    (args.length > s.key_press_count → ∃ a ∈ args, keystate_check_key s a = false) := by
  have hsome : args.length > s.key_press_count → ∃ a ∈ args, keystate_check_key s a = false := by
    intro hgt
    by_contra hno
    have hall : ∀ a ∈ args, is_settled s a := by
      intro a ha
      cases hk : keystate_check_key s a with
      | false => exact absurd ⟨a, ha, hk⟩ hno
      | true =>
        obtain ⟨j, hj, hkey, hst, _⟩ := (keystate_check_key_spec s a).mp hk
        exact ⟨j, hj, hkey, hst⟩
    have := distinct_down_le_settled s args hnd hall
    omega
  refine ⟨?_, hsome⟩
  by_cases hgt : args.length > s.key_press_count
  · refine ⟨false, by simp [keystate_check_keys, hgt], ?_⟩
    constructor
    · intro h; cases h
    · intro hall
      obtain ⟨a, ha, hk⟩ := hsome hgt
      rw [hall a ha] at hk
      cases hk
  · refine ⟨args.all (fun a => keystate_check_key s a), ?_, List.all_eq_true⟩
    simp only [keystate_check_keys, hgt, if_false]
    exact check_keys_loop_all s args hlt

theorem short_circuit_sound_witness :
    (∃ b, keystate_check_keys oneKeyDown 2 [0, 1] = some b ∧
      (b = true ↔ ∀ a ∈ [0, 1], keystate_check_key oneKeyDown a = true)) ∧
    ∃ a ∈ [0, 1], keystate_check_key oneKeyDown a = false :=
  have h := short_circuit_sound oneKeyDown [0, 1] (by decide) (by decide) (by decide)
  ⟨h.1, h.2 (by decide)⟩

/-! ## No stale layer keys -/

theorem effective_key_layer (E : Env) (mode c : Nat)
    (hroom : E.KEYPAD_LAYER_START + 2 * E.KEYPAD_LAYER_SIZE ≤ E.NO_KEY) (hNO8 : E.NO_KEY < 256)
    (hc : c < E.KEYPAD_LAYER_START + E.KEYPAD_LAYER_SIZE) :
    (mode ≠ 0 → E.KEYPAD_LAYER_START ≤ c →
      effective_key E mode c = c + E.KEYPAD_LAYER_SIZE) ∧
    (c < E.KEYPAD_LAYER_START → effective_key E mode c = c) ∧
    (mode = 0 → effective_key E mode c = c) ∧
    valid_in_mode E mode (effective_key E mode c) ∧
    effective_key E mode c ≠ E.NO_KEY := by
  unfold effective_key valid_in_mode
  by_cases h : mode ≠ 0 ∧ c ≥ E.KEYPAD_LAYER_START
  · rw [if_pos h]
    have hmod : (c + E.KEYPAD_LAYER_SIZE) % 256 = c + E.KEYPAD_LAYER_SIZE :=
      Nat.mod_eq_of_lt (by omega)
    rw [hmod]
    refine ⟨fun _ _ => rfl, fun h' => by omega, fun h' => absurd h' h.1, ?_, by omega⟩
    exact Or.inr (Or.inl ⟨h.1, by omega⟩)
  · rw [if_neg h]
    refine ⟨fun h1 h2 => absurd ⟨h1, h2⟩ h, fun _ => rfl, fun _ => rfl, ?_, by omega⟩
    by_cases hm : mode = 0
    · exact Or.inr (Or.inr ⟨hm, hc⟩)
    · left
      by_contra hge
      exact h ⟨hm, by omega⟩

theorem LayerInv_update (E : Env) (s : State) (k : Nat) (v : key_state) (c : Nat)
    (hinv : LayerInv E s)
    (hv : v.l_key ≠ E.NO_KEY → valid_in_mode E s.keypad_mode v.l_key) :
    LayerInv E { s with key_states := Function.update s.key_states k v, key_press_count := c } := by
  intro j hj hne
  simp only at hne ⊢
  by_cases hjk : j = k
  · subst hjk
    simp only [Function.update_same] at hne ⊢
    exact hv hne
  · simp only [Function.update_noteq hjk] at hne ⊢
    exact hinv j hj hne

theorem LayerInv_found_key (E : Env) (reading : Nat) (s : State) (k : Nat)
    (hk : k < KEYSTATE_COUNT) (hinv : LayerInv E s) : LayerInv E (found_key E reading s k) := by
  unfold found_key
  simp only
  split_ifs
  · exact LayerInv_update E s k ⟨E.NO_KEY, false, _⟩ _ hinv (fun h => absurd rfl h)
  · exact LayerInv_update E s k ⟨E.NO_KEY, false, _⟩ _ hinv (fun h => absurd rfl h)
  · exact LayerInv_update E s k ⟨(s.key_states k).l_key, true, _⟩ _ hinv (fun h => hinv k hk h)
  · exact LayerInv_update E s k ⟨(s.key_states k).l_key, (s.key_states k).state, _⟩ _ hinv
      (fun h => hinv k hk h)

theorem LayerInv_update_cell (E : Env) (hcodes : codes_below_layer_end E)
    (hroom : E.KEYPAD_LAYER_START + 2 * E.KEYPAD_LAYER_SIZE ≤ E.NO_KEY) (hNO8 : E.NO_KEY < 256)
    (reading : Nat → Nat → Nat) (r c : Nat) (hr : r < E.MATRIX_ROWS) (hc : c < E.MATRIX_COLS)
    (s : State) (hinv : LayerInv E s) : LayerInv E (update_cell E reading r s c) := by
  unfold update_cell
  simp only
  split_ifs with hpop
  · exact hinv
  · have hval := (effective_key_layer E s.keypad_mode (E.matrix_to_logical_map r c) hroom hNO8
      (hcodes r hr c hc hpop)).2.2.2.1
    rcases scan_slots_cases E (effective_key E s.keypad_mode (E.matrix_to_logical_map r c))
        (reading r c) s KEYSTATE_COUNT 0 E.NO_KEY (by simp) (Or.inl rfl)
      with h | ⟨k, _, _, h⟩ | ⟨k, hk, _, h⟩
    · rw [h]; exact hinv
    · rw [h]
      exact LayerInv_update E s k ⟨_, false, 1⟩ s.key_press_count hinv (fun _ => hval)
    · rw [h]
      exact LayerInv_found_key E (reading r c) s k hk hinv

theorem LayerInv_keystate_update (E : Env) (hcodes : codes_below_layer_end E)
    (hroom : E.KEYPAD_LAYER_START + 2 * E.KEYPAD_LAYER_SIZE ≤ E.NO_KEY) (hNO8 : E.NO_KEY < 256)
    (reading : Nat → Nat → Nat) (s : State) (hinv : LayerInv E s) :
    LayerInv E (keystate_update E reading s) := by
  unfold keystate_update
  apply foldl_preserves (LayerInv E) _ _ _ _ hinv
  intro a r hr ha
  apply foldl_preserves (LayerInv E) _ _ _ _ ha
  intro b c hc hb
  exact LayerInv_update_cell E hcodes hroom hNO8 reading r c (List.mem_range.mp hr)
    (List.mem_range.mp hc) b hb

theorem LayerInv_toggle (E : Env) (s : State) : LayerInv E (keystate_toggle_keypad E s) := by
  have hdef : keystate_toggle_keypad E s
      = (List.range KEYSTATE_COUNT).foldl (toggle_slot E)
          { s with keypad_mode := toggled_mode s } := rfl
  obtain ⟨hmode, hlow, _, _⟩ := toggle_progress E s KEYSTATE_COUNT (le_refl _)
  rw [← hdef] at hmode hlow
  intro j hj hne
  rw [hmode]
  by_cases hv : valid_in_mode E (toggled_mode s) (s.key_states j).l_key
  · rw [(hlow j hj).1 hv]
    exact hv
  · rw [(hlow j hj).2 hv] at hne
    exact absurd rfl hne

theorem LayerInv_startup (E : Env) : LayerInv E (startup E) := by
  intro j hj hne
  unfold startup at hne
  rw [keystate_init_slot E _ j hj] at hne
  exact absurd rfl hne

theorem LayerInv_run (E : Env) (hcodes : codes_below_layer_end E)
    (hroom : E.KEYPAD_LAYER_START + 2 * E.KEYPAD_LAYER_SIZE ≤ E.NO_KEY) (hNO8 : E.NO_KEY < 256)
    (events : List Event) : LayerInv E (run E (startup E) events) := by
  unfold run
  apply foldl_preserves (LayerInv E) _ _ _ _ (LayerInv_startup E)
  intro a e _ ha
  cases e with
  | scan reading => exact LayerInv_keystate_update E hcodes hroom hNO8 reading a ha
  | toggle => exact LayerInv_toggle E a

/-- C19. No stale layer keys.  When every populated matrix cell maps to a code
below `KEYPAD_LAYER_START + KEYPAD_LAYER_SIZE` and
`KEYPAD_LAYER_START + 2 * KEYPAD_LAYER_SIZE <= NO_KEY` (`NO_KEY` a `uint8_t`),
in every state reached from start-up by scans and toggles: with mode off no
tracked code is at or above `KEYPAD_LAYER_START + KEYPAD_LAYER_SIZE`, and with
mode on no tracked code lies in
`[KEYPAD_LAYER_START, KEYPAD_LAYER_START + KEYPAD_LAYER_SIZE)`.  With mode on, a
cell mapped to `c >= KEYPAD_LAYER_START` has the effective code
`c + KEYPAD_LAYER_SIZE` and a cell mapped to `c < KEYPAD_LAYER_START` the
effective code `c`, and a new press of the cell is recorded under that code. -/
theorem no_stale_layer_keys (E : Env) (hcodes : codes_below_layer_end E)
    (hroom : E.KEYPAD_LAYER_START + 2 * E.KEYPAD_LAYER_SIZE ≤ E.NO_KEY)
    (hNO8 : E.NO_KEY < 256) :
    (∀ (events : List Event), ∀ j < KEYSTATE_COUNT,
      ((run E (startup E) events).key_states j).l_key ≠ E.NO_KEY →
      ((run E (startup E) events).keypad_mode = 0 →
        ((run E (startup E) events).key_states j).l_key
          < E.KEYPAD_LAYER_START + E.KEYPAD_LAYER_SIZE) ∧
      ((run E (startup E) events).keypad_mode ≠ 0 →
        ¬ (E.KEYPAD_LAYER_START ≤ ((run E (startup E) events).key_states j).l_key ∧
          ((run E (startup E) events).key_states j).l_key
            < E.KEYPAD_LAYER_START + E.KEYPAD_LAYER_SIZE))) ∧
    (∀ r < E.MATRIX_ROWS, ∀ c < E.MATRIX_COLS, E.matrix_to_logical_map r c ≠ E.NO_KEY →
      ∀ mode, mode ≠ 0 →
        (E.KEYPAD_LAYER_START ≤ E.matrix_to_logical_map r c →
          effective_key E mode (E.matrix_to_logical_map r c)
            = E.matrix_to_logical_map r c + E.KEYPAD_LAYER_SIZE) ∧
        (E.matrix_to_logical_map r c < E.KEYPAD_LAYER_START →
          effective_key E mode (E.matrix_to_logical_map r c) = E.matrix_to_logical_map r c)) ∧
    (∀ (reading : Nat → Nat → Nat) (s : State), ∀ r < E.MATRIX_ROWS, ∀ c < E.MATRIX_COLS,
      KEYSTATE_COUNT ≤ E.NO_KEY →
      E.matrix_to_logical_map r c ≠ E.NO_KEY →
      ¬ is_tracked s (effective_key E s.keypad_mode (E.matrix_to_logical_map r c)) →
      reading r c ≠ 0 → has_free_slot E s →
      is_tracked (update_cell E reading r s c)
        (effective_key E s.keypad_mode (E.matrix_to_logical_map r c))) := by
  refine ⟨?_, ?_, ?_⟩
  · intro events j hj hne
    have hv := LayerInv_run E hcodes hroom hNO8 events j hj hne
    unfold valid_in_mode at hv
    constructor
    · intro hm
      rcases hv with h | h | h
      · omega
      · exact absurd hm h.1
      · exact h.2
    · intro hm hin
      rcases hv with h | h | h
      · omega
      · omega
      · exact hm h.1
  · intro r hr c hc hpop mode hmode
    have h := effective_key_layer E mode (E.matrix_to_logical_map r c) hroom hNO8
      (hcodes r hr c hc hpop)
    exact ⟨h.1 hmode, h.2.1⟩
  · intro reading s r _ c _ hNO hpop hun hrd hfree
    obtain ⟨k, hk, hkfree, hfirst⟩ :=
      exists_first (fun j => (s.key_states j).l_key = E.NO_KEY) KEYSTATE_COUNT hfree
    rw [update_cell_new E reading r c s hNO hpop hun hrd k hk hkfree hfirst]
    exact ⟨k, hk, by simp⟩

theorem no_stale_layer_keys_witness :
    (run demoEnv (startup demoEnv) [Event.toggle, Event.scan (fun _ _ => 1)]).key_states 2
        = ⟨12, false, 1⟩ ∧
      ¬ (demoEnv.KEYPAD_LAYER_START
          ≤ ((run demoEnv (startup demoEnv)
              [Event.toggle, Event.scan (fun _ _ => 1)]).key_states 2).l_key ∧
        ((run demoEnv (startup demoEnv)
            [Event.toggle, Event.scan (fun _ _ => 1)]).key_states 2).l_key
          < demoEnv.KEYPAD_LAYER_START + demoEnv.KEYPAD_LAYER_SIZE) :=
  ⟨by decide,
    ((no_stale_layer_keys demoEnv (by decide) (by decide) (by decide)).1
      [Event.toggle, Event.scan (fun _ _ => 1)] 2 (by decide) (by decide)).2 (by decide)⟩

end Keystate
